import Mathlib

/-!
# libcppa: string serialization, actor registry and proxy cache

A shallow embedding of the parts of libcppa that the verified properties talk
about.  Conventions used throughout:

* `std::string` is a `List Char`; a `char` is the `Char` with the same byte value.
* C++ exceptions are the `Except Exn` monad; a method that mutates its object
  takes the old object and returns the new one.
* Fixed-width integers are `Nat` / `Int`, reduced modulo `2^w` where the
  source can overflow.
* Heap objects that are compared by pointer (`actor`, `group`) carry an `addr`
  field that stands for their address.
-/

namespace cppa

/-! ## Exceptions -/

/-- The exceptions raised by the modelled code (`throw 42` is `int42`).  The last
constructor is not a C++ exception: it reports that a recursion bound of the embedding
was reached. -/
inductive Exn where
  | logic_error (what : String)
  | runtime_error (what : String)
  | invalid_argument (what : String)
  | underflow_error (what : String)
  | int42
  | recursion_bound
  deriving DecidableEq, Repr

/-! ## Text helpers (the C++ standard library) -/

/-- The character with byte value `n % 256`. -/
def byteChar (n : Nat) : Char := Char.ofNat (n % 256)

/-- The decimal digit character of `d % 10`. -/
def digitChar (d : Nat) : Char := Char.ofNat (48 + d % 10)

/-- Decimal digits of `n`, most significant first, `fuel` bounding the number of digits. -/
def decDigitsAux : Nat → Nat → List Char → List Char
  | 0, _, acc => acc
  | fuel + 1, n, acc =>
    if n < 10 then digitChar n :: acc
    else decDigitsAux fuel (n / 10) (digitChar n :: acc)

/-- Text of `out << n` for an unsigned integer wider than a `char`. -/
def ostream_put_nat (n : Nat) : List Char := decDigitsAux (n + 1) n []

/-- Text of `out << i` for a signed integer wider than a `char`. -/
def ostream_put_int (i : Int) : List Char :=
  if i < 0 then '-' :: ostream_put_nat i.natAbs else ostream_put_nat i.natAbs

/-- Is `c` a decimal digit. -/
def isDigitChar (c : Char) : Bool := decide (48 ≤ c.toNat) && decide (c.toNat ≤ 57)

/-- Is `c` white space for `std::isspace` in the C locale. -/
def isSpaceChar (c : Char) : Bool :=
  c.toNat == 32 || (decide (9 ≤ c.toNat) && decide (c.toNat ≤ 13))

/-- Value of the longest prefix of decimal digits, given the value `acc` read so far. -/
def readDigits : List Char → Nat → Nat
  | [], acc => acc
  | c :: cs, acc => if isDigitChar c then readDigits cs (acc * 10 + (c.toNat - 48)) else acc

/-- The sign and the magnitude that `num_get` reads from `s`: leading white space is
skipped, an optional sign and the longest run of digits follow; `none` when there is no
digit (the extraction fails). -/
def read_int_token (s : List Char) : Option (Bool × Nat) :=
  match s.dropWhile isSpaceChar with
  | [] => none
  | c :: cs =>
    if c = '-' then
      (match cs with
       | [] => none
       | d :: _ => if isDigitChar d then some (true, readDigits cs 0) else none)
    else if c = '+' then
      (match cs with
       | [] => none
       | d :: _ => if isDigitChar d then some (false, readDigits cs 0) else none)
    else if isDigitChar c then some (false, readDigits (c :: cs) 0)
    else none

/-- Result of `istringstream(s) >> x` for a signed integer `x` of range `[lo, hi]` that is
wider than a `char`: `0` is stored when the extraction fails and the nearest bound when
the number is out of range. -/
def istream_get_int (lo hi : Int) (s : List Char) : Int :=
  match read_int_token s with
  | none => 0
  | some (neg, n) =>
    let i : Int := if neg then -(n : Int) else (n : Int)
    if i < lo then lo else if hi < i then hi else i

/-- Result of `istringstream(s) >> x` for an unsigned integer `x` of maximum `hi` that is
wider than a `char`, as `num_get` of libstdc++ computes it: `0` is stored when the
extraction fails, `hi` is stored when the digits exceed `hi`, and otherwise the number
read, negated within the width of the type (modulo `hi + 1`) after a minus sign. -/
def istream_get_nat (hi : Nat) (s : List Char) : Nat :=
  match read_int_token s with
  | none => 0
  | some (neg, n) =>
    if hi < n then hi
    else if neg then (hi + 1 - n) % (hi + 1) else n

/-- Result of `istringstream(s) >> c` for a `char`-sized `c`: the first character after
leading white space, or `none` when there is none (the target is then left unchanged). -/
def istream_get_char (s : List Char) : Option Char := (s.dropWhile isSpaceChar).head?

/-! ## Primitive variant -/

/-- The tags of `primitive_variant`. -/
inductive primitive_type where
  | pt_int8 | pt_int16 | pt_int32 | pt_int64
  | pt_uint8 | pt_uint16 | pt_uint32 | pt_uint64
  | pt_float | pt_double | pt_long_double
  | pt_u8string | pt_u16string | pt_u32string
  | pt_null
  deriving DecidableEq, Repr

open primitive_type

/-- The tagged union `primitive_variant`.  An integer arm holds the mathematical value
(see `primitive_variant.in_range`), a floating-point arm holds the bit pattern, a string
arm holds the code units. -/
inductive primitive_variant where
  | i8 (v : Int) | i16 (v : Int) | i32 (v : Int) | i64 (v : Int)
  | u8 (v : Nat) | u16 (v : Nat) | u32 (v : Nat) | u64 (v : Nat)
  | fl (bits : Nat) | db (bits : Nat) | ldb (bits : Nat)
  | s8 (v : List Char) | s16 (v : List Nat) | s32 (v : List Nat)
  | null
  deriving DecidableEq, Repr

namespace primitive_variant

/-- The method `primitive_variant::ptype()`. -/
def ptype : primitive_variant → primitive_type
  | i8 _ => pt_int8 | i16 _ => pt_int16 | i32 _ => pt_int32 | i64 _ => pt_int64
  | u8 _ => pt_uint8 | u16 _ => pt_uint16 | u32 _ => pt_uint32 | u64 _ => pt_uint64
  | fl _ => pt_float | db _ => pt_double | ldb _ => pt_long_double
  | s8 _ => pt_u8string | s16 _ => pt_u16string | s32 _ => pt_u32string
  | null => pt_null

/-- The constructor `primitive_variant(primitive_type)`: the value-initialised arm. -/
def of_ptype : primitive_type → primitive_variant
  | pt_int8 => i8 0 | pt_int16 => i16 0 | pt_int32 => i32 0 | pt_int64 => i64 0
  | pt_uint8 => u8 0 | pt_uint16 => u16 0 | pt_uint32 => u32 0 | pt_uint64 => u64 0
  | pt_float => fl 0 | pt_double => db 0 | pt_long_double => ldb 0
  | pt_u8string => s8 [] | pt_u16string => s16 [] | pt_u32string => s32 []
  | pt_null => null

/-- The payload of every integer arm lies in the range of its C++ type. -/
def in_range : primitive_variant → Prop
  | i8 v => -128 ≤ v ∧ v ≤ 127
  | i16 v => -32768 ≤ v ∧ v ≤ 32767
  | i32 v => -2147483648 ≤ v ∧ v ≤ 2147483647
  | i64 v => -9223372036854775808 ≤ v ∧ v ≤ 9223372036854775807
  | u8 v => v ≤ 255
  | u16 v => v ≤ 65535
  | u32 v => v ≤ 4294967295
  | u64 v => v ≤ 18446744073709551615
  | _ => True

/-- The getter `get<std::string>(pv)`: fails with `std::logic_error` on another tag. -/
def get_string : primitive_variant → Except Exn (List Char)
  | s8 v => .ok v
  | _ => .error (.logic_error "type check failed")

/-- The getter `get<std::uint32_t>(pv)`. -/
def get_uint32 : primitive_variant → Except Exn Nat
  | u32 v => .ok v
  | _ => .error (.logic_error "type check failed")

/-- The getter `get<std::uint64_t>(pv)`. -/
def get_uint64 : primitive_variant → Except Exn Nat
  | u64 v => .ok v
  | _ => .error (.logic_error "type check failed")

end primitive_variant

open primitive_variant

/-! ## Parts of the library that are not part of the modelled sources -/

/-- Functions the modelled code calls whose definitions lie outside it: stream formatting
of floating-point numbers and the packing of atom names (`cppa/atom.hpp`). -/
structure externals where
  /-- Text of `out << x` for a floating-point `x` with the given tag and bit pattern. -/
  float_put : primitive_type → Nat → List Char
  /-- Bit pattern stored by `istringstream(s) >> x` for a floating-point `x`. -/
  float_get : primitive_type → List Char → Nat
  /-- The function `to_string(atom_value)`. -/
  atom_to_string : Nat → List Char
  /-- The function `detail::atom_val(char const*)`. -/
  atom_val : List Char → Nat

/-! ## `string_serializer` -/

/-- The object state of `string_serializer`: the text written to `out` so far, the two
flags and the stack of open object names (top first). -/
structure string_serializer where
  out : List Char
  m_after_value : Bool
  m_obj_just_opened : Bool
  m_open_objects : List (List Char)
  deriving DecidableEq, Repr

/-- The uniform name `@atom` that `write_value` and `read_value` compare against. -/
def atom_name : List Char := ['@', 'a', 't', 'o', 'm']

/-- The text written by `pt_writer::operator()(std::string const&)`, without the quotes:
every `"` becomes `\"`. -/
def escape_quotes : List Char → List Char
  | [] => []
  | c :: cs => if c = '"' then '\\' :: '"' :: escape_quotes cs else c :: escape_quotes cs

/-- The text written by `pt_writer` for a string: the escaped text between two quotes. -/
def pt_writer_string (str : List Char) : List Char := '"' :: (escape_quotes str ++ ['"'])

/-- The text that `value.apply(pt_writer(out))` appends to `out`.  The generic overload
streams the value (a `char` for the 8-bit integers), the UTF-16 and UTF-32 overloads
write nothing, and nothing is dispatched for the null tag. -/
def pt_writer (X : externals) : primitive_variant → List Char
  | i8 v => [byteChar (v % 256).toNat]
  | i16 v => ostream_put_int v
  | i32 v => ostream_put_int v
  | i64 v => ostream_put_int v
  | u8 v => [byteChar v]
  | u16 v => ostream_put_nat v
  | u32 v => ostream_put_nat v
  | u64 v => ostream_put_nat v
  | fl b => X.float_put pt_float b
  | db b => X.float_put pt_double b
  | ldb b => X.float_put pt_long_double b
  | s8 v => pt_writer_string v
  | s16 _ => []
  | s32 _ => []
  | null => []

namespace string_serializer

/-- The constructor `string_serializer(std::ostream&)` on an empty stream. -/
def init : string_serializer :=
  { out := [], m_after_value := false, m_obj_just_opened := false, m_open_objects := [] }

/-- The method `clear()`. -/
def clear (s : string_serializer) : string_serializer :=
  if s.m_after_value then
    { s with out := s.out ++ [',', ' '], m_after_value := false }
  else if s.m_obj_just_opened then
    { s with out := s.out ++ [' ', '(', ' '], m_obj_just_opened := false }
  else s

/-- The method `begin_object(type_name)`. -/
def begin_object (type_name : List Char) (s : string_serializer) : string_serializer :=
  let s := s.clear
  { s with m_open_objects := type_name :: s.m_open_objects,
           out := s.out ++ type_name,
           m_obj_just_opened := true }

/-- The method `end_object()`. -/
def end_object (s : string_serializer) : string_serializer :=
  let s :=
    if s.m_obj_just_opened then { s with m_obj_just_opened := false }
    else { s with out := s.out ++ (if s.m_after_value then [' ', ')'] else [')']) }
  { s with m_after_value := true, m_open_objects := s.m_open_objects.tail }

/-- The method `begin_sequence(size_t)`. -/
def begin_sequence (_size : Nat) (s : string_serializer) : string_serializer :=
  let s := s.clear
  { s with out := s.out ++ ['{', ' '] }

/-- The method `end_sequence()`. -/
def end_sequence (s : string_serializer) : string_serializer :=
  { s with out := s.out ++ (if s.m_after_value then [' ', '}'] else ['}']),
           m_after_value := true }

/-- The method `write_value(primitive_variant const&)`. -/
def write_value (X : externals) (value : primitive_variant) (s : string_serializer) :
    Except Exn string_serializer :=
  let s := s.clear
  match s.m_open_objects with
  | [] => .error (.runtime_error "write_value(): m_open_objects.empty()")
  | top :: _ =>
    if top = atom_name then
      match value with
      | u64 av =>
        .ok { s with out := s.out ++ pt_writer_string (X.atom_to_string av),
                     m_after_value := true }
      | _ => .error (.runtime_error "expected uint64 value after @atom")
    else
      .ok { s with out := s.out ++ pt_writer X value, m_after_value := true }

/-- The loop of `write_tuple`: `write_value` on every element in turn. -/
def write_values (X : externals) : List primitive_variant → string_serializer →
    Except Exn string_serializer
  | [], s => .ok s
  | v :: vs, s => do
    let s ← write_value X v s
    write_values X vs s

/-- The method `write_tuple(size, values)`. -/
def write_tuple (X : externals) (values : List primitive_variant) (s : string_serializer) :
    Except Exn string_serializer := do
  let s := s.clear
  let s := { s with out := s.out ++ ['{'] }
  let s ← write_values X values s
  .ok { s with out := s.out ++ (if s.m_after_value then [' ', '}'] else ['}']) }

end string_serializer

/-! ## `string_deserializer` -/

/-- The object state of `string_deserializer`.  The pair (`m_str`, `m_pos`) is kept as
`rest`, the characters from `m_pos` to the end of `m_str`; `*m_pos` at the end of the
string reads the terminating `'\0'`.  Both stacks have their top first. -/
structure string_deserializer where
  rest : List Char
  m_obj_had_left_parenthesis : List Bool
  m_open_objects : List (List Char)
  deriving DecidableEq, Repr

/-- The predicate of `next_delimiter()`. -/
def is_delimiter (c : Char) : Bool :=
  c = '(' || c = ')' || c = '{' || c = '}' || c = ' ' || c = ','

/-- The predicate `find_if_cond` of `read_value`. -/
def find_if_cond (c : Char) : Bool :=
  c = ')' || c = '}' || c = ' ' || c = ','

/-- The predicate of `skip_space_and_comma()`. -/
def is_space_or_comma (c : Char) : Bool := c = ' ' || c = ','

/-- The search `std::find_if(m_pos, m_str.end(), find_if_str_cond)` of `read_value`, where
`last` is the captured `last_char`: the characters before the first `"` that does not
follow a backslash, and the characters from there on. -/
def find_string_end (last : Char) : List Char → List Char × List Char
  | [] => ([], [])
  | c :: cs =>
    if c = '"' ∧ last ≠ '\\' then ([], c :: cs)
    else ((find_string_end c cs).1.cons c, (find_string_end c cs).2)

/-- The replacement loop of `read_value` (every `\"` becomes `"`).  `last` is the captured
`last_char`, `cur` the characters between `sbegin` and the search position, `tmp` the
string built so far and `hit` tells whether `sbegin` has moved.  On a hit the character
before the quote is dropped from `cur`. -/
def unescape_loop (last : Char) (cur tmp : List Char) (hit : Bool) :
    List Char → List Char × List Char × Bool
  | [] => (tmp, cur, hit)
  | c :: cs =>
    if c = '"' ∧ last = '\\' then unescape_loop last [] (tmp ++ cur.dropLast ++ ['"']) true cs
    else unescape_loop c (cur ++ [c]) tmp hit cs

/-- The value of `substr` after the replacement loop of `read_value`. -/
def unescape (substr : List Char) : List Char :=
  let r := unescape_loop ' ' [] [] false substr
  let tmp := if r.2.2 then r.1 ++ r.2.1 else r.1
  if tmp ≠ [] then tmp else substr

/-- The effect of `result.apply(from_string(substr))` on `primitive_variant result(ptype)`. -/
def apply_from_string (X : externals) (ptype : primitive_type) (substr : List Char) :
    primitive_variant :=
  match ptype with
  | pt_int8 =>
    (match istream_get_char substr with
     | none => i8 0
     | some c => i8 (if c.toNat % 256 < 128 then (c.toNat % 256 : Int)
                     else (c.toNat % 256 : Int) - 256))
  | pt_int16 => i16 (istream_get_int (-32768) 32767 substr)
  | pt_int32 => i32 (istream_get_int (-2147483648) 2147483647 substr)
  | pt_int64 => i64 (istream_get_int (-9223372036854775808) 9223372036854775807 substr)
  | pt_uint8 =>
    (match istream_get_char substr with
     | none => u8 0
     | some c => u8 (c.toNat % 256))
  | pt_uint16 => u16 (istream_get_nat 65535 substr)
  | pt_uint32 => u32 (istream_get_nat 4294967295 substr)
  | pt_uint64 => u64 (istream_get_nat 18446744073709551615 substr)
  | pt_float => fl (X.float_get pt_float substr)
  | pt_double => db (X.float_get pt_double substr)
  | pt_long_double => ldb (X.float_get pt_long_double substr)
  | pt_u8string => s8 substr
  | pt_u16string => s16 []
  | pt_u32string => s32 []
  | pt_null => null

namespace string_deserializer

/-- The constructor `string_deserializer(std::string const&)`. -/
def init (str : List Char) : string_deserializer :=
  { rest := str, m_obj_had_left_parenthesis := [], m_open_objects := [] }

/-- The method `skip_space_and_comma()`. -/
def skip_space_and_comma (d : string_deserializer) : string_deserializer :=
  { d with rest := d.rest.dropWhile is_space_or_comma }

/-- The method `throw_malformed(error_msg)`. -/
def throw_malformed {α : Type} (error_msg : String) : Except Exn α :=
  .error (.logic_error ("malformed string: " ++ error_msg))

/-- The method `consume(c)`, called with a delimiter `c` only; the text of the error
message is shortened. -/
def consume (c : Char) (d : string_deserializer) : Except Exn string_deserializer :=
  let d := d.skip_space_and_comma
  match d.rest with
  | [] => throw_malformed "expected another character"
  | x :: xs => if x ≠ c then throw_malformed "expected another character"
               else .ok { d with rest := xs }

/-- The method `try_consume(c)`, called with a delimiter `c` only. -/
def try_consume (c : Char) (d : string_deserializer) : Bool × string_deserializer :=
  let d := d.skip_space_and_comma
  match d.rest with
  | [] => (false, d)
  | x :: xs => if x = c then (true, { d with rest := xs }) else (false, d)

/-- The method `integrity_check()`. -/
def integrity_check (d : string_deserializer) : Except Exn Unit :=
  match d.m_open_objects, d.m_obj_had_left_parenthesis with
  | [], _ => throw_malformed "missing begin_object()"
  | _, [] => throw_malformed "missing begin_object()"
  | _ :: _, top :: _ =>
    if top = false then
      throw_malformed "expected left parenthesis after begin_object call or void value"
    else .ok ()

/-- The method `seek_object()`. -/
def seek_object (d : string_deserializer) : Except Exn (List Char × string_deserializer) :=
  let d := d.skip_space_and_comma
  let result := d.rest.takeWhile (fun c => !is_delimiter c)
  if result = [] then throw_malformed "could not seek object type name"
  else .ok (result, { d with rest := d.rest.dropWhile (fun c => !is_delimiter c) })

/-- The method `peek_object()`: `seek_object()` followed by `m_pos -= result.size()`, which
moves the position back to the first character of the name. -/
def peek_object (d : string_deserializer) : Except Exn (List Char × string_deserializer) :=
  match d.seek_object with
  | .error e => .error e
  | .ok (result, _) => .ok (result, d.skip_space_and_comma)

/-- The method `begin_object(type_name)`. -/
def begin_object (type_name : List Char) (d : string_deserializer) : string_deserializer :=
  let d := { d with m_open_objects := type_name :: d.m_open_objects }
  let d := d.skip_space_and_comma
  let r := d.try_consume '('
  { r.2 with m_obj_had_left_parenthesis := r.1 :: r.2.m_obj_had_left_parenthesis }

/-- The method `end_object()`. -/
def end_object (d : string_deserializer) : Except Exn string_deserializer :=
  match d.m_obj_had_left_parenthesis with
  | [] => throw_malformed "missing begin_object()"
  | top :: stack => do
    let d ← if top = true then d.consume ')' else .ok d
    let d := { d with m_obj_had_left_parenthesis := stack }
    match d.m_open_objects with
    | [] => .error (.runtime_error "no object to end")
    | _ :: names =>
      let d := { d with m_open_objects := names }
      if names = [] then
        let d := d.skip_space_and_comma
        if d.rest ≠ [] then throw_malformed "expected end of of string" else .ok d
      else .ok d

/-- The method `begin_sequence()`: one more than the number of commas before the next `}`. -/
def begin_sequence (d : string_deserializer) : Except Exn (Nat × string_deserializer) := do
  d.integrity_check
  let d ← d.consume '{'
  let list := d.rest.takeWhile (fun c => c ≠ '}')
  .ok (list.count ',' + 1, d)

/-- The method `end_sequence()`. -/
def end_sequence (d : string_deserializer) : Except Exn string_deserializer := do
  d.integrity_check
  d.consume '}'

/-- The part of `read_value(ptype)` after the `@atom` case. -/
def read_plain_value (X : externals) (ptype : primitive_type) (d : string_deserializer) :
    Except Exn (primitive_variant × string_deserializer) :=
  let d := d.skip_space_and_comma
  -- `quoted` tells whether the leading quote was skipped
  let quoted : Bool := decide (ptype = pt_u8string) && decide (d.rest.head? = some '"')
  let from_pos := if quoted then d.rest.tail else d.rest
  let split : List Char × List Char :=
    if quoted then find_string_end '"' from_pos
    else (from_pos.takeWhile (fun c => !find_if_cond c),
          from_pos.dropWhile (fun c => !find_if_cond c))
  match split.2 with
  | [] => .error (.logic_error "malformed string (unterminated value)")
  | c :: after =>
    if ptype = pt_u8string then
      if c ≠ '"' then .error (.logic_error "malformed string, expected '\"'")
      else .ok (apply_from_string X ptype (unescape split.1), { d with rest := after })
    else .ok (apply_from_string X ptype split.1, { d with rest := c :: after })

/-- The method `read_value(ptype)`; `depth` bounds the nesting of the recursive call
`read_value(pt_u8string)` of the `@atom` case. -/
def read_value_aux (X : externals) : Nat → primitive_type → string_deserializer →
    Except Exn (primitive_variant × string_deserializer)
  | 0, _, _ => .error .recursion_bound
  | depth + 1, ptype, d => do
    d.integrity_check
    if d.m_open_objects.head? = some atom_name then
      if ptype ≠ pt_uint64 then throw_malformed "expected read of pt_uint64 after @atom"
      else do
        let r ← read_value_aux X depth pt_u8string d
        let str_val ← r.1.get_string
        if str_val.length > 10 then throw_malformed "atom string size > 10"
        else .ok (u64 (X.atom_val str_val), r.2)
    else read_plain_value X ptype d

/-- The method `read_value(ptype)`.  The recursive call passes `pt_u8string`, which cannot
recurse again, so two levels are all the method can use (`read_value_aux_depth`). -/
def read_value (X : externals) (ptype : primitive_type) (d : string_deserializer) :
    Except Exn (primitive_variant × string_deserializer) :=
  read_value_aux X 2 ptype d

/-- The loop of `read_tuple`: `read_value` for every requested type in turn. -/
def read_values (X : externals) : List primitive_type → string_deserializer →
    Except Exn (List primitive_variant × string_deserializer)
  | [], d => .ok ([], d)
  | t :: ts, d => do
    let r ← read_value X t d
    let rs ← read_values X ts r.2
    .ok (r.1 :: rs.1, rs.2)

/-- The method `read_tuple(size, begin, storage)`. -/
def read_tuple (X : externals) (ptypes : List primitive_type) (d : string_deserializer) :
    Except Exn (List primitive_variant × string_deserializer) := do
  d.integrity_check
  let d ← d.consume '{'
  let r ← read_values X ptypes d
  let d ← r.2.consume '}'
  .ok (r.1, d)

end string_deserializer

/-! ## Associative containers -/

/-- The lookup `std::map::find`: the value stored under `k`, if any. -/
def map_find {κ α : Type} [DecidableEq κ] (k : κ) : List (κ × α) → Option α
  | [] => none
  | e :: m => if e.1 = k then some e.2 else map_find k m

/-- The insertion `std::map::insert`: adds the entry when the key is absent and leaves the
map unchanged when the key is present (the stored value is not overwritten). -/
def map_insert {κ α : Type} [DecidableEq κ] (k : κ) (v : α) (m : List (κ × α)) :
    List (κ × α) :=
  match map_find k m with
  | some _ => m
  | none => m ++ [(k, v)]

/-- The removal `std::map::erase(key)`. -/
def map_erase {κ α : Type} [DecidableEq κ] (k : κ) (m : List (κ × α)) : List (κ × α) :=
  m.filter (fun e => decide (e.1 ≠ k))

/-! ## Process information -/

/-- The class `process_information`: the process id and the 20 bytes of the node id. -/
structure process_information where
  m_process_id : Nat
  m_node_id : List Nat
  deriving DecidableEq, Repr

/-- The lowercase hexadecimal digit of `n % 16`. -/
def hex_digit (n : Nat) : Char :=
  if n % 16 < 10 then Char.ofNat (48 + n % 16) else Char.ofNat (87 + n % 16)

/-- The function `to_string(node_id_type const&)`: two hexadecimal digits for every byte. -/
def node_id_to_string : List Nat → List Char
  | [] => []
  | b :: bs => hex_digit (b % 256 / 16) :: hex_digit (b % 256) :: node_id_to_string bs

/-- The function `hex_char_value(c)`; `none` stands for `std::invalid_argument`. -/
def hex_char_value (c : Char) : Option Nat :=
  if 48 ≤ c.toNat ∧ c.toNat ≤ 57 then some (c.toNat - 48)
  else if 97 ≤ c.toNat ∧ c.toNat ≤ 102 then some (c.toNat - 97 + 10)
  else if 65 ≤ c.toNat ∧ c.toNat ≤ 70 then some (c.toNat - 65 + 10)
  else none

/-- The loop of `node_id_from_string` over `count` bytes. -/
def node_id_from_string_loop : Nat → List Char → Except Exn (List Nat)
  | 0, _ => .ok []
  | count + 1, j =>
    match hex_char_value (j.headD (Char.ofNat 0)) with
    | none => .error (.invalid_argument "illegal character")
    | some hi =>
      match hex_char_value (j.tail.headD (Char.ofNat 0)) with
      | none => .error (.invalid_argument "illegal character")
      | some lo => do
        let bytes ← node_id_from_string_loop count j.tail.tail
        .ok (((hi * 16) % 256 ||| lo) :: bytes)

/-- The number of bytes of a node id (`process_information::node_id_size`). -/
def node_id_size : Nat := 20

/-- The function `node_id_from_string(hash, node_id)`. -/
def node_id_from_string (hash : List Char) : Except Exn (List Nat) :=
  if hash.length ≠ node_id_size * 2 then
    .error (.invalid_argument "string argument is not a node id hash")
  else node_id_from_string_loop node_id_size hash

/-- The loop of `equal(hash, node_id)` over the bytes of `node_id`. -/
def equal_loop : List Char → List Nat → Bool
  | _, [] => true
  | j, b :: bs =>
    match hex_char_value (j.headD (Char.ofNat 0)) with
    | none => false
    | some hi =>
      match hex_char_value (j.tail.headD (Char.ofNat 0)) with
      | none => false
      | some lo => if ((hi * 16) % 256 ||| lo) ≠ b then false else equal_loop j.tail.tail bs

/-- The function `equal(hash, node_id)`. -/
def equal (hash : List Char) (node_id : List Nat) : Bool :=
  if hash.length ≠ node_id.length * 2 then false else equal_loop hash node_id

/-! ## Actors, groups and channels -/

/-- An `actor` object: `addr` is its address, the other fields are its data members. -/
structure actor where
  addr : Nat
  m_is_proxy : Bool
  m_id : Nat
  m_parent_process : process_information
  deriving DecidableEq, Repr

/-- A `group` object: `addr` is its address. -/
structure group where
  addr : Nat
  m_identifier : List Char
  m_module_name : List Char
  deriving DecidableEq, Repr

/-- A `channel` object is an actor, a group, or an object of another subclass. -/
inductive channel where
  | is_actor (a : actor)
  | is_group (g : group)
  | other (addr : Nat)
  deriving DecidableEq, Repr

/-! ## Actor registry -/

/-- The attachable `eraser` that `actor_registry::put` creates. -/
structure eraser where
  m_id : Nat
  deriving DecidableEq, Repr

/-- The class `actor_registry`; `m_instances` maps an id to an `actor_ptr`, where `none`
is the null pointer. -/
structure actor_registry where
  m_running : Nat
  m_ids : Nat
  m_instances : List (Nat × Option actor)
  deriving DecidableEq, Repr

namespace actor_registry

/-- The constructor `actor_registry()`. -/
def init : actor_registry := { m_running := 0, m_ids := 1, m_instances := [] }

/-- The method `get(key)`. -/
def get (key : Nat) (r : actor_registry) : Option actor :=
  match map_find key r.m_instances with
  | some p => p
  | none => none

/-- The method `put(key, value)`: the new registry and the eraser that was attached to
`value`, if one was. -/
def put (key : Nat) (value : Option actor) (r : actor_registry) :
    actor_registry × Option eraser :=
  match value with
  | none => (r, none)
  | some a =>
    match map_find key r.m_instances with
    | none => ({ r with m_instances := map_insert key (some a) r.m_instances },
               some { m_id := a.m_id })
    | some _ => (r, none)

/-- The method `erase(key)`. -/
def erase (key : Nat) (r : actor_registry) : actor_registry :=
  { r with m_instances := map_insert key none r.m_instances }

/-- The method `eraser::detach(reason)`, run when the actor it is attached to exits. -/
def eraser_detach (e : eraser) (r : actor_registry) : actor_registry := r.erase e.m_id

/-- The method `next_id()`: `m_ids.fetch_add(1)` on a 32-bit unsigned counter. -/
def next_id (r : actor_registry) : Nat × actor_registry :=
  (r.m_ids, { r with m_ids := (r.m_ids + 1) % 2 ^ 32 })

end actor_registry

/-! ## Actor proxy cache -/

/-- The type `actor_proxy_cache::key_tuple`: actor id, process id, node id. -/
abbrev key_tuple := Nat × Nat × List Nat

/-- The class `actor_proxy_cache`.  `m_new_cb` tells whether a callback is installed and
`new_cb_calls` lists the proxies it was called with, oldest first. -/
structure actor_proxy_cache where
  m_pinfos : List (key_tuple × process_information)
  m_proxies : List (key_tuple × actor)
  m_new_cb : Bool
  new_cb_calls : List actor
  deriving DecidableEq, Repr

namespace actor_proxy_cache

/-- A cache without entries. -/
def init (cb : Bool) : actor_proxy_cache :=
  { m_pinfos := [], m_proxies := [], m_new_cb := cb, new_cb_calls := [] }

/-- The method `get_pinfo(key)`. -/
def get_pinfo (key : key_tuple) (c : actor_proxy_cache) :
    process_information × actor_proxy_cache :=
  match map_find key c.m_pinfos with
  | some p => (p, c)
  | none =>
    let tmp : process_information := { m_process_id := key.2.1, m_node_id := key.2.2 }
    (tmp, { c with m_pinfos := map_insert key tmp c.m_pinfos })

/-- The constructor `actor_proxy(mid, pptr)` placing the new object at address `addr`. -/
def new_actor_proxy (addr mid : Nat) (pptr : process_information) : actor :=
  { addr := addr, m_is_proxy := true, m_id := mid, m_parent_process := pptr }

/-- The method `get(key)`; `heap` is the address the next `new` returns. -/
def get (key : key_tuple) (c : actor_proxy_cache) (heap : Nat) :
    actor × actor_proxy_cache × Nat :=
  match map_find key c.m_proxies with
  | some p => (p, c, heap)
  | none =>
    let r := c.get_pinfo key
    let result := new_actor_proxy heap key.1 r.1
    let c := { r.2 with m_proxies := map_insert key result r.2.m_proxies }
    let c := if c.m_new_cb then { c with new_cb_calls := c.new_cb_calls ++ [result] } else c
    (result, c, heap + 1)

/-- The key under which `add` and `erase` file the proxy `pptr`. -/
def key_of (pptr : actor) : key_tuple :=
  (pptr.m_id, pptr.m_parent_process.m_process_id, pptr.m_parent_process.m_node_id)

/-- The method `add(pptr)`. -/
def add (pptr : actor) (c : actor_proxy_cache) : actor_proxy_cache :=
  let key := key_of pptr
  let c := { c with m_pinfos := map_insert key pptr.m_parent_process c.m_pinfos }
  let c := { c with m_proxies := map_insert key pptr c.m_proxies }
  if c.m_new_cb then { c with new_cb_calls := c.new_cb_calls ++ [pptr] } else c

/-- The method `erase(pptr)`. -/
def erase (pptr : actor) (c : actor_proxy_cache) : actor_proxy_cache :=
  { c with m_proxies := map_erase (key_of pptr) c.m_proxies }

/-- The method `size()`. -/
def size (c : actor_proxy_cache) : Nat := c.m_proxies.length

end actor_proxy_cache

/-! ## Group manager -/

/-- A `group::module`.  The class `local_group_module` is the only module class of the
sources: a module keeps the groups it created under their identifier. -/
structure group_module where
  m_name : List Char
  m_instances : List (List Char × group)
  deriving DecidableEq, Repr

/-- The class `group_manager`: the modules under their name. -/
structure group_manager where
  m_mmap : List (List Char × group_module)
  deriving DecidableEq, Repr

/-- The module name `local`. -/
def local_name : List Char := ['l', 'o', 'c', 'a', 'l']

namespace group_manager

/-- The constructor `group_manager()`: the module `local` is registered. -/
def init : group_manager :=
  { m_mmap := [(local_name, { m_name := local_name, m_instances := [] })] }

/-- The method `local_group_module::get(group_name)`; `heap` is the address the next
`new` returns. -/
def module_get (group_name : List Char) (m : group_module) (heap : Nat) :
    group × group_module × Nat :=
  match map_find group_name m.m_instances with
  | some g => (g, m, heap)
  | none =>
    let tmp : group := { addr := heap, m_identifier := group_name, m_module_name := m.m_name }
    (tmp, { m with m_instances := map_insert group_name tmp m.m_instances }, heap + 1)

/-- The method `group_manager::get(module_name, group_identifier)`; the text of the error
message, which quotes the module name, is shortened. -/
def get (module_name group_identifier : List Char) (gm : group_manager) (heap : Nat) :
    Except Exn (group × group_manager × Nat) :=
  match map_find module_name gm.m_mmap with
  | some m =>
    let r := module_get group_identifier m heap
    let mmap := gm.m_mmap.map (fun e => if e.1 = module_name then (e.1, r.2.1) else e)
    .ok (r.1, { gm with m_mmap := mmap }, r.2.2)
  | none => .error (.logic_error "no module with that name found")

end group_manager

/-! ## Process-wide state -/

/-- The state outside the serializers that serialization and deserialization read and
write: `process_information::get()`, the singletons of `singleton_manager`, the proxy
cache of the running thread, the address the next `new` returns, and the list of the
`attach` calls made so far (address of the actor, attached eraser). -/
structure World where
  pinfo : process_information
  registry : actor_registry
  proxy_cache : actor_proxy_cache
  groups : group_manager
  heap : Nat
  attached : List (Nat × eraser)
  deriving DecidableEq, Repr

/-! ## Type-info objects -/

/-- The registered types: the primitive types by their tag and the built-in classes. -/
inductive type_id where
  | prim (pt : primitive_type)
  | duration | any_tuple | actor_ptr | group_ptr | channel_ptr
  | atom_value | addr_msg | void_type
  deriving DecidableEq, Repr

/-- Modelled from the spec: the uniform names that `to_uniform_name` (not part of the
sources) gives the registered types; the spec lists `@i32`, `@u64`, `@str`, `@tuple`,
`@actor`, `@group`, `@channel`, `@atom`, `@duration` and `@0`, the other names follow
the same scheme. -/
def uniform_name : type_id → List Char
  | .prim pt_int8 => ['@', 'i', '8']
  | .prim pt_int16 => ['@', 'i', '1', '6']
  | .prim pt_int32 => ['@', 'i', '3', '2']
  | .prim pt_int64 => ['@', 'i', '6', '4']
  | .prim pt_uint8 => ['@', 'u', '8']
  | .prim pt_uint16 => ['@', 'u', '1', '6']
  | .prim pt_uint32 => ['@', 'u', '3', '2']
  | .prim pt_uint64 => ['@', 'u', '6', '4']
  | .prim pt_float => ['@', 'f']
  | .prim pt_double => ['@', 'd']
  | .prim pt_long_double => ['@', 'l', 'd']
  | .prim pt_u8string => ['@', 's', 't', 'r']
  | .prim pt_u16string => ['@', 'u', '1', '6', 's', 't', 'r']
  | .prim pt_u32string => ['@', 'u', '3', '2', 's', 't', 'r']
  | .prim pt_null => []
  | .duration => ['@', 'd', 'u', 'r', 'a', 't', 'i', 'o', 'n']
  | .any_tuple => ['@', 't', 'u', 'p', 'l', 'e']
  | .actor_ptr => ['@', 'a', 'c', 't', 'o', 'r']
  | .group_ptr => ['@', 'g', 'r', 'o', 'u', 'p']
  | .channel_ptr => ['@', 'c', 'h', 'a', 'n', 'n', 'e', 'l']
  | .atom_value => atom_name
  | .addr_msg => ['@', 'm', 's', 'g']
  | .void_type => ['@', '0']

/-- The name `nullptr_type_name`. -/
def nullptr_type_name : List Char := ['@', '0']

/-- The types that `uniform_type_info_map_helper::init` registers. -/
def registered_types : List type_id :=
  [.prim pt_u8string, .prim pt_u16string, .prim pt_u32string, .duration, .any_tuple,
   .actor_ptr, .group_ptr, .channel_ptr, .atom_value, .addr_msg, .void_type,
   .prim pt_float, .prim pt_double, .prim pt_long_double,
   .prim pt_int8, .prim pt_uint8, .prim pt_int16, .prim pt_uint16,
   .prim pt_int32, .prim pt_uint32, .prim pt_int64, .prim pt_uint64]

/-- The function `uniform_type_info::from(name)`: the registered type with that uniform
name, `std::runtime_error` when there is none. -/
def uniform_type_info_from (name : List Char) : Except Exn type_id :=
  match registered_types.find? (fun t => decide (uniform_name t = name)) with
  | some t => .ok t
  | none => .error (.runtime_error "is an unknown typeid name")

/-- An instance of a registered type (an `object`: a value with its type-info).  A
pointer is `none` when it is null; `prim v` is a value of the primitive type with the tag
of `v`, which is not `pt_null`. -/
inductive Value where
  | prim (v : primitive_variant)
  | duration (unit : Nat) (count : Nat)
  | any_tuple (slots : List Value)
  | actor_ptr (p : Option actor)
  | group_ptr (p : Option group)
  | channel_ptr (p : Option channel)
  | atom_value (v : Nat)
  | addr_msg (sender : Option actor) (receiver : Option channel) (content : List Value)
  | void_type

/-- The type-info of a value. -/
def Value.type : Value → type_id
  | .prim v => .prim v.ptype
  | .duration _ _ => .duration
  | .any_tuple _ => .any_tuple
  | .actor_ptr _ => .actor_ptr
  | .group_ptr _ => .group_ptr
  | .channel_ptr _ => .channel_ptr
  | .atom_value _ => .atom_value
  | .addr_msg _ _ _ => .addr_msg
  | .void_type => .void_type

/-! ## Serialization through the type-info objects -/

/-- The function `serialize_nullptr(sink)`. -/
def serialize_nullptr (sink : string_serializer) : string_serializer :=
  (sink.begin_object nullptr_type_name).end_object

/-- The function `actor_ptr_tinfo::s_serialize(ptr, sink, name)`. -/
def actor_ptr_s_serialize (X : externals) (ptr : Option actor) (name : List Char)
    (st : string_serializer × World) : Except Exn (string_serializer × World) :=
  match ptr with
  | none => .ok (serialize_nullptr st.1, st.2)
  | some a => do
    let r := st.2.registry.put a.m_id (some a)
    let log := match r.2 with
      | some e => st.2.attached ++ [(a.addr, e)]
      | none => st.2.attached
    let w := { st.2 with registry := r.1, attached := log }
    let ptup := [u32 a.m_id, u32 a.m_parent_process.m_process_id,
                 s8 (node_id_to_string a.m_parent_process.m_node_id)]
    let sink := st.1.begin_object name
    let sink ← sink.write_tuple X ptup
    .ok (sink.end_object, w)

/-- The function `group_ptr_tinfo::s_serialize(ptr, sink, name)`. -/
def group_ptr_s_serialize (X : externals) (ptr : Option group) (name : List Char)
    (st : string_serializer × World) : Except Exn (string_serializer × World) :=
  match ptr with
  | none => .ok (serialize_nullptr st.1, st.2)
  | some g => do
    let sink := st.1.begin_object name
    let sink ← sink.write_value X (s8 g.m_module_name)
    let sink ← sink.write_value X (s8 g.m_identifier)
    .ok (sink.end_object, st.2)

/-- The function `channel_ptr_tinfo::s_serialize`. -/
def channel_ptr_s_serialize (X : externals) (ptr : Option channel)
    (channel_type_name actor_ptr_type_name group_ptr_type_name : List Char)
    (st : string_serializer × World) : Except Exn (string_serializer × World) := do
  let sink := st.1.begin_object channel_type_name
  let st ← (match ptr with
    | none => .ok (serialize_nullptr sink, st.2)
    | some (.is_actor a) => actor_ptr_s_serialize X (some a) actor_ptr_type_name (sink, st.2)
    | some (.is_group g) => group_ptr_s_serialize X (some g) group_ptr_type_name (sink, st.2)
    | some (.other _) => .error (.logic_error "channel is neither an actor nor a group"))
  .ok (st.1.end_object, st.2)

/-- The function `any_tuple_tinfo::s_serialize(atup, sink, name)` for a tuple of `size`
slots, where `serialize_slots` runs the loop that serializes every slot with the
type-info of that slot. -/
def any_tuple_s_serialize (size : Nat)
    (serialize_slots : string_serializer × World → Except Exn (string_serializer × World))
    (name : List Char) (st : string_serializer × World) :
    Except Exn (string_serializer × World) := do
  let sink := st.1.begin_object name
  let sink := sink.begin_sequence size
  let st ← serialize_slots (sink, st.2)
  .ok (st.1.end_sequence.end_object, st.2)

mutual
/-- The virtual function `uniform_type_info::serialize(instance, sink)` of the type-info
of `v`. -/
def serialize (X : externals) : Value → string_serializer × World →
    Except Exn (string_serializer × World)
  | .prim v, st => do
    -- `default_uniform_type_info_impl<T>::serialize` with its one `primitive_member<T>`
    let sink := st.1.begin_object (uniform_name (.prim v.ptype))
    let sink ← sink.write_value X v
    .ok (sink.end_object, st.2)
  | .duration unit count, st => do
    let sink := st.1.begin_object (uniform_name .duration)
    let sink ← sink.write_value X (u32 unit)
    let sink ← sink.write_value X (u32 count)
    .ok (sink.end_object, st.2)
  | .any_tuple slots, st =>
    any_tuple_s_serialize slots.length (serialize_slots X slots) (uniform_name .any_tuple) st
  | .actor_ptr p, st => actor_ptr_s_serialize X p (uniform_name .actor_ptr) st
  | .group_ptr p, st => group_ptr_s_serialize X p (uniform_name .group_ptr) st
  | .channel_ptr p, st =>
    channel_ptr_s_serialize X p (uniform_name .channel_ptr) (uniform_name .actor_ptr)
      (uniform_name .group_ptr) st
  | .atom_value v, st => do
    let sink := st.1.begin_object (uniform_name .atom_value)
    let sink ← sink.write_value X (u64 v)
    .ok (sink.end_object, st.2)
  | .addr_msg sender receiver content, st => do
    let sink := st.1.begin_object (uniform_name .addr_msg)
    let st ← actor_ptr_s_serialize X sender (uniform_name .actor_ptr) (sink, st.2)
    let st ← channel_ptr_s_serialize X receiver (uniform_name .channel_ptr)
      (uniform_name .actor_ptr) (uniform_name .group_ptr) st
    let st ← any_tuple_s_serialize content.length (serialize_slots X content)
      (uniform_name .any_tuple) st
    .ok (st.1.end_object, st.2)
  | .void_type, st => .ok (serialize_nullptr st.1, st.2)
/-- The loop of `any_tuple_tinfo::s_serialize` over the slots. -/
def serialize_slots (X : externals) : List Value → string_serializer × World →
    Except Exn (string_serializer × World)
  | [], st => .ok st
  | v :: vs, st => do
    let st ← serialize X v st
    serialize_slots X vs st
end

/-- The function `detail::to_string_impl(what, utype)`: the rendered text and the state
the serialization leaves behind. -/
def to_string_impl (X : externals) (what : Value) (w : World) :
    Except Exn (List Char × World) := do
  let st ← serialize X what (string_serializer.init, w)
  .ok (st.1.out, st.2)

/-! ## Deserialization through the type-info objects -/

/-- The function `deserialize_nullptr(source)`. -/
def deserialize_nullptr (source : string_deserializer) : Except Exn string_deserializer :=
  (source.begin_object nullptr_type_name).end_object

/-- The function `actor_ptr_tinfo::s_deserialize(ptrref, source, name)`. -/
def actor_ptr_s_deserialize (X : externals) (name : List Char)
    (st : string_deserializer × World) :
    Except Exn (Option actor × string_deserializer × World) := do
  let r ← st.1.seek_object
  let cname := r.1
  if cname ≠ name then
    if cname = nullptr_type_name then do
      let source ← deserialize_nullptr r.2
      .ok (none, source, st.2)
    else .error (.logic_error "wrong type name found")
  else do
    let source := r.2.begin_object cname
    let t ← source.read_tuple X [pt_uint32, pt_uint32, pt_u8string]
    let source ← t.2.end_object
    let nstr ← (t.1.getD 2 null).get_string
    let pinf := st.2.pinfo
    let pid ← (t.1.getD 1 null).get_uint32
    if pinf.m_process_id = pid ∧ equal nstr pinf.m_node_id = true then do
      let id ← (t.1.getD 0 null).get_uint32
      .ok (st.2.registry.get id, source, st.2)
    else do
      let aid ← (t.1.getD 0 null).get_uint32
      let node ← node_id_from_string nstr
      let g := st.2.proxy_cache.get (aid, pid, node) st.2.heap
      .ok (some g.1, source, { st.2 with proxy_cache := g.2.1, heap := g.2.2 })

/-- The function `group_ptr_tinfo::s_deserialize(ptrref, source, name)`. -/
def group_ptr_s_deserialize (X : externals) (name : List Char)
    (st : string_deserializer × World) :
    Except Exn (Option group × string_deserializer × World) := do
  let r ← st.1.seek_object
  let cname := r.1
  if cname ≠ name then
    if cname = nullptr_type_name then do
      let source ← deserialize_nullptr r.2
      .ok (none, source, st.2)
    else .error (.logic_error "wrong type name found")
  else do
    let source := r.2.begin_object name
    let modname ← source.read_value X pt_u8string
    let groupid ← modname.2.read_value X pt_u8string
    let m ← modname.1.get_string
    let i ← groupid.1.get_string
    let g ← st.2.groups.get m i st.2.heap
    let source ← groupid.2.end_object
    .ok (some g.1, source, { st.2 with groups := g.2.1, heap := g.2.2 })

/-- The function `channel_ptr_tinfo::s_deserialize`. -/
def channel_ptr_s_deserialize (X : externals)
    (name actor_ptr_type_name group_ptr_type_name : List Char)
    (st : string_deserializer × World) :
    Except Exn (Option channel × string_deserializer × World) := do
  let r ← st.1.seek_object
  let cname := r.1
  if cname ≠ name then .error (.logic_error "wrong type name found")
  else do
    let source := r.2.begin_object cname
    let p ← source.peek_object
    let subobj := p.1
    let res ← (
      if subobj = actor_ptr_type_name then do
        let a ← actor_ptr_s_deserialize X actor_ptr_type_name (p.2, st.2)
        .ok (a.1.map channel.is_actor, a.2)
      else if subobj = group_ptr_type_name then do
        let g ← group_ptr_s_deserialize X group_ptr_type_name (p.2, st.2)
        .ok (g.1.map channel.is_group, g.2)
      else if subobj = nullptr_type_name then do
        let k ← p.2.seek_object
        let source ← deserialize_nullptr k.2
        .ok (none, source, st.2)
      else .error (.logic_error "unexpected type name"))
    let source ← res.2.1.end_object
    .ok (res.1, source, res.2.2)

/-- The loop of `any_tuple_tinfo::s_deserialize` over `tuple_size` slots, where
`deserialize t` is the virtual function `deserialize` of the type-info `t`. -/
def deserialize_slots
    (deserialize : type_id → string_deserializer × World →
      Except Exn (Value × string_deserializer × World)) :
    Nat → string_deserializer × World → Except Exn (List Value × string_deserializer × World)
  | 0, st => .ok ([], st)
  | tuple_size + 1, st => do
    let p ← st.1.peek_object
    let utype ← uniform_type_info_from p.1
    let v ← deserialize utype (p.2, st.2)
    let vs ← deserialize_slots deserialize tuple_size v.2
    .ok (v.1 :: vs.1, vs.2)

/-- The function `any_tuple_tinfo::s_deserialize(atref, source, name)`. -/
def any_tuple_s_deserialize
    (deserialize : type_id → string_deserializer × World →
      Except Exn (Value × string_deserializer × World))
    (name : List Char) (st : string_deserializer × World) :
    Except Exn (List Value × string_deserializer × World) := do
  let r ← st.1.seek_object
  let str := r.1
  if str ≠ name then .error (.logic_error "invalid type found")
  else do
    let source := r.2.begin_object str
    let b ← source.begin_sequence
    let vs ← deserialize_slots deserialize b.1 (b.2, st.2)
    let source ← vs.2.1.end_sequence
    let source ← source.end_object
    .ok (vs.1, source, vs.2.2)

/-- The virtual function `uniform_type_info::deserialize(instance, source)` of the
type-info `t`.  `fuel` bounds the nesting of tuples inside tuples; `from_string` passes the
length of the text. -/
def deserialize (X : externals) : Nat → type_id → string_deserializer × World →
    Except Exn (Value × string_deserializer × World)
  | 0, _, _ => .error .recursion_bound
  | fuel + 1, t, st =>
    match t with
    | .prim pt => do
      -- `default_uniform_type_info_impl<T>::deserialize` with its one `primitive_member<T>`
      let r ← st.1.seek_object
      if r.1 ≠ uniform_name (.prim pt) then .error (.logic_error "wrong type name found")
      else do
        let source := r.2.begin_object (uniform_name (.prim pt))
        let val ← source.read_value X pt
        let source ← val.2.end_object
        .ok (.prim val.1, source, st.2)
    | .duration => do
      let r ← st.1.seek_object
      if r.1 ≠ uniform_name .duration then .error .int42
      else do
        let source := r.2.begin_object r.1
        let unit_val ← source.read_value X pt_uint32
        let count_val ← unit_val.2.read_value X pt_uint32
        let source ← count_val.2.end_object
        let u ← unit_val.1.get_uint32
        let unit := if u = 1 then 1 else if u = 1000 then 1000
                    else if u = 1000000 then 1000000 else 0
        let count ← count_val.1.get_uint32
        .ok (.duration unit count, source, st.2)
    | .any_tuple => do
      let r ← any_tuple_s_deserialize (deserialize X fuel) (uniform_name .any_tuple) st
      .ok (.any_tuple r.1, r.2)
    | .actor_ptr => do
      let r ← actor_ptr_s_deserialize X (uniform_name .actor_ptr) st
      .ok (.actor_ptr r.1, r.2)
    | .group_ptr => do
      let r ← group_ptr_s_deserialize X (uniform_name .group_ptr) st
      .ok (.group_ptr r.1, r.2)
    | .channel_ptr => do
      let r ← channel_ptr_s_deserialize X (uniform_name .channel_ptr)
        (uniform_name .actor_ptr) (uniform_name .group_ptr) st
      .ok (.channel_ptr r.1, r.2)
    | .atom_value => do
      let r ← st.1.seek_object
      if r.1 ≠ uniform_name .atom_value then .error .int42
      else do
        let source := r.2.begin_object r.1
        let ptval ← source.read_value X pt_uint64
        let source ← ptval.2.end_object
        let v ← ptval.1.get_uint64
        .ok (.atom_value v, source, st.2)
    | .addr_msg => do
      let r ← st.1.seek_object
      if r.1 ≠ uniform_name .addr_msg then .error .int42
      else do
        let source := r.2.begin_object r.1
        let sender ← actor_ptr_s_deserialize X (uniform_name .actor_ptr) (source, st.2)
        let receiver ← channel_ptr_s_deserialize X (uniform_name .channel_ptr)
          (uniform_name .actor_ptr) (uniform_name .group_ptr) sender.2
        let content ← any_tuple_s_deserialize (deserialize X fuel) (uniform_name .any_tuple)
          receiver.2
        let source ← content.2.1.end_object
        .ok (.addr_msg sender.1 receiver.1 content.1, source, content.2.2)
    | .void_type => do
      let r ← st.1.seek_object
      if r.1 ≠ uniform_name .void_type then .error (.logic_error "wrong type name found")
      else do
        let source ← deserialize_nullptr r.2
        .ok (.void_type, source, st.2)

/-- The function `from_string(what)`: the deserialized object and the state left behind. -/
def from_string (X : externals) (what : List Char) (w : World) :
    Except Exn (Value × World) := do
  let strd := string_deserializer.init what
  let p ← strd.peek_object
  let utype ← uniform_type_info_from p.1
  let r ← deserialize X (what.length + 1) utype (p.2, w)
  .ok (r.1, r.2.2)

/-! ## Sample data -/

/-- A platform on which floating-point numbers print as nothing and every atom has the
name `quit`. -/
def sample_externals : externals :=
  { float_put := fun _ _ => [],
    float_get := fun _ _ => 0,
    atom_to_string := fun _ => ['q', 'u', 'i', 't'],
    atom_val := fun _ => 0 }

/-- The identity of a process with pid 7. -/
def sample_pinfo : process_information :=
  { m_process_id := 7, m_node_id := List.replicate 20 171 }

/-- The state of a process in which nothing has happened yet. -/
def sample_world : World :=
  { pinfo := sample_pinfo,
    registry := actor_registry.init,
    proxy_cache := actor_proxy_cache.init false,
    groups := group_manager.init,
    heap := 100,
    attached := [] }

/-- A local actor with id 5 of the sample process. -/
def sample_actor : actor :=
  { addr := 1, m_is_proxy := false, m_id := 5, m_parent_process := sample_pinfo }

/-- A proxy with id 5 for an actor of the process with pid 9. -/
def sample_proxy : actor :=
  { addr := 2, m_is_proxy := true, m_id := 5,
    m_parent_process := { m_process_id := 9, m_node_id := List.replicate 20 171 } }

/-! ## Calling `next_id` repeatedly -/

/-- The registry after `n` calls of `next_id()`. -/
def after_next_ids : Nat → actor_registry → actor_registry
  | 0, r => r
  | n + 1, r => after_next_ids n r.next_id.2

/-- The id returned by call number `n` of `next_id()`, counting from 0. -/
def nth_next_id (n : Nat) (r : actor_registry) : Nat := (after_next_ids n r).next_id.1

/-! ## States of the proxy cache -/

/-- The states a proxy cache can be in: it is created empty and changed by `get`,
`add` and `erase` only. -/
inductive actor_proxy_cache.reachable : actor_proxy_cache → Prop where
  | init (cb : Bool) : reachable (actor_proxy_cache.init cb)
  | get (c : actor_proxy_cache) (key : key_tuple) (heap : Nat) :
      reachable c → reachable (c.get key heap).2.1
  | add (c : actor_proxy_cache) (pptr : actor) : reachable c → reachable (c.add pptr)
  | erase (c : actor_proxy_cache) (pptr : actor) : reachable c → reachable (c.erase pptr)

/-- Every entry of the cache is filed under the key of its proxy, and every interned
process information under the process it describes. -/
def cache_consistent (c : actor_proxy_cache) : Prop :=
  (∀ e ∈ c.m_proxies, actor_proxy_cache.key_of e.2 = e.1) ∧
  (∀ e ∈ c.m_pinfos, e.2 = { m_process_id := e.1.2.1, m_node_id := e.1.2.2 })

/-! ## Auxiliary notions for the proofs -/

/-- The value of a run of decimal digits read after the value `a`. -/
def digitsVal (xs : List Char) (a : Nat) : Nat :=
  xs.foldl (fun acc c => acc * 10 + (c.toNat - 48)) a

/-- The text of a primitive object: the name, the value in parentheses. -/
def prim_text (name body : List Char) : List Char :=
  name ++ (' ' :: '(' :: ' ' :: (body ++ [' ', ')']))

/-- The primitive values that the string format carries through a round trip: an integer
of 16, 32 or 64 bits within the range of its type, and a UTF-8 string that does not end
in a backslash. -/
def primitive_variant.round_trips : primitive_variant → Prop
  | i16 v => -32768 ≤ v ∧ v ≤ 32767
  | i32 v => -2147483648 ≤ v ∧ v ≤ 2147483647
  | i64 v => -9223372036854775808 ≤ v ∧ v ≤ 9223372036854775807
  | u16 v => v ≤ 65535
  | u32 v => v ≤ 4294967295
  | u64 v => v ≤ 18446744073709551615
  | s8 v => v.getLast? ≠ some '\\'
  | _ => False

/-- The data members of an actor fit their C++ types: a 32-bit id, a 32-bit process id
and a node id of 20 bytes. -/
def actor.well_formed (a : actor) : Prop :=
  a.m_id ≤ 4294967295 ∧ a.m_parent_process.m_process_id ≤ 4294967295 ∧
  a.m_parent_process.m_node_id.length = node_id_size ∧
  ∀ b ∈ a.m_parent_process.m_node_id, b < 256

/-- The text that `actor_ptr_tinfo::s_serialize` writes for the actor `a`:
`@actor ( {id, pid, "node" } )`. -/
def actor_text (a : actor) : List Char :=
  uniform_name .actor_ptr ++ (' ' :: '(' :: ' ' :: '{' ::
    (ostream_put_nat a.m_id ++ (',' :: ' ' ::
      (ostream_put_nat a.m_parent_process.m_process_id ++ (',' :: ' ' ::
        (pt_writer_string (node_id_to_string a.m_parent_process.m_node_id)
          ++ [' ', '}', ' ', ')']))))))

/-- The process state after `actor_ptr_tinfo::s_serialize` has run for the actor `a`:
`put(a.id, a)` was called on the registry. -/
def World.after_serialize (w : World) (a : actor) : World :=
  { w with
    registry := (w.registry.put a.m_id (some a)).1,
    attached := match (w.registry.put a.m_id (some a)).2 with
      | some e => w.attached ++ [(a.addr, e)]
      | none => w.attached }

/-! ## Operations on the actor registry -/

/-- A call of a method that changes the actor registry. -/
inductive registry_op where
  | put (key : Nat) (value : Option actor)
  | erase (key : Nat)
  | next_id
  deriving DecidableEq, Repr

/-- The registry after the call `op`. -/
def actor_registry.step (r : actor_registry) : registry_op → actor_registry
  | .put key value => (r.put key value).1
  | .erase key => r.erase key
  | .next_id => r.next_id.2

/-- The registry after the calls `ops`, made in this order. -/
def actor_registry.run (r : actor_registry) (ops : List registry_op) : actor_registry :=
  ops.foldl actor_registry.step r

/-- The call `op` is not a `put` under the key `k`. -/
def registry_op.not_put (k : Nat) : registry_op → Prop
  | .put key _ => key ≠ k
  | _ => True

/-! ## Modules of the group manager -/

/-- How a call of `group_manager::add_module` ends: it returns, or it reads the name of
the module after the module has been deleted, which is undefined behaviour. -/
inductive add_module_outcome where
  | returned
  | reads_deleted_module
  deriving DecidableEq, Repr

/-- The method `group_manager::add_module(mod)`: the manager after the insertion and how
the call ends.  `mname` is a reference to the name stored in `*mod`, and the pair built
for `m_mmap.insert` owns the module.  When the name is taken, the insertion fails and the
pair, destroyed at the end of that statement, deletes the module; the text of the error
is then built from `mname`, a read of the deleted module, before `std::logic_error` could
be thrown. -/
def group_manager.add_module (mod : group_module) (gm : group_manager) :
    group_manager × add_module_outcome :=
  let inserted := (map_find mod.m_name gm.m_mmap).isNone
  let gm := { gm with m_mmap := map_insert mod.m_name mod gm.m_mmap }
  if inserted then (gm, .returned)
  else (gm, .reads_deleted_module)

/-- The states a group manager can be in: it is created with the module `local` and
changed by `add_module` and `get` only. -/
inductive group_manager.reachable : group_manager → Prop where
  | init : reachable group_manager.init
  | add_module (gm : group_manager) (mod : group_module) :
      reachable gm → reachable (gm.add_module mod).1
  | get (gm : group_manager) (module_name group_identifier : List Char) (heap : Nat)
      (r : group × group_manager × Nat) :
      reachable gm → gm.get module_name group_identifier heap = .ok r → reachable r.2.1

/-! ## Local groups -/

/-- The address of a channel object, by which `channel_ptr` values are ordered. -/
def channel.addr : channel → Nat
  | .is_actor a => a.addr
  | .is_group g => g.addr
  | .other n => n

/-- The order of `std::set<channel_ptr>`: by address. -/
def channel.le (a b : channel) : Prop := a.addr ≤ b.addr

instance channel.decidable_le : DecidableRel channel.le :=
  fun a b => Nat.decLe a.addr b.addr

/-- The class `local_group`: the group object and its `m_subscribers`, a
`std::set<channel_ptr>` kept as the list of its elements in iteration order.  A subscriber
is a channel object; a null pointer is not a subscriber. -/
structure local_group where
  self : group
  m_subscribers : List channel
  deriving DecidableEq, Repr

/-- The attachable `group::unsubscriber`. -/
structure unsubscriber where
  m_self : channel
  m_group : Option group
  deriving DecidableEq, Repr

/-- A call `receiver->enqueue(sender, msg)`. -/
structure enqueue_call where
  receiver : channel
  sender : Option actor
  msg : List Value

namespace local_group

/-- The constructor `local_group(gname)` placing the new object at address `addr`. -/
def init (addr : Nat) (gname : List Char) : local_group :=
  { self := { addr := addr, m_identifier := gname, m_module_name := local_name },
    m_subscribers := [] }

/-- The loop of `enqueue` over the subscribers: the calls made, in order.  `callee c`
tells whether the call `c->enqueue(sender, msg)` returns; the loop does not get past a call
that does not return, and the result is then `none`. -/
def enqueue_loop (callee : channel → Bool) (sender : Option actor) (msg : List Value) :
    List channel → Option (List enqueue_call)
  | [] => some []
  | c :: cs =>
    if callee c then
      (enqueue_loop callee sender msg cs).map
        (fun calls => { receiver := c, sender := sender, msg := msg } :: calls)
    else none

/-- The method `enqueue(sender, msg)`: the calls it makes on its subscribers, in order, and
the group after the call; `none` when the call does not return within `fuel` nested
calls.  `heap` holds the local groups under their address: a subscriber that is one of
them runs this method in turn, the `enqueue` of any other subscriber returns. -/
def enqueue (heap : List (Nat × local_group)) :
    Nat → local_group → Option actor → List Value → Option (List enqueue_call × local_group)
  | 0, _, _, _ => none
  | fuel + 1, g, sender, msg =>
    (enqueue_loop
      (fun c => match c with
        | .is_group h =>
          (match map_find h.addr heap with
           | some hg => (enqueue heap fuel hg sender msg).isSome
           | none => true)
        | _ => true)
      sender msg g.m_subscribers).map (fun calls => (calls, g))

/-- The method `subscribe(who)`: the returned `subscription` (a `unique_ptr`, `none` when
empty) and the group after the call. -/
def subscribe (who : channel) (g : local_group) : Option unsubscriber × local_group :=
  if who ∈ g.m_subscribers then (none, g)
  else (some { m_self := who, m_group := some g.self },
        { g with m_subscribers := g.m_subscribers.orderedInsert channel.le who })

/-- The method `unsubscribe(who)`. -/
def unsubscribe (who : channel) (g : local_group) : local_group :=
  { g with m_subscribers := g.m_subscribers.filter (fun c => decide (c ≠ who)) }

/-- The destructor of `group::unsubscriber`, where `g` is the group `m_group` points to. -/
def unsubscriber_destroy (u : unsubscriber) (g : local_group) : local_group :=
  match u.m_group with
  | some _ => g.unsubscribe u.m_self
  | none => g

/-- The destruction of a `subscription`. -/
def subscription_destroy (s : Option unsubscriber) (g : local_group) : local_group :=
  match s with
  | some u => unsubscriber_destroy u g
  | none => g

/-- The states a local group can be in: it is created without subscribers and changed by
`subscribe` and `unsubscribe` only. -/
inductive reachable : local_group → Prop where
  | init (addr : Nat) (gname : List Char) : reachable (local_group.init addr gname)
  | subscribe (g : local_group) (who : channel) : reachable g → reachable (g.subscribe who).2
  | unsubscribe (g : local_group) (who : channel) :
      reachable g → reachable (g.unsubscribe who)

end local_group

/-- A local group that is subscribed to itself. -/
def sample_self_subscribed : local_group :=
  ((local_group.init 1 ['g']).subscribe
    (.is_group { addr := 1, m_identifier := ['g'], m_module_name := local_name })).2

/-! ## Comparing process information -/

/-- The C function `strncmp(a, b, n)` on byte strings: the difference of the first pair of
bytes that differ among the first `n`, taken as `unsigned char`; the comparison stops after
a pair of null bytes.  Only the sign of the result is specified by the C standard. -/
def strncmp : List Nat → List Nat → Nat → Int
  | _, _, 0 => 0
  | a, b, n + 1 =>
    if a.headD 0 ≠ b.headD 0 then (a.headD 0 : Int) - (b.headD 0 : Int)
    else if a.headD 0 = 0 then 0
    else strncmp a.tail b.tail n

/-- The method `process_information::compare(other)`. -/
def process_information.compare (self other : process_information) : Int :=
  let tmp := strncmp self.m_node_id other.m_node_id node_id_size
  if tmp = 0 then
    if self.m_process_id < other.m_process_id then -1
    else if self.m_process_id = other.m_process_id then 0
    else 1
  else tmp

/-! ## Copying primitive variants -/

namespace primitive_variant

/-- The function `ptv_set<FT>(lhs_type, lhs, rhs)` on a variant whose storage holds no
live arm: the arm of `rhs` is constructed and the tag is set. -/
def ptv_set (rhs : primitive_variant) (_self : primitive_variant) : primitive_variant := rhs

/-- The method `destroy()`. -/
def destroy (_self : primitive_variant) : primitive_variant := null

/-- The template `operator=(V&& value)`, where `value` is the primitive value held by the
variant `value`: assignment in place when the tags agree, `destroy()` followed by
`ptv_set` otherwise. -/
def assign_value (self value : primitive_variant) : primitive_variant :=
  if value.ptype = self.ptype then value
  else ptv_set value self.destroy

/-- The call `other.apply(setter(*this))`.  `apply` dispatches on the tag of `other` with
`util::pt_dispatch`, which calls nothing for `pt_null` (the method `type()` relies on it);
for any other tag the setter runs `*this = rhs` with the value of `other`. -/
def apply_setter (self other : primitive_variant) : primitive_variant :=
  match other with
  | null => self
  | v => self.assign_value v

/-- The copy constructor `primitive_variant(primitive_variant const& other)`. -/
def copy_construct (other : primitive_variant) : primitive_variant :=
  apply_setter null other

/-- The copy assignment `operator=(primitive_variant const& other)`. -/
def copy_assign (self other : primitive_variant) : primitive_variant :=
  apply_setter self other

/-- The state of `other` after `std::move` took its value: a string is left empty, an
arithmetic value is left as it was. -/
def moved_from : primitive_variant → primitive_variant
  | s8 _ => s8 []
  | s16 _ => s16 []
  | s32 _ => s32 []
  | v => v

/-- The move assignment `operator=(primitive_variant&& other)`: the call
`other.apply(mover(*this))`; the result is the new `*this` and the new `other`. -/
def move_assign (self other : primitive_variant) : primitive_variant × primitive_variant :=
  (apply_setter self other, moved_from other)

/-- The move constructor `primitive_variant(primitive_variant&& other)`. -/
def move_construct (other : primitive_variant) : primitive_variant × primitive_variant :=
  move_assign null other

end primitive_variant

/-! ## The map of type-info objects -/

/-- The native integer types that `uniform_type_info_map_helper::init` pushes. -/
inductive native_int where
  | char | signed_char | unsigned_char
  | short | unsigned_short
  | int | unsigned_int
  | long | unsigned_long
  | long_long | unsigned_long_long
  | wchar_t | char16_t | char32_t
  deriving DecidableEq, Repr

/-- The C++ types whose `typeid` the map is asked about.  The raw name `typeid(T).name()`
is a different string for every type, so a raw name is kept as the type it names;
`other name` is a type outside the built-in ones. -/
inductive cpp_type where
  | string | u16string | u32string
  | duration | any_tuple | actor_ptr | group_ptr | channel_ptr
  | atom_value | addressed_message | void_type
  | float | double | long_double
  | int (n : native_int)
  | other (name : List Char)
  deriving DecidableEq, Repr

/-- The constants of the platform the library is compiled for. -/
structure platform where
  /-- The value of `sizeof(T)` for a native integer type. -/
  sizeof : native_int → Nat
  /-- Whether `char` is a signed type. -/
  char_is_signed : Bool
  /-- Whether `wchar_t` is a signed type. -/
  wchar_is_signed : Bool
  /-- Whether `sizeof(double) == sizeof(long double)`. -/
  double_is_long_double : Bool

/-- The constant `std::numeric_limits<T>::is_signed` of a native integer type. -/
def platform.is_signed (P : platform) : native_int → Bool
  | .char => P.char_is_signed
  | .signed_char => true
  | .unsigned_char => false
  | .short => true
  | .unsigned_short => false
  | .int => true
  | .unsigned_int => false
  | .long => true
  | .unsigned_long => false
  | .long_long => true
  | .unsigned_long_long => false
  | .wchar_t => P.wchar_is_signed
  | .char16_t => false
  | .char32_t => false

/-- The platform x86-64 Linux. -/
def lp64 : platform :=
  { sizeof := fun n => match n with
      | .char => 1 | .signed_char => 1 | .unsigned_char => 1
      | .short => 2 | .unsigned_short => 2
      | .int => 4 | .unsigned_int => 4
      | .long => 8 | .unsigned_long => 8
      | .long_long => 8 | .unsigned_long_long => 8
      | .wchar_t => 4 | .char16_t => 2 | .char32_t => 4,
    char_is_signed := true,
    wchar_is_signed := true,
    double_is_long_double := false }

/-- The fixed-width integer types that get an `int_tinfo`. -/
inductive fixed_int where
  | int8 | uint8 | int16 | uint16 | int32 | uint32 | int64 | uint64
  deriving DecidableEq, Repr

/-- The value of `sizeof(T)` for a fixed-width integer type. -/
def fixed_int.sizeof : fixed_int → Nat
  | .int8 => 1 | .uint8 => 1 | .int16 => 2 | .uint16 => 2
  | .int32 => 4 | .uint32 => 4 | .int64 => 8 | .uint64 => 8

/-- The constant `is_signed<T>::value` of a fixed-width integer type. -/
def fixed_int.is_signed : fixed_int → Bool
  | .int8 => true | .uint8 => false | .int16 => true | .uint16 => false
  | .int32 => true | .uint32 => false | .int64 => true | .uint64 => false

/-- The registered type of a fixed-width integer type. -/
def fixed_int.type : fixed_int → type_id
  | .int8 => .prim pt_int8 | .uint8 => .prim pt_uint8
  | .int16 => .prim pt_int16 | .uint16 => .prim pt_uint16
  | .int32 => .prim pt_int32 | .uint32 => .prim pt_uint32
  | .int64 => .prim pt_int64 | .uint64 => .prim pt_uint64

/-- A `uniform_type_info` object (a meta-object): `addr` is its address, `m_name` its
uniform name, `impl` the built-in class it is an instance of (`none` for a class of the
user). -/
structure uniform_type_info where
  addr : Nat
  m_name : List Char
  impl : Option type_id
  deriving DecidableEq, Repr

/-- The insertion `std::set::insert`; the set is kept as the list of its elements. -/
def set_insert {α : Type} [DecidableEq α] (x : α) (s : List α) : List α :=
  if x ∈ s then s else s ++ [x]

/-- The assignment `m[k] = v` on a `std::map`. -/
def map_assign {κ α : Type} [DecidableEq κ] (k : κ) (v : α) : List (κ × α) → List (κ × α)
  | [] => [(k, v)]
  | e :: m => if e.1 = k then (k, v) :: m else e :: map_assign k v m

/-- The type of `m_ints`: for a size, the raw names of the signed (first) and of the
unsigned (second) native integer types of that size. -/
abbrev int_names := List (Nat × (List cpp_type × List cpp_type))

/-- The sets `ints[size]`, empty when the map has no entry for `size`. -/
def int_names.at (ints : int_names) (size : Nat) : List cpp_type × List cpp_type :=
  (map_find size ints).getD ([], [])

/-- The function `push<Int>(ints)` for one native integer type. -/
def push (P : platform) (ints : int_names) (n : native_int) : int_names :=
  if P.is_signed n then
    map_assign (P.sizeof n) (set_insert (.int n) (ints.at (P.sizeof n)).1,
      (ints.at (P.sizeof n)).2) ints
  else
    map_assign (P.sizeof n) ((ints.at (P.sizeof n)).1,
      set_insert (.int n) (ints.at (P.sizeof n)).2) ints

/-- The template arguments of the call `push<char, signed char, ...>(d->m_ints)`, in
order; `signed short`, `short int` and `signed short int` all name the type `short`, and
likewise for the other sizes. -/
def pushed_types : List native_int :=
  [.char, .signed_char, .unsigned_char,
   .short, .short, .unsigned_short, .short, .short, .unsigned_short,
   .int, .int, .unsigned_int,
   .long, .long, .unsigned_long, .long, .long, .unsigned_long,
   .long_long, .long_long, .unsigned_long_long,
   .wchar_t, .char16_t, .char32_t]

/-- The class `uniform_type_info_map`. -/
structure uniform_type_info_map where
  m_by_rname : List (cpp_type × uniform_type_info)
  m_by_uname : List (List Char × uniform_type_info)
  m_ints : int_names
  deriving DecidableEq, Repr

namespace uniform_type_info_map

/-- The method `by_raw_name(name)`; `none` is the null pointer. -/
def by_raw_name (name : cpp_type) (m : uniform_type_info_map) : Option uniform_type_info :=
  map_find name m.m_by_rname

/-- The method `by_uniform_name(name)`; `none` is the null pointer. -/
def by_uniform_name (name : List Char) (m : uniform_type_info_map) :
    Option uniform_type_info :=
  map_find name m.m_by_uname

/-- The function `uniform_type_info_map_helper::insert(d, uti, tnames)`. -/
def helper_insert (uti : uniform_type_info) (tnames : List cpp_type)
    (d : uniform_type_info_map) : Except Exn uniform_type_info_map :=
  if tnames = [] then .error (.logic_error "tnames.empty()")
  else
    .ok { d with
      m_by_rname := tnames.foldl (fun rn tname => map_insert tname uti rn) d.m_by_rname,
      m_by_uname := map_insert uti.m_name uti d.m_by_uname }

/-- The object that `new` creates at address `addr` for the built-in class of `t`. -/
def new_tinfo (addr : Nat) (t : type_id) : uniform_type_info :=
  { addr := addr, m_name := uniform_name t, impl := some t }

/-- The function `uniform_type_info_map_helper::init(d)` on the platform `P`; the objects
are numbered in the order of their creation. -/
def init (P : platform) : Except Exn uniform_type_info_map := do
  let d : uniform_type_info_map := { m_by_rname := [], m_by_uname := [], m_ints := [] }
  let d ← helper_insert (new_tinfo 0 (.prim pt_u8string)) [.string] d
  let d ← helper_insert (new_tinfo 1 (.prim pt_u16string)) [.u16string] d
  let d ← helper_insert (new_tinfo 2 (.prim pt_u32string)) [.u32string] d
  let d ← helper_insert (new_tinfo 3 .duration) [.duration] d
  let d ← helper_insert (new_tinfo 4 .any_tuple) [.any_tuple] d
  let d ← helper_insert (new_tinfo 5 .actor_ptr) [.actor_ptr] d
  let d ← helper_insert (new_tinfo 6 .group_ptr) [.actor_ptr] d
  let d ← helper_insert (new_tinfo 7 .channel_ptr) [.channel_ptr] d
  let d ← helper_insert (new_tinfo 8 .atom_value) [.atom_value] d
  let d ← helper_insert (new_tinfo 9 .addr_msg) [.addressed_message] d
  let d ← helper_insert (new_tinfo 10 .void_type) [.void_type] d
  let d ← helper_insert (new_tinfo 11 (.prim pt_float)) [.float] d
  let d ← (if P.double_is_long_double then
      helper_insert (new_tinfo 12 (.prim pt_double)) [.double, .long_double] d
    else do
      let d ← helper_insert (new_tinfo 12 (.prim pt_double)) [.double] d
      helper_insert (new_tinfo 13 (.prim pt_long_double)) [.long_double] d)
  let d := { d with m_ints := pushed_types.foldl (push P) d.m_ints }
  let d ← helper_insert (new_tinfo 14 (.prim pt_int8)) (d.m_ints.at 1).1 d
  let d ← helper_insert (new_tinfo 15 (.prim pt_uint8)) (d.m_ints.at 1).2 d
  let d ← helper_insert (new_tinfo 16 (.prim pt_int16)) (d.m_ints.at 2).1 d
  let d ← helper_insert (new_tinfo 17 (.prim pt_uint16)) (d.m_ints.at 2).2 d
  let d ← helper_insert (new_tinfo 18 (.prim pt_int32)) (d.m_ints.at 4).1 d
  let d ← helper_insert (new_tinfo 19 (.prim pt_uint32)) (d.m_ints.at 4).2 d
  let d ← helper_insert (new_tinfo 20 (.prim pt_int64)) (d.m_ints.at 8).1 d
  helper_insert (new_tinfo 21 (.prim pt_uint64)) (d.m_ints.at 8).2 d

/-- The loop of `insert` over the raw names: the map after the loop and whether a name
was already mapped (`std::runtime_error` is thrown at the first such name). -/
def insert_raw_names (what : uniform_type_info) :
    List cpp_type → List (cpp_type × uniform_type_info) →
    List (cpp_type × uniform_type_info) × Bool
  | [], rn => (rn, false)
  | plain_name :: names, rn =>
    match map_find plain_name rn with
    | some _ => (rn, true)
    | none => insert_raw_names what names (map_insert plain_name what rn)

/-- The method `insert(raw_names, what)`: the map after the call and the outcome, the
returned flag or the exception; `raw_names` lists the set in iteration order. -/
def insert (raw_names : List cpp_type) (what : uniform_type_info)
    (m : uniform_type_info_map) : uniform_type_info_map × Except Exn Bool :=
  match map_find what.m_name m.m_by_uname with
  | some _ => (m, .ok false)
  | none =>
    let m := { m with m_by_uname := map_insert what.m_name what m.m_by_uname }
    let r := insert_raw_names what raw_names m.m_by_rname
    if r.2 then
      ({ m with m_by_rname := r.1 },
       .error (.runtime_error "already mapped to an uniform_type_info"))
    else ({ m with m_by_rname := r.1 }, .ok true)

/-- The function `announce(tinfo, utype)`, where `tinfo` is the type with that
`std::type_info`. -/
def announce (tinfo : cpp_type) (utype : uniform_type_info) (m : uniform_type_info_map) :
    uniform_type_info_map × Except Exn Bool :=
  m.insert [tinfo] utype

/-- The method `int_tinfo<T>::equals(tinfo)`, where `tinfo` is the type with that
`std::type_info`. -/
def int_tinfo_equals (T : fixed_int) (tinfo : cpp_type) (m : uniform_type_info_map) : Bool :=
  let st := if T.is_signed then (m.m_ints.at T.sizeof).1 else (m.m_ints.at T.sizeof).2
  st.any (fun i => decide (i = tinfo))

end uniform_type_info_map

/-- The map that the constructor builds on x86-64 Linux. -/
def sample_type_map : uniform_type_info_map :=
  match uniform_type_info_map.init lp64 with
  | .ok m => m
  | .error _ => { m_by_rname := [], m_by_uname := [], m_ints := [] }

/-! ## Node ids as text -/

/-- The function `to_string(process_information const&)`: the pid streamed in decimal, an
`@`, and the node id in hexadecimal. -/
def process_information.to_string (what : process_information) : List Char :=
  ostream_put_nat what.m_process_id ++ '@' :: node_id_to_string what.m_node_id

/-- The value of a hexadecimal digit in the words of the specification: the position of
the character among `0123456789abcdef` or among `0123456789ABCDEF`; `none` when the
character is not a hexadecimal digit. -/
def spec_hex_value (c : Char) : Option Nat :=
  if c ∈ "0123456789abcdef".toList then some ("0123456789abcdef".toList.indexOf c)
  else if c ∈ "0123456789ABCDEF".toList then some ("0123456789ABCDEF".toList.indexOf c)
  else none

/-- The bytes that a text of hexadecimal digits decodes to, two digits per byte with the
most significant one first; `none` when a character is not a hexadecimal digit or when
the number of characters is odd. -/
def spec_hex_decode : List Char → Option (List Nat)
  | [] => some []
  | [_] => none
  | a :: b :: rest =>
    match spec_hex_value a, spec_hex_value b, spec_hex_decode rest with
    | some hi, some lo, some bytes => some ((16 * hi + lo) :: bytes)
    | _, _, _ => none

/-! ## The count of running actors -/

/-- The value `std::numeric_limits<size_t>::max()` of a 64-bit `size_t`. -/
def size_max : Nat := 2 ^ 64 - 1

namespace actor_registry

/-- The method `inc_running()`: `++m_running` on an atomic `size_t`. -/
def inc_running (r : actor_registry) : actor_registry :=
  { r with m_running := (r.m_running + 1) % 2 ^ 64 }

/-- The method `running()`. -/
def running (r : actor_registry) : Nat := r.m_running

/-- The method `dec_running()`: the registry after the call and the outcome, which is the
exception or tells whether `m_running_cv.notify_all()` was called.  The counter is
decremented before the new value is inspected. -/
def dec_running (r : actor_registry) : actor_registry × Except Exn Bool :=
  let new_val := (((r.m_running : Int) - 1) % 2 ^ 64).toNat
  let r := { r with m_running := new_val }
  if new_val = size_max then (r, .error (.underflow_error "actor_count::dec()"))
  else if new_val ≤ 1 then (r, .ok true)
  else (r, .ok false)

end actor_registry

/-- A call of `inc_running()` or of `dec_running()`. -/
inductive running_op where
  | inc
  | dec
  deriving DecidableEq, Repr

/-- The registry after a sequence of calls, each made after the one before has
returned; an exception of `dec_running()` ends the sequence. -/
def actor_registry.run_running : List running_op → actor_registry → Except Exn actor_registry
  | [], r => .ok r
  | .inc :: ops, r => actor_registry.run_running ops r.inc_running
  | .dec :: ops, r =>
    match r.dec_running.2 with
    | .error e => .error e
    | .ok _ => actor_registry.run_running ops r.dec_running.1

/-! ## Typed access to a primitive variant -/

namespace primitive_variant

/-- The C++ type `detail::ptype_to_type<PT>::type` as it is represented here: an integer
by its value, a floating-point number by its bit pattern, a string by its code units.
The tag `pt_null` has no C++ type (`void`). -/
def ptype_to_type : primitive_type → Type
  | pt_int8 => Int | pt_int16 => Int | pt_int32 => Int | pt_int64 => Int
  | pt_uint8 => Nat | pt_uint16 => Nat | pt_uint32 => Nat | pt_uint64 => Nat
  | pt_float => Nat | pt_double => Nat | pt_long_double => Nat
  | pt_u8string => List Char | pt_u16string => List Nat | pt_u32string => List Nat
  | pt_null => Unit

/-- The constructor `primitive_variant()`. -/
def init : primitive_variant := null

/-- The constructor `primitive_variant(V&& value)` for a value of the type with tag `PT`
(the template is rejected at compile time for `pt_null`). -/
def of_value : (PT : primitive_type) → ptype_to_type PT → primitive_variant
  | pt_int8, v => i8 v | pt_int16, v => i16 v | pt_int32, v => i32 v | pt_int64, v => i64 v
  | pt_uint8, v => u8 v | pt_uint16, v => u16 v | pt_uint32, v => u32 v
  | pt_uint64, v => u64 v
  | pt_float, v => fl v | pt_double, v => db v | pt_long_double, v => ldb v
  | pt_u8string, v => s8 v | pt_u16string, v => s16 v | pt_u32string, v => s32 v
  | pt_null, _ => null

/-- The private method `get(util::pt_token<PT>)`: the member of the union for the tag
`PT`.  Reading a member while another one is live has no defined result; a
value-initialised one is returned then. -/
def get_member : (PT : primitive_type) → primitive_variant → ptype_to_type PT
  | pt_int8, i8 v => v | pt_int8, _ => (0 : Int)
  | pt_int16, i16 v => v | pt_int16, _ => (0 : Int)
  | pt_int32, i32 v => v | pt_int32, _ => (0 : Int)
  | pt_int64, i64 v => v | pt_int64, _ => (0 : Int)
  | pt_uint8, u8 v => v | pt_uint8, _ => (0 : Nat)
  | pt_uint16, u16 v => v | pt_uint16, _ => (0 : Nat)
  | pt_uint32, u32 v => v | pt_uint32, _ => (0 : Nat)
  | pt_uint64, u64 v => v | pt_uint64, _ => (0 : Nat)
  | pt_float, fl v => v | pt_float, _ => (0 : Nat)
  | pt_double, db v => v | pt_double, _ => (0 : Nat)
  | pt_long_double, ldb v => v | pt_long_double, _ => (0 : Nat)
  | pt_u8string, s8 v => v | pt_u8string, _ => ([] : List Char)
  | pt_u16string, s16 v => v | pt_u16string, _ => ([] : List Nat)
  | pt_u32string, s32 v => v | pt_u32string, _ => ([] : List Nat)
  | pt_null, _ => ()

/-- The method `type_check<PT>()`. -/
def type_check (PT : primitive_type) (pv : primitive_variant) : Except Exn Unit :=
  if pv.ptype ≠ PT then .error (.logic_error "type check failed") else .ok ()

/-- The method `get_as<PT>()` (rejected at compile time for `pt_null`). -/
def get_as (PT : primitive_type) (pv : primitive_variant) : Except Exn (ptype_to_type PT) := do
  type_check PT pv
  .ok (get_member PT pv)

/-- The function `get<T>(pv)`, where `PT` is the tag `detail::type_to_ptype<T>::ptype` of
the primitive type `T`. -/
def get (PT : primitive_type) (pv : primitive_variant) : Except Exn (ptype_to_type PT) :=
  get_as PT pv

/-- The function `get_ref<T>(pv)`: the reference it returns is kept as the value it
refers to. -/
def get_ref (PT : primitive_type) (pv : primitive_variant) : Except Exn (ptype_to_type PT) :=
  get_as PT pv

end primitive_variant

/-! ## Actor proxies -/

/-- The class `mailman_send_job`: the peer the message goes to and the addressed message
built from `from`, `to` and `content`. -/
structure mailman_send_job where
  target_peer : process_information
  sender : Option actor
  receiver : Option channel
  content : List Value

/-- The closure that `default_actor_proxy::forward_msg` passes to `run_later`, by the
values it captures. -/
structure forward_msg_job where
  node : process_information
  sender : Option actor
  receiver : Option actor
  msg : List Value
  mid : Nat

/-- The state outside a proxy that `enqueue` acts on: the reasons `cleanup` was called
with, the jobs in `mailman_queue()` and the closures handed to `run_later`, each oldest
first. -/
structure proxy_world where
  cleanup_calls : List Nat
  mailman_queue : List mailman_send_job
  run_later_calls : List forward_msg_job

/-- The access `msg.get_as<atom_value>(i)` to an element that is an atom value. -/
def Value.get_as_atom_value : Value → Nat
  | .atom_value v => v
  | _ => 0

/-- The access `msg.get_as<std::uint32_t>(i)` to an element that is a 32-bit unsigned
integer. -/
def Value.get_as_uint32 : Value → Nat
  | .prim (u32 v) => v
  | _ => 0

/-- The test `msg.utype_info_at(i) == typeid(T)`, where `t` is the registered type of
`T`. -/
def utype_info_at_is (msg : List Value) (i : Nat) (t : type_id) : Bool :=
  decide ((msg.get? i).map Value.type = some t)

namespace actor_proxy

/-- The method `forward_message(piptr, sender, msg)` of the proxy `self`. -/
def forward_message (self : actor) (piptr : process_information) (sender : Option actor)
    (msg : List Value) (w : proxy_world) : proxy_world :=
  { w with mailman_queue := w.mailman_queue ++
      [{ target_peer := piptr, sender := sender, receiver := some (.is_actor self),
         content := msg }] }

/-- The method `cleanup(reason)` of the base class, which is not part of the modelled
sources: the call is recorded. -/
def cleanup (reason : Nat) (w : proxy_world) : proxy_world :=
  { w with cleanup_calls := w.cleanup_calls ++ [reason] }

/-- The method `enqueue(sender, msg)` of the proxy `self`. -/
def enqueue (X : externals) (self : actor) (sender : Option actor) (msg : List Value)
    (w : proxy_world) : proxy_world :=
  if msg.length = 2
      && utype_info_at_is msg 0 .atom_value
      && decide (((msg.get? 0).map Value.get_as_atom_value)
          = some (X.atom_val ":KillProxy".toList))
      && utype_info_at_is msg 1 (.prim pt_uint32) then
    cleanup (((msg.get? 1).map Value.get_as_uint32).getD 0) w
  else forward_message self self.m_parent_process sender msg w

end actor_proxy

namespace default_actor_proxy

/-- The method `forward_msg(sender, msg, mid)` of the proxy `self`. -/
def forward_msg (self : actor) (sender : Option actor) (msg : List Value) (mid : Nat)
    (w : proxy_world) : proxy_world :=
  { w with run_later_calls := w.run_later_calls ++
      [{ node := self.m_parent_process, sender := sender, receiver := some self,
         msg := msg, mid := mid }] }

/-- The method `enqueue(sender, msg)` of the proxy `self`; `default_mid` is the default
argument `message_id_t()` of `forward_msg`. -/
def enqueue (X : externals) (default_mid : Nat) (self : actor) (sender : Option actor)
    (msg : List Value) (w : proxy_world) : proxy_world :=
  if msg.length = 2
      && utype_info_at_is msg 0 .atom_value
      && decide (((msg.get? 0).map Value.get_as_atom_value)
          = some (X.atom_val "KILL_PROXY".toList))
      && utype_info_at_is msg 1 (.prim pt_uint32) then
    actor_proxy.cleanup (((msg.get? 1).map Value.get_as_uint32).getD 0) w
  else forward_msg self sender msg default_mid w

end default_actor_proxy

/-! ## Equality of tuples and of addressed messages -/

/-- The members of `uniform_type_info` that the comparison of tuples calls and that are
not part of the modelled sources; `V` is the type of the stored values. -/
structure tuple_externals (V : Type) where
  /-- The operator `==` on two `uniform_type_info` objects. -/
  uti_equal : uniform_type_info → uniform_type_info → Bool
  /-- The virtual method `equals(instance1, instance2)` of a `uniform_type_info`
  object, by the values at the two addresses. -/
  equals : uniform_type_info → V → V → Bool

/-- A slot of a tuple: the object `utype_info_at(i)`, the address `at(i)` and the value
stored at that address. -/
structure tuple_element (V : Type) where
  utype : uniform_type_info
  at_addr : Nat
  value : V

/-- The classes derived from `abstract_tuple`, as far as `equals` goes: `object_array`
and `empty_tuple` override the method, other classes inherit it. -/
inductive tuple_class where
  | inherits
  | object_array
  | empty_tuple
  deriving DecidableEq, Repr

/-- An `abstract_tuple` object: `addr` is its address and `cls` its class. -/
structure abstract_tuple (V : Type) where
  addr : Nat
  cls : tuple_class
  elements : List (tuple_element V)

namespace abstract_tuple

/-- The virtual method `size()`. -/
def size {V : Type} (t : abstract_tuple V) : Nat := t.elements.length

/-- The body of the loop of `abstract_tuple::equals` for the index `i`: false when the
loop returns false there.  The index is below both sizes when the body runs. -/
def equals_at {V : Type} (E : tuple_externals V) (self other : abstract_tuple V) (i : Nat) :
    Bool :=
  match self.elements.get? i, other.elements.get? i with
  | some lhs, some rhs =>
    if !E.uti_equal lhs.utype rhs.utype then false
    else if decide (lhs.at_addr ≠ rhs.at_addr) && !E.equals lhs.utype lhs.value rhs.value
    then false
    else true
  | _, _ => false

/-- The method `abstract_tuple::equals(other)`. -/
def equals {V : Type} (E : tuple_externals V) (self other : abstract_tuple V) : Bool :=
  if self.addr = other.addr then true
  else if self.size ≠ other.size then false
  else (List.range self.size).all (fun i => equals_at E self other i)

end abstract_tuple

namespace object_array

/-- The body of the loop of `object_array::equals` for the index `i`. -/
def equals_at {V : Type} (E : tuple_externals V) (self ut : abstract_tuple V) (i : Nat) :
    Bool :=
  match self.elements.get? i, ut.elements.get? i with
  | some lhs, some rhs =>
    if E.uti_equal lhs.utype rhs.utype then
      (if !E.equals lhs.utype lhs.value rhs.value then false else true)
    else false
  | _, _ => false

/-- The method `object_array::equals(ut)`. -/
def equals {V : Type} (E : tuple_externals V) (self ut : abstract_tuple V) : Bool :=
  if self.size = ut.size then (List.range self.size).all (fun i => equals_at E self ut i)
  else false

end object_array

namespace empty_tuple

/-- The method `empty_tuple::equals(other)`. -/
def equals {V : Type} (_self other : abstract_tuple V) : Bool := decide (other.size = 0)

end empty_tuple

/-- The call `lhs->equals(*rhs)` through the virtual table. -/
def abstract_tuple.virtual_equals {V : Type} (E : tuple_externals V)
    (self other : abstract_tuple V) : Bool :=
  match self.cls with
  | .inherits => abstract_tuple.equals E self other
  | .object_array => object_array.equals E self other
  | .empty_tuple => empty_tuple.equals self other

/-- The class `addressed_message`; the content is the tuple that the `any_tuple` holds. -/
structure addressed_message (V : Type) where
  m_sender : Option actor
  m_receiver : Option channel
  m_content : abstract_tuple V

/-- The operator `==` on two addressed messages: the sender and the receiver are compared
as pointers.  Modelled from the spec: the operator `==` of `any_tuple` (not part of the
sources) is the `equals` of the tuple it holds. -/
def addressed_message.eq {V : Type} (E : tuple_externals V)
    (lhs rhs : addressed_message V) : Bool :=
  decide (lhs.m_sender.map actor.addr = rhs.m_sender.map actor.addr)
    && decide (lhs.m_receiver.map channel.addr = rhs.m_receiver.map channel.addr)
    && lhs.m_content.virtual_equals E rhs.m_content

/-- Two tuples carry the same content, in the words of the specification: they have the
same size and at every index the type-infos are equal and the values are equal under the
`equals` of that type-info. -/
def same_content {V : Type} (E : tuple_externals V) (a b : abstract_tuple V) : Prop :=
  a.size = b.size ∧
  ∀ i, i < a.size → ∃ x y, a.elements.get? i = some x ∧ b.elements.get? i = some y ∧
    E.uti_equal x.utype y.utype = true ∧ E.equals x.utype x.value y.value = true

/-- The condition of the specification for the index `i`: the type-infos are equal and
the two values are the same object or are equal under the `equals` of the type-info. -/
def slot_equal {V : Type} (E : tuple_externals V) (a b : abstract_tuple V) (i : Nat) : Prop :=
  ∃ x y, a.elements.get? i = some x ∧ b.elements.get? i = some y ∧
    E.uti_equal x.utype y.utype = true ∧
    (x.at_addr = y.at_addr ∨ E.equals x.utype x.value y.value = true)

/-- Type-info objects that are compared by identity and values that are compared by
`==`. -/
def sample_tuple_externals : tuple_externals Nat :=
  { uti_equal := fun u v => decide (u = v), equals := fun _ x y => decide (x = y) }

/-- A tuple object at address 1 that holds the 32-bit integer 7 at address 10. -/
def sample_tuple : abstract_tuple Nat :=
  { addr := 1, cls := tuple_class.inherits,
    elements := [{ utype := uniform_type_info_map.new_tinfo 18 (.prim pt_int32),
                   at_addr := 10, value := 7 }] }

/-- Another tuple object, at address 2, that holds the 32-bit integer 7 at address 20. -/
def sample_tuple_copy : abstract_tuple Nat :=
  { addr := 2, cls := tuple_class.inherits,
    elements := [{ utype := uniform_type_info_map.new_tinfo 18 (.prim pt_int32),
                   at_addr := 20, value := 7 }] }

/-! ## Sequences of calls on a `string_deserializer` -/

/-- A call of a method of the `deserializer` interface. -/
inductive deserializer_call where
  | seek_object
  | peek_object
  | begin_object (type_name : List Char)
  | end_object
  | begin_sequence
  | end_sequence
  | read_value (ptype : primitive_type)
  | read_tuple (ptypes : List primitive_type)
  deriving DecidableEq, Repr

/-- What a call of a method of the `deserializer` interface returns. -/
inductive deserializer_result where
  | name (n : List Char)
  | size (n : Nat)
  | value (v : primitive_variant)
  | values (vs : List primitive_variant)
  | nothing
  deriving DecidableEq, Repr

namespace string_deserializer

/-- The call `c` on the deserializer `d`: what it returns and the deserializer after the
call, or the exception. -/
def call (X : externals) (c : deserializer_call) (d : string_deserializer) :
    Except Exn (deserializer_result × string_deserializer) :=
  match c with
  | .seek_object => d.seek_object.map (fun r => (.name r.1, r.2))
  | .peek_object => d.peek_object.map (fun r => (.name r.1, r.2))
  | .begin_object type_name => .ok (.nothing, d.begin_object type_name)
  | .end_object => d.end_object.map (fun r => (.nothing, r))
  | .begin_sequence => d.begin_sequence.map (fun r => (.size r.1, r.2))
  | .end_sequence => d.end_sequence.map (fun r => (.nothing, r))
  | .read_value ptype => (d.read_value X ptype).map (fun r => (.value r.1, r.2))
  | .read_tuple ptypes => (d.read_tuple X ptypes).map (fun r => (.values r.1, r.2))

/-- A sequence of calls, each made after the one before has returned: what the calls
return, in order, and the deserializer after the last one; an exception ends the
sequence. -/
def calls (X : externals) : List deserializer_call → string_deserializer →
    Except Exn (List deserializer_result × string_deserializer)
  | [], d => .ok ([], d)
  | c :: cs, d => do
    let r ← call X c d
    let rs ← calls X cs r.2
    .ok (r.1 :: rs.1, rs.2)

/-- What a caller can tell about the outcome of a sequence of calls: the exception or the
returned results, and the deserializer up to the separators at the position, which every
method skips before it looks at the text. -/
def observe (r : Except Exn (List deserializer_result × string_deserializer)) :
    Except Exn (List deserializer_result × string_deserializer) :=
  r.map (fun x => (x.1, x.2.skip_space_and_comma))

end string_deserializer

/-! ## Channel references as text -/

/-- The text that `channel_ptr_tinfo::s_serialize` writes around the text `inner` of the
actor, the group or the null pointer: `@channel ( inner )`. -/
def channel_text (inner : List Char) : List Char :=
  uniform_name .channel_ptr ++ (' ' :: '(' :: ' ' :: (inner ++ [' ', ')']))

/-- The primitive values that the string serializer writes as a number or as a quoted
string (or, for the strings of 16-bit and 32-bit code units, as nothing): all but the
8-bit integers, which are written as one raw character, the floating-point numbers, whose
text is made outside the modelled sources, and the empty variant. -/
def primitive_variant.number_or_string : primitive_variant → Prop
  | i16 _ => True | i32 _ => True | i64 _ => True
  | u16 _ => True | u32 _ => True | u64 _ => True
  | s8 _ => True | s16 _ => True | s32 _ => True
  | _ => False

/-- The text between the parentheses of the rendering of an actor reference. -/
def actor_body (a : actor) : List Char :=
  '{' :: (ostream_put_nat a.m_id ++ (',' :: ' ' ::
    (ostream_put_nat a.m_parent_process.m_process_id ++ (',' :: ' ' ::
      (pt_writer_string (node_id_to_string a.m_parent_process.m_node_id) ++ [' ', '}'])))))

/-- The values for which the parenthesis check of the reader is proved: a primitive value
that is an integer of 16, 32 or 64 bits or a string, a reference to an actor whose data
members fit their C++ types, and the null channel reference. -/
def Value.parenthesis_checked : Value → Prop
  | .prim v => v.number_or_string
  | .actor_ptr (some a) => a.well_formed
  | .channel_ptr none => True
  | _ => False

/-- The position `pos` of the rendering of `what` lies in the quoted text of a UTF-8
string value, the only string literal of the renderings above that can hold a
parenthesis. -/
def in_string_literal (what : Value) (pos : Nat) : Prop :=
  match what with
  | .prim (s8 s) =>
    (uniform_name (.prim pt_u8string)).length + 3 ≤ pos ∧
    pos < (uniform_name (.prim pt_u8string)).length + 3 + (pt_writer_string s).length
  | _ => False

/-! ## Histories of the group manager -/

/-- The states the group manager can get into from the state `gm0` by calls of
`add_module` and `get`. -/
inductive group_manager.evolves (gm0 : group_manager) : group_manager → Prop where
  | refl : evolves gm0 gm0
  | add_module (gm : group_manager) (mod : group_module) :
      evolves gm0 gm → evolves gm0 (gm.add_module mod).1
  | get (gm : group_manager) (module_name group_identifier : List Char) (heap : Nat)
      (r : group × group_manager × Nat) :
      evolves gm0 gm → gm.get module_name group_identifier heap = .ok r → evolves gm0 r.2.1

/-- The module `local` of the group manager is the module the constructor registered: it
has the name `local` and keeps every group under the identifier of the group. -/
def group_manager.local_ok (gm : group_manager) : Prop :=
  ∃ m, map_find local_name gm.m_mmap = some m ∧ m.m_name = local_name ∧
    ∀ k g, map_find k m.m_instances = some g →
      g.m_identifier = k ∧ g.m_module_name = local_name

/-! ## Quoted strings as the specification words them -/

/-- The rendering of a string as the specification words it: a double quote, the
characters of `s` with every double quote replaced by a backslash and a double quote, and
a double quote. -/
def spec_quoted (s : List Char) : List Char :=
  '"' :: (s.foldr (fun c acc => (if c = '"' then ['\\', '"'] else [c]) ++ acc) [] ++ ['"'])

/-! ## Equality of primitive variants -/

/-- The operator `==` on two primitive variants.  The functor `comparator` starts with
`result` false; `util::pt_dispatch` on the tag of `lhs` calls
`comparator::operator()(pt_token<PT>)`, which sets `result` to
`get<PT>(lhs) == get<PT>(rhs)` when `rhs` has the tag `PT` and leaves it otherwise;
nothing is called for the tag `pt_null`.  `float_eq pt a b` is the operator `==` of the
floating-point type with the tag `pt` on the values with the bit patterns `a` and `b`. -/
def primitive_variant.eq (float_eq : primitive_type → Nat → Nat → Bool) :
    primitive_variant → primitive_variant → Bool
  | i8 a, i8 b => decide (a = b)
  | i16 a, i16 b => decide (a = b)
  | i32 a, i32 b => decide (a = b)
  | i64 a, i64 b => decide (a = b)
  | u8 a, u8 b => decide (a = b)
  | u16 a, u16 b => decide (a = b)
  | u32 a, u32 b => decide (a = b)
  | u64 a, u64 b => decide (a = b)
  | fl a, fl b => float_eq pt_float a b
  | db a, db b => float_eq pt_double a b
  | ldb a, ldb b => float_eq pt_long_double a b
  | s8 a, s8 b => decide (a = b)
  | s16 a, s16 b => decide (a = b)
  | s32 a, s32 b => decide (a = b)
  | _, _ => false

/-! ## Durations -/

/-- The class `util::duration`: `unit` is the value of the enumerator, as
`static_cast<std::uint32_t>(unit)` gives it, and `count` the 32-bit count.  The
enumeration `time_unit` is declared in `cppa/util/duration.hpp`, outside the sources;
`duration_tinfo::deserialize` shows the values 1, 1000 and 1000000 of `seconds`,
`milliseconds` and `microseconds`. -/
structure duration where
  unit : Nat
  count : Nat
  deriving DecidableEq, Repr

/-- The value of `time_unit::none`, taken as 0 as in the model of
`duration_tinfo::deserialize`. -/
def time_unit_none : Nat := 0

/-- The function `ui64_val(d)`: the product of the unit and the count in 64 bits. -/
def ui64_val (d : duration) : Nat := (d.unit % 2 ^ 64) * (d.count % 2 ^ 64) % 2 ^ 64

/-- The operator `==` on two durations. -/
def duration.eq (lhs rhs : duration) : Bool :=
  if lhs.unit = rhs.unit then decide (lhs.count = rhs.count)
  else decide (ui64_val lhs = ui64_val rhs)

/-- The fields of the duration fit 32 bits. -/
def duration.well_formed (d : duration) : Prop := d.unit < 2 ^ 32 ∧ d.count < 2 ^ 32

/-! ## Subscriptions of a local group and their handles -/

/-- A call that a client of a local group makes: `subscribe(who)`, keeping the returned
subscription, a direct `unsubscribe(who)`, or the destruction of a subscription it
holds. -/
inductive subscription_op where
  | subscribe (who : channel)
  | unsubscribe (who : channel)
  | destroy (u : unsubscriber)
  deriving DecidableEq, Repr

/-- The call is a direct `unsubscribe`. -/
def subscription_op.is_unsubscribe : subscription_op → Bool
  | .unsubscribe _ => true
  | _ => false

/-- A local group together with the non-empty subscriptions of it that are alive. -/
structure subscribed_group where
  g : local_group
  handles : List unsubscriber
  deriving DecidableEq, Repr

namespace subscribed_group

/-- A new local group: no subscribers, no subscriptions. -/
def init (addr : Nat) (gname : List Char) : subscribed_group :=
  { g := local_group.init addr gname, handles := [] }

/-- The state after one call; a subscription that is not alive cannot be destroyed. -/
def step (s : subscribed_group) : subscription_op → subscribed_group
  | .subscribe who =>
    match s.g.subscribe who with
    | (some u, g) => { g := g, handles := s.handles ++ [u] }
    | (none, g) => { s with g := g }
  | .unsubscribe who => { s with g := s.g.unsubscribe who }
  | .destroy u =>
    if u ∈ s.handles then
      { g := local_group.unsubscriber_destroy u s.g, handles := s.handles.erase u }
    else s

/-- The state after a sequence of calls. -/
def run (s : subscribed_group) (ops : List subscription_op) : subscribed_group :=
  ops.foldl step s

/-- The number of subscriptions alive that were made for the channel `c`. -/
def handles_of (s : subscribed_group) (c : channel) : Nat :=
  (s.handles.filter (fun u => decide (u.m_self = c))).length

end subscribed_group

/-- The subscriptions alive are those of the subscribers, one each. -/
def subscribed_group.consistent (s : subscribed_group) : Prop :=
  s.handles.Nodup ∧ (∀ u ∈ s.handles, u.m_group = some s.g.self) ∧
  ∀ c, c ∈ s.g.m_subscribers ↔ { m_self := c, m_group := some s.g.self } ∈ s.handles

/-! ## Groups subscribed to groups -/

/-- The first of two local groups, at the addresses 1 and 2, that are subscribed to each
other. -/
def sample_group_a : local_group :=
  ((local_group.init 1 ['a']).subscribe
    (.is_group { addr := 2, m_identifier := ['b'], m_module_name := local_name })).2

/-- The second of the two groups that are subscribed to each other. -/
def sample_group_b : local_group :=
  ((local_group.init 2 ['b']).subscribe
    (.is_group { addr := 1, m_identifier := ['a'], m_module_name := local_name })).2

/-- A local group at address 2 whose one subscriber is not a group; with it in place of
`sample_group_b`, the group `sample_group_a` has a group as its subscriber and no circle. -/
def sample_inner_group : local_group :=
  ((local_group.init 2 ['b']).subscribe (.other 7)).2

/-- The subscriptions of groups to groups in `heap` do not run in a circle: every group
has a rank, and a group that is subscribed to another has a smaller rank than that
one. -/
def acyclic_groups (heap : List (Nat × local_group)) (rank : Nat → Nat) : Prop :=
  ∀ a g, map_find a heap = some g → ∀ h, channel.is_group h ∈ g.m_subscribers →
    ∀ hg, map_find h.addr heap = some hg → rank h.addr < rank a

/-! # Theorems -/

/-! ## Any-tuples and the string format -/

/-- C1: the round trip fails on the empty tuple: it is rendered as `@tuple ( { } )`, and
`from_string` on that text raises `std::logic_error` because `begin_sequence` announces
one slot. -/
theorem empty_tuple_round_trip_fails (X : externals) (w : World) :
    to_string_impl X (.any_tuple []) w = .ok ("@tuple ( \x7b \x7d )".toList, w) ∧
    from_string X "@tuple ( \x7b \x7d )".toList w
      = .error (.logic_error "malformed string: could not seek object type name") :=
  ⟨by rfl, by rfl⟩

/-- C2: `from_string` on the rendering of (int32 7, string `hi, "world"`) raises
`std::logic_error`: `begin_sequence` counts the comma inside the string and announces
three slots. -/
theorem from_string_example_fails (X : externals) (w : World) :
    from_string X "@tuple ( \x7b @i32 ( 7 ), @str ( \"hi, \\\"world\\\"\" ) \x7d )".toList w
      = .error (.logic_error "malformed string: could not seek object type name") ∧
    (string_deserializer.begin_sequence
      { rest := " \x7b @i32 ( 7 ), @str ( \"hi, \\\"world\\\"\" ) \x7d )".toList,
        m_obj_had_left_parenthesis := [true],
        m_open_objects := [uniform_name .any_tuple] }).map Prod.fst = .ok 3 :=
  ⟨by rfl, by rfl⟩

/-- C3: the tuple (int32 7, string `hi, "world"`) is rendered as
`@tuple ( { @i32 ( 7 ), @str ( "hi, \"world\"" ) } )`. -/
theorem to_string_example (X : externals) (w : World) :
    to_string_impl X (.any_tuple [.prim (i32 7), .prim (s8 "hi, \"world\"".toList)]) w
      = .ok ("@tuple ( \x7b @i32 ( 7 ), @str ( \"hi, \\\"world\\\"\" ) \x7d )".toList, w) := by
  rfl

/-- C4: an atom is rendered as `@atom ( "<name>" )`, but reading it back always fails:
inside an `@atom` object `read_value` never returns a value, and `from_string` on
`@atom ( "quit" )` raises `std::logic_error`. -/
theorem atom_round_trip_fails (X : externals) (w : World) (a : Nat) :
    to_string_impl X (.atom_value a) w
      = .ok ("@atom ( ".toList ++ pt_writer_string (X.atom_to_string a) ++ " )".toList, w) ∧
    from_string X "@atom ( \"quit\" )".toList w
      = .error (.logic_error "malformed string: expected read of pt_uint64 after @atom") ∧
    ∀ (ptype : primitive_type) (rest : List Char) (stack : List Bool)
      (names : List (List Char)) (r : primitive_variant × string_deserializer),
      string_deserializer.read_value X ptype
        { rest := rest, m_obj_had_left_parenthesis := stack,
          m_open_objects := atom_name :: names } ≠ .ok r := by
  refine ⟨?_, by rfl, ?_⟩
  · simp [to_string_impl, serialize, string_serializer.begin_object, string_serializer.clear,
      string_serializer.init, string_serializer.write_value, string_serializer.end_object,
      uniform_name, atom_name, bind, Except.bind]
  · intro ptype rest stack names r
    cases stack with
    | nil => simp [string_deserializer.read_value, string_deserializer.read_value_aux,
        string_deserializer.integrity_check, string_deserializer.throw_malformed,
        bind, Except.bind]
    | cons top stack =>
      cases top <;> by_cases hp : ptype = pt_uint64 <;>
        simp [string_deserializer.read_value, string_deserializer.read_value_aux,
          string_deserializer.integrity_check, string_deserializer.throw_malformed,
          bind, Except.bind, hp]

/-! ## Lemmas on the associative containers -/

theorem map_find_append_of_none {κ α : Type} [DecidableEq κ] (k : κ) (m m' : List (κ × α))
    (h : map_find k m = none) : map_find k (m ++ m') = map_find k m' := by
  induction m with
  | nil => rfl
  | cons e m ih =>
    by_cases he : e.1 = k
    · simp [map_find, he] at h
    · simp only [map_find, he, if_false] at h
      simp [map_find, he, ih h]

theorem map_find_append_of_some {κ α : Type} [DecidableEq κ] (k : κ) (m m' : List (κ × α))
    (v : α) (h : map_find k m = some v) : map_find k (m ++ m') = some v := by
  induction m with
  | nil => simp [map_find] at h
  | cons e m ih =>
    by_cases he : e.1 = k
    · simpa [map_find, he] using h
    · simp only [map_find, he, if_false] at h
      simp [map_find, he, ih h]

theorem map_insert_of_some {κ α : Type} [DecidableEq κ] (k : κ) (v v' : α)
    (m : List (κ × α)) (h : map_find k m = some v') : map_insert k v m = m := by
  simp [map_insert, h]

theorem map_find_insert_of_none {κ α : Type} [DecidableEq κ] (k : κ) (v : α)
    (m : List (κ × α)) (h : map_find k m = none) : map_find k (map_insert k v m) = some v := by
  simp [map_insert, h, map_find_append_of_none k m _ h, map_find]

theorem map_find_mem {κ α : Type} [DecidableEq κ] (k : κ) (v : α) (m : List (κ × α))
    (h : map_find k m = some v) : (k, v) ∈ m := by
  induction m with
  | nil => simp [map_find] at h
  | cons e m ih =>
    by_cases he : e.1 = k
    · simp only [map_find, he, if_true, Option.some.injEq] at h
      have : e = (k, v) := by
        cases e; simp_all
      simp [this]
    · simp only [map_find, he, if_false] at h
      exact List.mem_cons_of_mem _ (ih h)

theorem map_insert_mem {κ α : Type} [DecidableEq κ] (k : κ) (v : α) (m : List (κ × α))
    (e : κ × α) (h : e ∈ map_insert k v m) : e ∈ m ∨ e = (k, v) := by
  unfold map_insert at h
  cases hf : map_find k m with
  | none => simpa [hf] using h
  | some x => left; simpa [hf] using h

theorem map_erase_mem {κ α : Type} [DecidableEq κ] (k : κ) (m : List (κ × α))
    (e : κ × α) (h : e ∈ map_erase k m) : e ∈ m := by
  unfold map_erase at h
  exact (List.mem_filter.mp h).1

/-! ## Actor registry -/

/-- C6: `erase` does not reset an entry that is present: after `put(k, a)` the call
`erase(k)` leaves `get(k)` as it was, and on a fresh registry `get(k)` still returns `a`
after the eraser of `a` ran. -/
theorem erase_keeps_present_entry (r : actor_registry) (k : Nat) (a : actor) :
    (((r.put k (some a)).1.erase k).get k = (r.put k (some a)).1.get k) ∧
    (actor_registry.init.put a.m_id (some a)).2 = some { m_id := a.m_id } ∧
    ((actor_registry.init.put a.m_id (some a)).1.eraser_detach { m_id := a.m_id }).get a.m_id
      = some a := by
  refine ⟨?_, by rfl, ?_⟩
  · cases h : map_find k r.m_instances with
    | none =>
      have h1 := map_find_insert_of_none k (some a) r.m_instances h
      simp [actor_registry.put, actor_registry.erase, actor_registry.get, h,
        map_insert_of_some k none (some a) _ h1]
    | some p =>
      simp [actor_registry.put, actor_registry.erase, actor_registry.get, h,
        map_insert_of_some k none p _ h]
  · simp [actor_registry.put, actor_registry.erase, actor_registry.get, map_insert,
      actor_registry.init, map_find, actor_registry.eraser_detach]

theorem after_next_ids_m_ids (n : Nat) (r : actor_registry) :
    (after_next_ids n r).m_ids % 2 ^ 32 = (r.m_ids + n) % 2 ^ 32 := by
  induction n generalizing r with
  | zero => simp [after_next_ids]
  | succ n ih =>
    rw [after_next_ids, ih]
    simp only [actor_registry.next_id]
    omega

theorem nth_next_id_init (n : Nat) :
    nth_next_id n actor_registry.init = if n = 0 then 1 else (1 + n) % 2 ^ 32 := by
  cases n with
  | zero => rfl
  | succ n =>
    have h := after_next_ids_m_ids n actor_registry.init.next_id.2
    simp only [nth_next_id, after_next_ids, actor_registry.next_id, actor_registry.init] at h ⊢
    have h2 : ∀ (m : Nat) (r : actor_registry),
        (after_next_ids (m + 1) r).m_ids < 2 ^ 32 := by
      intro m r
      induction m generalizing r with
      | zero => simp only [after_next_ids, actor_registry.next_id]; omega
      | succ m ih => rw [after_next_ids]; exact ih _
    cases n with
    | zero => rfl
    | succ n =>
      have h3 := h2 n ({ m_running := 0, m_ids := 1, m_instances := [] } : actor_registry).next_id.2
      simp only [after_next_ids, actor_registry.next_id] at h3 h ⊢
      simp only [Nat.add_one_ne_zero, if_false]
      omega

/-- C9 (as stated, refuted): on a fresh registry call number `2^32 - 2` of `next_id()`
returns `4294967295` and the call after it returns `0`, which is not greater. -/
theorem next_id_wraps :
    nth_next_id 4294967294 actor_registry.init = 4294967295 ∧
    nth_next_id 4294967295 actor_registry.init = 0 ∧
    ¬ (∀ i j : Nat, i < j →
        nth_next_id i actor_registry.init < nth_next_id j actor_registry.init) := by
  have h1 : nth_next_id 4294967294 actor_registry.init = 4294967295 := by
    rw [nth_next_id_init]; norm_num
  have h2 : nth_next_id 4294967295 actor_registry.init = 0 := by
    rw [nth_next_id_init]; norm_num
  refine ⟨h1, h2, ?_⟩
  intro h
  have := h 4294967294 4294967295 (by norm_num)
  rw [h1, h2] at this
  omega

/-- C9 (amended): as long as the 32-bit counter has not wrapped, that is for the first
`2^32 - 1` calls on a fresh registry, a later call of `next_id()` returns a strictly
greater id; the first id is 1 and every call returns the previous id plus one modulo
`2^32`. -/
theorem next_id_strictly_increasing (i j : Nat) (hij : i < j) (hj : j + 1 < 2 ^ 32) :
    nth_next_id i actor_registry.init < nth_next_id j actor_registry.init ∧
    nth_next_id 0 actor_registry.init = 1 ∧
    nth_next_id (i + 1) actor_registry.init
      = (nth_next_id i actor_registry.init + 1) % 2 ^ 32 := by
  simp only [nth_next_id_init]
  refine ⟨?_, by simp, ?_⟩
  · split <;> split <;> omega
  · split <;> split <;> omega

theorem next_id_strictly_increasing_witness :
    nth_next_id 0 actor_registry.init < nth_next_id 1 actor_registry.init ∧
    nth_next_id 0 actor_registry.init = 1 ∧
    nth_next_id (0 + 1) actor_registry.init
      = (nth_next_id 0 actor_registry.init + 1) % 2 ^ 32 :=
  next_id_strictly_increasing 0 1 (by decide) (by decide)

/-! ## Null references -/

/-- C10 (as stated, refuted): the void type is not rendered as `@0 ( )`. -/
theorem void_not_rendered_with_parentheses :
    ¬ (∀ (X : externals) (w : World),
        to_string_impl X .void_type w = .ok ("@0 ( )".toList, w)) := by
  intro h
  have h1 := h sample_externals sample_world
  have h2 : to_string_impl sample_externals .void_type sample_world
      = .ok ("@0".toList, sample_world) := by rfl
  rw [h2] at h1
  simp at h1

/-- C10 (amended): the void type, a null actor reference and a null group reference are
rendered as exactly `@0`, without parentheses, and the registry is left as it was. -/
theorem null_rendered_as_at_zero (X : externals) (w : World) :
    to_string_impl X .void_type w = .ok ("@0".toList, w) ∧
    to_string_impl X (.actor_ptr none) w = .ok ("@0".toList, w) ∧
    to_string_impl X (.group_ptr none) w = .ok ("@0".toList, w) :=
  ⟨by rfl, by rfl, by rfl⟩

/-! ## Proxy cache -/

theorem get_pinfo_fields (key : key_tuple) (c : actor_proxy_cache) :
    (c.get_pinfo key).2.m_proxies = c.m_proxies ∧
    (c.get_pinfo key).2.m_new_cb = c.m_new_cb ∧
    (c.get_pinfo key).2.new_cb_calls = c.new_cb_calls := by
  unfold actor_proxy_cache.get_pinfo
  cases map_find key c.m_pinfos <;> simp

theorem get_pinfo_m_pinfos (key : key_tuple) (c : actor_proxy_cache)
    (e : key_tuple × process_information) (he : e ∈ (c.get_pinfo key).2.m_pinfos) :
    e ∈ c.m_pinfos ∨ e = (key, { m_process_id := key.2.1, m_node_id := key.2.2 }) := by
  unfold actor_proxy_cache.get_pinfo at he
  cases h : map_find key c.m_pinfos with
  | some p => left; simpa [h] using he
  | none =>
    simp only [h] at he
    exact map_insert_mem _ _ _ _ he

theorem get_of_some (key : key_tuple) (c : actor_proxy_cache) (heap : Nat) (p : actor)
    (h : map_find key c.m_proxies = some p) : c.get key heap = (p, c, heap) := by
  simp [actor_proxy_cache.get, h]

theorem get_of_none (key : key_tuple) (c : actor_proxy_cache) (heap : Nat)
    (h : map_find key c.m_proxies = none) :
    c.get key heap =
      (actor_proxy_cache.new_actor_proxy heap key.1 (c.get_pinfo key).1,
       { m_pinfos := (c.get_pinfo key).2.m_pinfos,
         m_proxies := map_insert key
           (actor_proxy_cache.new_actor_proxy heap key.1 (c.get_pinfo key).1) c.m_proxies,
         m_new_cb := c.m_new_cb,
         new_cb_calls :=
           if c.m_new_cb then
             c.new_cb_calls ++ [actor_proxy_cache.new_actor_proxy heap key.1 (c.get_pinfo key).1]
           else c.new_cb_calls },
       heap + 1) := by
  obtain ⟨h1, h2, h3⟩ := get_pinfo_fields key c
  simp only [actor_proxy_cache.get, h, h1, h2, h3]
  cases c.m_new_cb <;> simp


theorem get_pinfo_value (key : key_tuple) (c : actor_proxy_cache) (h : cache_consistent c) :
    (c.get_pinfo key).1 = { m_process_id := key.2.1, m_node_id := key.2.2 } := by
  unfold actor_proxy_cache.get_pinfo
  cases hp : map_find key c.m_pinfos with
  | some p => exact h.2 _ (map_find_mem key p _ hp)
  | none => rfl

theorem cache_consistent_get (c : actor_proxy_cache) (key : key_tuple) (heap : Nat)
    (h : cache_consistent c) : cache_consistent (c.get key heap).2.1 := by
  cases hf : map_find key c.m_proxies with
  | some p => rw [get_of_some key c heap p hf]; exact h
  | none =>
    rw [get_of_none key c heap hf]
    constructor
    · intro e he
      rcases map_insert_mem _ _ _ _ he with h1 | h1
      · exact h.1 e h1
      · subst h1
        simp [actor_proxy_cache.key_of, actor_proxy_cache.new_actor_proxy,
          get_pinfo_value key c h]
    · intro e he
      rcases get_pinfo_m_pinfos key c e he with h1 | h1
      · exact h.2 e h1
      · subst h1; rfl

theorem cache_consistent_add (c : actor_proxy_cache) (pptr : actor)
    (h : cache_consistent c) : cache_consistent (c.add pptr) := by
  have hp : (c.add pptr).m_proxies
      = map_insert (actor_proxy_cache.key_of pptr) pptr c.m_proxies := by
    unfold actor_proxy_cache.add
    cases c.m_new_cb <;> simp
  have hi : (c.add pptr).m_pinfos
      = map_insert (actor_proxy_cache.key_of pptr) pptr.m_parent_process c.m_pinfos := by
    unfold actor_proxy_cache.add
    cases c.m_new_cb <;> simp
  constructor
  · intro e he
    rw [hp] at he
    rcases map_insert_mem _ _ _ _ he with h1 | h1
    · exact h.1 e h1
    · subst h1; rfl
  · intro e he
    rw [hi] at he
    rcases map_insert_mem _ _ _ _ he with h1 | h1
    · exact h.2 e h1
    · subst h1; rfl

theorem cache_consistent_of_reachable (c : actor_proxy_cache)
    (h : actor_proxy_cache.reachable c) : cache_consistent c := by
  induction h with
  | init cb => simp [cache_consistent, actor_proxy_cache.init]
  | get c key heap _ ih => exact cache_consistent_get c key heap ih
  | add c pptr _ ih => exact cache_consistent_add c pptr ih
  | erase c pptr _ ih => exact ⟨fun e he => ih.1 e (map_erase_mem _ _ _ he), ih.2⟩

/-- C8: in every state of the proxy cache, `get(key)` returns a proxy with the id and the
parent process of the key; a second `get(key)` returns the same proxy and changes
nothing; a `get` of a present key changes nothing, and a `get` of an absent key makes
`size()` grow by one and calls an installed new-proxy callback once, with the new
proxy. -/
theorem proxy_cache_get (c : actor_proxy_cache) (h : actor_proxy_cache.reachable c)
    (key : key_tuple) (heap : Nat) :
    (c.get key heap).1.m_id = key.1 ∧
    (c.get key heap).1.m_parent_process = { m_process_id := key.2.1, m_node_id := key.2.2 } ∧
    (c.get key heap).2.1.get key (c.get key heap).2.2
      = ((c.get key heap).1, (c.get key heap).2.1, (c.get key heap).2.2) ∧
    (map_find key c.m_proxies ≠ none → (c.get key heap).2.1 = c) ∧
    (map_find key c.m_proxies = none →
      (c.get key heap).2.1.size = c.size + 1 ∧
      (c.get key heap).1.addr = heap ∧
      (c.get key heap).2.1.new_cb_calls
        = if c.m_new_cb then c.new_cb_calls ++ [(c.get key heap).1] else c.new_cb_calls) := by
  have hc := cache_consistent_of_reachable c h
  cases hf : map_find key c.m_proxies with
  | some p =>
    have hk := hc.1 _ (map_find_mem key p _ hf)
    simp only [actor_proxy_cache.key_of] at hk
    rw [get_of_some key c heap p hf]
    refine ⟨?_, ?_, ?_, ?_, ?_⟩
    · rw [← hk]
    · rw [← hk]
    · simp [get_of_some key c heap p hf]
    · intro _; rfl
    · intro h0; simp at h0
  | none =>
    rw [get_of_none key c heap hf]
    have hi := map_find_insert_of_none key
      (actor_proxy_cache.new_actor_proxy heap key.1 (c.get_pinfo key).1) c.m_proxies hf
    refine ⟨rfl, ?_, ?_, ?_, ?_⟩
    · simp [actor_proxy_cache.new_actor_proxy, get_pinfo_value key c hc]
    · simp only
      rw [get_of_some key _ _ _ hi]
    · intro h0; simp at h0
    · intro _
      refine ⟨?_, rfl, rfl⟩
      simp [actor_proxy_cache.size, map_insert, hf]

theorem proxy_cache_get_witness :
    actor_proxy_cache.reachable (actor_proxy_cache.init true) ∧
    ((actor_proxy_cache.init true).get (5, 9, List.replicate 20 171) 100).1.m_id = 5 :=
  ⟨actor_proxy_cache.reachable.init true,
   (proxy_cache_get (actor_proxy_cache.init true) (actor_proxy_cache.reachable.init true)
      (5, 9, List.replicate 20 171) 100).1⟩

/-! ## Lemmas on lists and decimal numbers -/

theorem takeWhile_append_stop {α : Type} (p : α → Bool) (xs : List α) (y : α) (ys : List α)
    (hx : ∀ x ∈ xs, p x = true) (hy : p y = false) :
    (xs ++ y :: ys).takeWhile p = xs := by
  induction xs with
  | nil => simp [List.takeWhile, hy]
  | cons x xs ih =>
    have h1 : p x = true := hx x (List.mem_cons_self _ _)
    simp [List.takeWhile, h1, ih (fun z hz => hx z (List.mem_cons_of_mem _ hz))]

theorem dropWhile_append_stop {α : Type} (p : α → Bool) (xs : List α) (y : α) (ys : List α)
    (hx : ∀ x ∈ xs, p x = true) (hy : p y = false) :
    (xs ++ y :: ys).dropWhile p = y :: ys := by
  induction xs with
  | nil => simp [List.dropWhile, hy]
  | cons x xs ih =>
    have h1 : p x = true := hx x (List.mem_cons_self _ _)
    simp [List.dropWhile, h1, ih (fun z hz => hx z (List.mem_cons_of_mem _ hz))]

theorem digitChar_spec (d : Nat) :
    isDigitChar (digitChar d) = true ∧ (digitChar d).toNat - 48 = d % 10 ∧
    find_if_cond (digitChar d) = false ∧ is_delimiter (digitChar d) = false ∧
    isSpaceChar (digitChar d) = false ∧
    digitChar d ≠ '-' ∧ digitChar d ≠ '+' ∧ digitChar d ≠ '"' := by
  unfold digitChar
  have h : d % 10 < 10 := Nat.mod_lt _ (by decide)
  generalize d % 10 = k at h
  interval_cases k <;> decide

theorem decDigitsAux_acc (fuel n : Nat) (acc : List Char) :
    decDigitsAux fuel n acc = decDigitsAux fuel n [] ++ acc := by
  induction fuel generalizing n acc with
  | zero => simp [decDigitsAux]
  | succ fuel ih =>
    unfold decDigitsAux
    split
    · simp
    · rw [ih (n / 10) (digitChar n :: acc), ih (n / 10) [digitChar n]]
      simp

theorem decDigitsAux_spec (fuel n : Nat) (h : n < fuel) :
    (∀ c ∈ decDigitsAux fuel n [], isDigitChar c = true) ∧
    decDigitsAux fuel n [] ≠ [] ∧
    digitsVal (decDigitsAux fuel n []) 0 = n := by
  induction fuel generalizing n with
  | zero => omega
  | succ fuel ih =>
    unfold decDigitsAux
    split
    · rename_i h10
      refine ⟨?_, by simp, ?_⟩
      · intro c hc
        simp only [List.mem_singleton] at hc
        subst hc
        exact (digitChar_spec n).1
      · simp only [digitsVal, List.foldl, (digitChar_spec n).2.1]
        omega
    · rename_i h10
      have hlt : n / 10 < fuel := by omega
      obtain ⟨h1, h2, h3⟩ := ih (n / 10) hlt
      rw [decDigitsAux_acc]
      refine ⟨?_, by simp, ?_⟩
      · intro c hc
        simp only [List.mem_append, List.mem_singleton] at hc
        rcases hc with hc | hc
        · exact h1 c hc
        · subst hc; exact (digitChar_spec n).1
      · simp only [digitsVal, List.foldl_append, List.foldl] at h3 ⊢
        rw [h3, (digitChar_spec n).2.1]
        omega

theorem ostream_put_nat_spec (n : Nat) :
    (∀ c ∈ ostream_put_nat n, isDigitChar c = true) ∧
    ostream_put_nat n ≠ [] ∧ digitsVal (ostream_put_nat n) 0 = n :=
  decDigitsAux_spec (n + 1) n (Nat.lt_succ_self n)

theorem readDigits_all_digits (xs : List Char) (a : Nat)
    (h : ∀ c ∈ xs, isDigitChar c = true) : readDigits xs a = digitsVal xs a := by
  induction xs generalizing a with
  | nil => rfl
  | cons c cs ih =>
    have hc := h c (List.mem_cons_self _ _)
    simp only [readDigits, hc, if_true, digitsVal, List.foldl]
    exact ih _ (fun z hz => h z (List.mem_cons_of_mem _ hz))

theorem isDigitChar_facts (c : Char) (h : isDigitChar c = true) :
    find_if_cond c = false ∧ is_delimiter c = false ∧ isSpaceChar c = false ∧
    c ≠ '-' ∧ c ≠ '+' ∧ c ≠ '"' ∧ is_space_or_comma c = false := by
  simp only [isDigitChar, Bool.and_eq_true, decide_eq_true_eq] at h
  have hne : ∀ d : Char, ¬ (48 ≤ d.toNat ∧ d.toNat ≤ 57) → c ≠ d := by
    intro d hd hc
    subst hc
    exact hd h
  have h1 := hne ')' (by decide)
  have h2 := hne '(' (by decide)
  have h3 := hne '{' (by decide)
  have h4 := hne '}' (by decide)
  have h5 := hne ' ' (by decide)
  have h6 := hne ',' (by decide)
  refine ⟨?_, ?_, ?_, hne '-' (by decide), hne '+' (by decide), hne '"' (by decide), ?_⟩
  · simp [find_if_cond, h1, h4, h5, h6]
  · simp [is_delimiter, h1, h2, h3, h4, h5, h6]
  · simp only [isSpaceChar, Bool.or_eq_false_iff, Bool.and_eq_false_iff, beq_eq_false_iff_ne,
      decide_eq_false_iff_not]
    omega
  · simp [is_space_or_comma, h5, h6]

theorem read_int_token_digits (xs : List Char) (hx : ∀ c ∈ xs, isDigitChar c = true)
    (hne : xs ≠ []) : read_int_token xs = some (false, digitsVal xs 0) := by
  cases xs with
  | nil => exact absurd rfl hne
  | cons c cs =>
    have hc := hx c (List.mem_cons_self _ _)
    obtain ⟨_, _, hs, hm, hp, _, _⟩ := isDigitChar_facts c hc
    simp only [read_int_token, List.dropWhile, hs, hm, hp, if_false, hc, if_true]
    rw [readDigits_all_digits _ _ hx]

theorem read_int_token_minus_digits (xs : List Char) (hx : ∀ c ∈ xs, isDigitChar c = true)
    (hne : xs ≠ []) : read_int_token ('-' :: xs) = some (true, digitsVal xs 0) := by
  cases xs with
  | nil => exact absurd rfl hne
  | cons c cs =>
    have hc := hx c (List.mem_cons_self _ _)
    have hs : isSpaceChar '-' = false := by decide
    simp only [read_int_token, List.dropWhile, hs, if_true, hc]
    rw [readDigits_all_digits _ _ hx]

theorem istream_get_nat_put (hi n : Nat) (h : n ≤ hi) (_ : hi < 2 ^ 64) :
    istream_get_nat hi (ostream_put_nat n) = n := by
  obtain ⟨h1, h2, h3⟩ := ostream_put_nat_spec n
  simp only [istream_get_nat, read_int_token_digits _ h1 h2, h3]
  have : ¬ (hi < n) := by omega
  simp [this]

theorem istream_get_int_put (lo hi i : Int) (h1 : lo ≤ i) (h2 : i ≤ hi) :
    istream_get_int lo hi (ostream_put_int i) = i := by
  obtain ⟨d1, d2, d3⟩ := ostream_put_nat_spec i.natAbs
  unfold ostream_put_int
  by_cases hneg : i < 0
  · simp only [hneg, if_true, istream_get_int, read_int_token_minus_digits _ d1 d2, d3]
    have e : -(i.natAbs : Int) = i := by omega
    simp only [e]
    have : ¬ (i < lo) := by omega
    have : ¬ (hi < i) := by omega
    simp [*]
  · simp only [hneg, if_false, istream_get_int, read_int_token_digits _ d1 d2, d3]
    have e : (i.natAbs : Int) = i := by omega
    simp only [e, Bool.false_eq_true, if_false]
    have : ¬ (i < lo) := by omega
    have : ¬ (hi < i) := by omega
    simp [*]

theorem ostream_put_nat_chars (n : Nat) :
    ∀ c ∈ ostream_put_nat n, find_if_cond c = false ∧ c ≠ '"' := by
  intro c hc
  have h := isDigitChar_facts c ((ostream_put_nat_spec n).1 c hc)
  exact ⟨h.1, h.2.2.2.2.2.1⟩

theorem ostream_put_int_chars (i : Int) :
    ostream_put_int i ≠ [] ∧ ∀ c ∈ ostream_put_int i, find_if_cond c = false := by
  unfold ostream_put_int
  split
  · refine ⟨by simp, ?_⟩
    intro c hc
    simp only [List.mem_cons] at hc
    rcases hc with hc | hc
    · subst hc; decide
    · exact (ostream_put_nat_chars _ c hc).1
  · exact ⟨(ostream_put_nat_spec _).2.1, fun c hc => (ostream_put_nat_chars _ c hc).1⟩

/-! ## Lemmas on quoted strings -/

theorem find_string_end_escape (s : List Char) (last : Char) (tail : List Char)
    (h0 : s = [] → last ≠ '\\') (h1 : s.getLast? ≠ some '\\') :
    find_string_end last (escape_quotes s ++ '"' :: tail) = (escape_quotes s, '"' :: tail) := by
  induction s generalizing last with
  | nil => simp [escape_quotes, find_string_end, h0 rfl]
  | cons c s ih =>
    have hlast : s ≠ [] → s.getLast? ≠ some '\\' := by
      intro hs
      cases s with
      | nil => exact absurd rfl hs
      | cons d s' => simpa [List.getLast?_cons_cons] using h1
    have hs : s.getLast? ≠ some '\\' := by
      cases s with
      | nil => simp
      | cons d s' => exact hlast (by simp)
    have hc : s = [] → c ≠ '\\' := by
      intro hs
      subst hs
      simpa using h1
    by_cases hq : c = '"'
    · subst hq
      have := ih '"' (fun _ => by decide) hs
      simp [escape_quotes, find_string_end, this]
    · have := ih c hc hs
      simp [escape_quotes, find_string_end, hq, this]

theorem unescape_loop_escape (s : List Char) (last : Char) (cur tmp : List Char) (hit : Bool) :
    (unescape_loop last cur tmp hit (escape_quotes s)).1
        ++ (unescape_loop last cur tmp hit (escape_quotes s)).2.1 = tmp ++ cur ++ s ∧
    ((unescape_loop last cur tmp hit (escape_quotes s)).2.2 = true → hit = true ∨ s ≠ []) ∧
    ((unescape_loop last cur tmp hit (escape_quotes s)).2.2 = false →
      (unescape_loop last cur tmp hit (escape_quotes s)).1 = tmp ∧ escape_quotes s = s) := by
  induction s generalizing last cur tmp hit with
  | nil => simp [escape_quotes, unescape_loop]
  | cons c s ih =>
    by_cases hq : c = '"'
    · subst hq
      have h := ih '\\' [] (tmp ++ cur ++ ['"']) true
      have e : unescape_loop last cur tmp hit (escape_quotes ('"' :: s))
          = unescape_loop '\\' [] (tmp ++ cur ++ ['"']) true (escape_quotes s) := by
        simp [escape_quotes, unescape_loop, List.dropLast_concat]
      rw [e]
      obtain ⟨h1, _, _⟩ := h
      refine ⟨by simpa using h1, fun _ => Or.inr (by simp), ?_⟩
      intro hf
      -- a hit was recorded, so the flag cannot be false
      exfalso
      have hflag : ∀ (t : List Char) (l : Char) (cu tm : List Char),
          (unescape_loop l cu tm true t).2.2 = true := by
        intro t
        induction t with
        | nil => intro l cu tm; rfl
        | cons x t iht =>
          intro l cu tm
          unfold unescape_loop
          split
          · exact iht _ _ _
          · exact iht _ _ _
      rw [hflag] at hf
      exact Bool.noConfusion hf
    · have h := ih c (cur ++ [c]) tmp hit
      have e : unescape_loop last cur tmp hit (escape_quotes (c :: s))
          = unescape_loop c (cur ++ [c]) tmp hit (escape_quotes s) := by
        simp [escape_quotes, unescape_loop, hq]
      rw [e]
      obtain ⟨h1, h2, h3⟩ := h
      refine ⟨by simpa using h1, fun _ => Or.inr (by simp), ?_⟩
      intro hf
      obtain ⟨h4, h5⟩ := h3 hf
      exact ⟨h4, by simp [escape_quotes, hq, h5]⟩

theorem unescape_escape (s : List Char) : unescape (escape_quotes s) = s := by
  obtain ⟨h1, h2, h3⟩ := unescape_loop_escape s ' ' [] [] false
  simp only [List.nil_append] at h1
  unfold unescape
  cases hf : (unescape_loop ' ' [] [] false (escape_quotes s)).2.2 with
  | true =>
    have hs : s ≠ [] := by
      rcases h2 hf with h | h
      · exact absurd h (by decide)
      · exact h
    simp only [hf, if_true, h1]
    simp [hs]
  | false =>
    obtain ⟨h4, h5⟩ := h3 hf
    simp only [hf, Bool.false_eq_true, if_false, h4]
    simp [h5]

/-! ## Lemmas on `read_value` -/

theorem skip_seps (seps : List Char) (x : Char) (rest : List Char)
    (hseps : ∀ c ∈ seps, is_space_or_comma c = true) (hx : is_space_or_comma x = false) :
    (seps ++ x :: rest).dropWhile is_space_or_comma = x :: rest :=
  dropWhile_append_stop _ seps x rest hseps hx

theorem find_if_cond_of_sep (c : Char) (h : find_if_cond c = false) :
    is_space_or_comma c = false := by
  simp only [find_if_cond, Bool.or_eq_false_iff, decide_eq_false_iff_not] at h
  simp [is_space_or_comma, h.1.2, h.2]

theorem read_plain_value_token (X : externals) (pt : primitive_type) (hpt : pt ≠ pt_u8string)
    (seps body : List Char) (delim : Char) (tail : List Char) (stack : List Bool)
    (names : List (List Char))
    (hseps : ∀ c ∈ seps, is_space_or_comma c = true)
    (hbody : ∀ c ∈ body, find_if_cond c = false) (hne : body ≠ [])
    (hdelim : find_if_cond delim = true) :
    string_deserializer.read_plain_value X pt
      { rest := seps ++ (body ++ delim :: tail), m_obj_had_left_parenthesis := stack,
        m_open_objects := names }
    = .ok (apply_from_string X pt body,
        { rest := delim :: tail, m_obj_had_left_parenthesis := stack,
          m_open_objects := names }) := by
  cases body with
  | nil => exact absurd rfl hne
  | cons b bs =>
    have hb : is_space_or_comma b = false :=
      find_if_cond_of_sep b (hbody b (List.mem_cons_self _ _))
    have hskip : (seps ++ (b :: bs ++ delim :: tail)).dropWhile is_space_or_comma
        = (b :: bs) ++ delim :: tail := by
      have := skip_seps seps b (bs ++ delim :: tail) hseps hb
      simpa using this
    have htake : ((b :: bs) ++ delim :: tail).takeWhile (fun c => !find_if_cond c)
        = b :: bs :=
      takeWhile_append_stop _ _ _ _ (fun c hc => by simp [hbody c hc]) (by simp [hdelim])
    have hdrop : ((b :: bs) ++ delim :: tail).dropWhile (fun c => !find_if_cond c)
        = delim :: tail :=
      dropWhile_append_stop _ _ _ _ (fun c hc => by simp [hbody c hc]) (by simp [hdelim])
    simp only [string_deserializer.read_plain_value, string_deserializer.skip_space_and_comma,
      hskip, hpt, decide_False, Bool.false_and, Bool.false_eq_true, if_false, htake, hdrop]

theorem read_plain_value_string (X : externals) (s seps tail : List Char) (stack : List Bool)
    (names : List (List Char))
    (hseps : ∀ c ∈ seps, is_space_or_comma c = true)
    (hs : s.getLast? ≠ some '\\') :
    string_deserializer.read_plain_value X pt_u8string
      { rest := seps ++ (pt_writer_string s ++ tail), m_obj_had_left_parenthesis := stack,
        m_open_objects := names }
    = .ok (s8 s,
        { rest := tail, m_obj_had_left_parenthesis := stack, m_open_objects := names }) := by
  have hskip : (seps ++ (pt_writer_string s ++ tail)).dropWhile is_space_or_comma
      = '"' :: (escape_quotes s ++ '"' :: tail) := by
    have := skip_seps seps '"' (escape_quotes s ++ '"' :: tail) hseps (by decide)
    simpa [pt_writer_string] using this
  have hfind := find_string_end_escape s '"' tail (fun _ => by decide) hs
  simp only [string_deserializer.read_plain_value, string_deserializer.skip_space_and_comma,
    hskip, List.head?_cons, decide_True, Bool.and_self, if_true, List.tail_cons, hfind,
    ne_eq, not_true_eq_false, if_false, apply_from_string, unescape_escape]

/-! ## Lemmas on objects in the text -/

theorem is_delimiter_of_sep (c : Char) (h : is_delimiter c = false) :
    is_space_or_comma c = false := by
  simp only [is_delimiter, Bool.or_eq_false_iff, decide_eq_false_iff_not] at h
  simp [is_space_or_comma, h.1.2, h.2]

theorem seek_object_name (name seps rest : List Char) (c : Char) (stack : List Bool)
    (names : List (List Char)) (hne : name ≠ [])
    (hchars : ∀ x ∈ name, is_delimiter x = false) (hc : is_delimiter c = true)
    (hseps : ∀ x ∈ seps, is_space_or_comma x = true) :
    string_deserializer.seek_object
      { rest := seps ++ (name ++ c :: rest), m_obj_had_left_parenthesis := stack,
        m_open_objects := names }
    = .ok (name, { rest := c :: rest, m_obj_had_left_parenthesis := stack,
                   m_open_objects := names }) := by
  cases name with
  | nil => exact absurd rfl hne
  | cons b bs =>
    have hb : is_space_or_comma b = false :=
      is_delimiter_of_sep b (hchars b (List.mem_cons_self _ _))
    have hskip : (seps ++ (b :: bs ++ c :: rest)).dropWhile is_space_or_comma
        = (b :: bs) ++ c :: rest := by
      have := skip_seps seps b (bs ++ c :: rest) hseps hb
      simpa using this
    have htake : ((b :: bs) ++ c :: rest).takeWhile (fun x => !is_delimiter x) = b :: bs :=
      takeWhile_append_stop _ _ _ _ (fun x hx => by simp [hchars x hx]) (by simp [hc])
    have hdrop : ((b :: bs) ++ c :: rest).dropWhile (fun x => !is_delimiter x) = c :: rest :=
      dropWhile_append_stop _ _ _ _ (fun x hx => by simp [hchars x hx]) (by simp [hc])
    simp only [string_deserializer.seek_object, string_deserializer.skip_space_and_comma,
      hskip, htake, hdrop]
    simp

theorem peek_object_name (name seps rest : List Char) (c : Char) (stack : List Bool)
    (names : List (List Char)) (hne : name ≠ [])
    (hchars : ∀ x ∈ name, is_delimiter x = false) (hc : is_delimiter c = true)
    (hseps : ∀ x ∈ seps, is_space_or_comma x = true) :
    string_deserializer.peek_object
      { rest := seps ++ (name ++ c :: rest), m_obj_had_left_parenthesis := stack,
        m_open_objects := names }
    = .ok (name, { rest := name ++ c :: rest, m_obj_had_left_parenthesis := stack,
                   m_open_objects := names }) := by
  have h := seek_object_name name seps rest c stack names hne hchars hc hseps
  cases name with
  | nil => exact absurd rfl hne
  | cons b bs =>
    have hb : is_space_or_comma b = false :=
      is_delimiter_of_sep b (hchars b (List.mem_cons_self _ _))
    have hskip : (seps ++ (b :: bs ++ c :: rest)).dropWhile is_space_or_comma
        = (b :: bs) ++ c :: rest := by
      have := skip_seps seps b (bs ++ c :: rest) hseps hb
      simpa using this
    simp only [string_deserializer.peek_object, h, string_deserializer.skip_space_and_comma,
      hskip]

theorem uniform_name_prim_facts (pt : primitive_type) (hpt : pt ≠ pt_null) :
    uniform_name (.prim pt) ≠ [] ∧
    (∀ x ∈ uniform_name (.prim pt), is_delimiter x = false) ∧
    uniform_name (.prim pt) ≠ atom_name ∧
    uniform_type_info_from (uniform_name (.prim pt)) = .ok (.prim pt) := by
  cases pt <;> first | exact absurd rfl hpt | exact ⟨by decide, by decide, by decide, by rfl⟩

theorem from_string_prim (X : externals) (w : World) (pt : primitive_type)
    (body : List Char) (value : primitive_variant) (hpt : pt ≠ pt_null)
    (hread : ∀ (stack : List Bool) (names : List (List Char)),
      string_deserializer.read_plain_value X pt
        { rest := [' '] ++ (body ++ [' ', ')']), m_obj_had_left_parenthesis := stack,
          m_open_objects := names }
      = .ok (value, { rest := [' ', ')'], m_obj_had_left_parenthesis := stack,
                      m_open_objects := names })) :
    from_string X (prim_text (uniform_name (.prim pt)) body) w = .ok (.prim value, w) := by
  obtain ⟨h1, h2, h3, h4⟩ := uniform_name_prim_facts pt hpt
  have hpeek := peek_object_name (uniform_name (.prim pt)) []
    ('(' :: ' ' :: (body ++ [' ', ')'])) ' ' [] [] h1 h2 (by decide) (by simp)
  have hseek := seek_object_name (uniform_name (.prim pt)) []
    ('(' :: ' ' :: (body ++ [' ', ')'])) ' ' [] [] h1 h2 (by decide) (by simp)
  simp only [List.nil_append] at hpeek hseek
  have hr := hread [true] [uniform_name (.prim pt)]
  simp only [List.singleton_append] at hr
  simp only [from_string, prim_text, string_deserializer.init, hpeek, h4, deserialize, hseek,
    bind, Except.bind, ne_eq, not_true_eq_false, if_false]
  simp [string_deserializer.begin_object, string_deserializer.skip_space_and_comma,
    string_deserializer.try_consume, is_space_or_comma, string_deserializer.read_value,
    string_deserializer.read_value_aux, string_deserializer.integrity_check, h3, hr,
    string_deserializer.end_object, string_deserializer.consume, bind, Except.bind]

/-! ## Primitive values in the string format -/

theorem to_string_prim (X : externals) (w : World) (v : primitive_variant)
    (h : v.ptype ≠ pt_null) :
    to_string_impl X (.prim v) w
      = .ok (prim_text (uniform_name (.prim v.ptype)) (pt_writer X v), w) := by
  obtain ⟨_, _, h3, _⟩ := uniform_name_prim_facts v.ptype h
  simp [to_string_impl, serialize, string_serializer.begin_object, string_serializer.clear,
    string_serializer.init, string_serializer.write_value, string_serializer.end_object,
    h3, prim_text, bind, Except.bind]

theorem read_token_in_object (X : externals) (pt : primitive_type) (hpt : pt ≠ pt_u8string)
    (body : List Char) (hbody : ∀ c ∈ body, find_if_cond c = false) (hne : body ≠ [])
    (stack : List Bool) (names : List (List Char)) :
    string_deserializer.read_plain_value X pt
      { rest := [' '] ++ (body ++ [' ', ')']), m_obj_had_left_parenthesis := stack,
        m_open_objects := names }
    = .ok (apply_from_string X pt body,
        { rest := [' ', ')'], m_obj_had_left_parenthesis := stack,
          m_open_objects := names }) :=
  read_plain_value_token X pt hpt [' '] body ' ' [')'] stack names (by decide) hbody hne
    (by decide)

/-- C5 (as stated, refuted): a non-empty UTF-16 string is written as nothing and read back
as the empty string. -/
theorem utf16_string_lost :
    to_string_impl sample_externals (.prim (s16 [65])) sample_world
      = .ok ("@u16str (  )".toList, sample_world) ∧
    from_string sample_externals "@u16str (  )".toList sample_world
      = .ok (.prim (s16 []), sample_world) ∧
    (Value.prim (s16 [])) ≠ Value.prim (s16 [65]) :=
  ⟨by rfl, by rfl, by simp⟩

/-- C5 (amended): for the signed and unsigned integers of 16, 32 and 64 bits and for the
UTF-8 strings that do not end in a backslash, the object written for the value `v` is
`name ( text )`, where `text` is what `write_value` writes, and reading it back with
`read_value` of the same kind yields `v`; a UTF-16 or UTF-32 string is written as nothing
and read back as the empty string. -/
theorem prim_round_trip (X : externals) (w : World) (v : primitive_variant)
    (h : v.round_trips) :
    to_string_impl X (.prim v) w
      = .ok (prim_text (uniform_name (.prim v.ptype)) (pt_writer X v), w) ∧
    from_string X (prim_text (uniform_name (.prim v.ptype)) (pt_writer X v)) w
      = .ok (.prim v, w) ∧
    (∀ s : List Nat,
      to_string_impl X (.prim (s16 s)) w = .ok ("@u16str (  )".toList, w) ∧
      from_string X "@u16str (  )".toList w = .ok (.prim (s16 []), w) ∧
      to_string_impl X (.prim (s32 s)) w = .ok ("@u32str (  )".toList, w) ∧
      from_string X "@u32str (  )".toList w = .ok (.prim (s32 []), w)) := by
  refine ⟨?_, ?_, fun s => ⟨by rfl, by rfl, by rfl, by rfl⟩⟩
  · apply to_string_prim
    cases v <;> simp [primitive_variant.round_trips] at h <;> simp [primitive_variant.ptype]
  · cases v with
    | i16 x =>
      have hv : apply_from_string X pt_int16 (ostream_put_int x) = i16 x := by
        simp [apply_from_string, istream_get_int_put _ _ x h.1 h.2]
      have key := from_string_prim X w pt_int16 _ _ (by decide) (fun st nm =>
        read_token_in_object X pt_int16 (by decide) _ (ostream_put_int_chars x).2
          (ostream_put_int_chars x).1 st nm)
      rw [hv] at key
      exact key
    | i32 x =>
      have hv : apply_from_string X pt_int32 (ostream_put_int x) = i32 x := by
        simp [apply_from_string, istream_get_int_put _ _ x h.1 h.2]
      have key := from_string_prim X w pt_int32 _ _ (by decide) (fun st nm =>
        read_token_in_object X pt_int32 (by decide) _ (ostream_put_int_chars x).2
          (ostream_put_int_chars x).1 st nm)
      rw [hv] at key
      exact key
    | i64 x =>
      have hv : apply_from_string X pt_int64 (ostream_put_int x) = i64 x := by
        simp [apply_from_string, istream_get_int_put _ _ x h.1 h.2]
      have key := from_string_prim X w pt_int64 _ _ (by decide) (fun st nm =>
        read_token_in_object X pt_int64 (by decide) _ (ostream_put_int_chars x).2
          (ostream_put_int_chars x).1 st nm)
      rw [hv] at key
      exact key
    | u16 x =>
      have hv : apply_from_string X pt_uint16 (ostream_put_nat x) = u16 x := by
        simp [apply_from_string, istream_get_nat_put 65535 x h (by norm_num)]
      have key := from_string_prim X w pt_uint16 _ _ (by decide) (fun st nm =>
        read_token_in_object X pt_uint16 (by decide) _
          (fun c hc => (ostream_put_nat_chars x c hc).1) (ostream_put_nat_spec x).2.1 st nm)
      rw [hv] at key
      exact key
    | u32 x =>
      have hv : apply_from_string X pt_uint32 (ostream_put_nat x) = u32 x := by
        simp [apply_from_string, istream_get_nat_put 4294967295 x h (by norm_num)]
      have key := from_string_prim X w pt_uint32 _ _ (by decide) (fun st nm =>
        read_token_in_object X pt_uint32 (by decide) _
          (fun c hc => (ostream_put_nat_chars x c hc).1) (ostream_put_nat_spec x).2.1 st nm)
      rw [hv] at key
      exact key
    | u64 x =>
      have hv : apply_from_string X pt_uint64 (ostream_put_nat x) = u64 x := by
        simp [apply_from_string, istream_get_nat_put 18446744073709551615 x h (by norm_num)]
      have key := from_string_prim X w pt_uint64 _ _ (by decide) (fun st nm =>
        read_token_in_object X pt_uint64 (by decide) _
          (fun c hc => (ostream_put_nat_chars x c hc).1) (ostream_put_nat_spec x).2.1 st nm)
      rw [hv] at key
      exact key
    | s8 x =>
      exact from_string_prim X w pt_u8string _ _ (by decide) (fun st nm =>
        read_plain_value_string X x [' '] [' ', ')'] st nm (by decide) h)
    | _ => exact absurd h (by simp [primitive_variant.round_trips])

theorem prim_round_trip_witness :
    (i32 7).round_trips ∧
    from_string sample_externals
      (prim_text (uniform_name (.prim (i32 7).ptype)) (pt_writer sample_externals (i32 7)))
      sample_world
      = .ok (.prim (i32 7), sample_world) :=
  ⟨by simp [primitive_variant.round_trips],
   (prim_round_trip sample_externals sample_world (i32 7)
      (by simp [primitive_variant.round_trips])).2.1⟩

/-! ## Lemmas on node ids -/

theorem hex_digit_spec (n : Nat) :
    hex_char_value (hex_digit n) = some (n % 16) ∧ hex_digit n ≠ '"' ∧ hex_digit n ≠ '\\' := by
  unfold hex_digit
  have h : n % 16 < 16 := Nat.mod_lt _ (by decide)
  generalize n % 16 = k at h
  interval_cases k <;> decide

theorem byte_of_nibbles (b : Nat) (h : b < 256) :
    ((b / 16 % 16 * 16) % 256 ||| (b % 16)) = b := by
  interval_cases b <;> rfl

theorem equal_loop_to_string (node_id : List Nat) (tail : List Char)
    (h : ∀ b ∈ node_id, b < 256) :
    equal_loop (node_id_to_string node_id ++ tail) node_id = true := by
  induction node_id with
  | nil => simp [equal_loop]
  | cons b bs ih =>
    have hb : b < 256 := h b (List.mem_cons_self _ _)
    have hm : b % 256 = b := Nat.mod_eq_of_lt hb
    have h1 := (hex_digit_spec (b / 16)).1
    have h2 := (hex_digit_spec b).1
    have h3 := byte_of_nibbles b hb
    simp only [node_id_to_string, hm, equal_loop, List.cons_append, List.headD_cons, h1,
      List.tail_cons, h2, h3, ne_eq, not_true_eq_false, if_false]
    exact ih (fun x hx => h x (List.mem_cons_of_mem _ hx))

theorem node_id_to_string_length (node_id : List Nat) :
    (node_id_to_string node_id).length = node_id.length * 2 := by
  induction node_id with
  | nil => rfl
  | cons b bs ih => simp [node_id_to_string, ih]; omega

theorem equal_to_string (node_id : List Nat) (h : ∀ b ∈ node_id, b < 256) :
    equal (node_id_to_string node_id) node_id = true := by
  have := equal_loop_to_string node_id [] h
  simp only [List.append_nil] at this
  simp [equal, node_id_to_string_length, this]

theorem node_id_to_string_chars (node_id : List Nat) :
    ∀ c ∈ node_id_to_string node_id, c ≠ '"' ∧ c ≠ '\\' := by
  induction node_id with
  | nil => simp [node_id_to_string]
  | cons b bs ih =>
    intro c hc
    simp only [node_id_to_string, List.mem_cons] at hc
    rcases hc with hc | hc | hc
    · subst hc; exact (hex_digit_spec _).2
    · subst hc; exact (hex_digit_spec _).2
    · exact ih c hc

theorem node_id_to_string_getLast (node_id : List Nat) :
    (node_id_to_string node_id).getLast? ≠ some '\\' := by
  intro h
  have hm := List.mem_of_getLast?_eq_some h
  exact (node_id_to_string_chars node_id _ hm).2 rfl

/-! ## Actor references -/

theorem to_string_actor (X : externals) (w : World) (a : actor) :
    to_string_impl X (.actor_ptr (some a)) w = .ok (actor_text a, w.after_serialize a) := by
  simp [to_string_impl, serialize, actor_ptr_s_serialize, string_serializer.begin_object,
    string_serializer.clear, string_serializer.init, string_serializer.write_tuple,
    string_serializer.write_values, string_serializer.write_value,
    string_serializer.end_object, uniform_name, atom_name, pt_writer, actor_text,
    World.after_serialize, bind, Except.bind]

theorem read_value_plain (X : externals) (pt : primitive_type) (rest : List Char)
    (stack : List Bool) (name : List Char) (names : List (List Char))
    (hname : name ≠ atom_name) :
    string_deserializer.read_value X pt
      { rest := rest, m_obj_had_left_parenthesis := true :: stack,
        m_open_objects := name :: names }
    = string_deserializer.read_plain_value X pt
      { rest := rest, m_obj_had_left_parenthesis := true :: stack,
        m_open_objects := name :: names } := by
  simp [string_deserializer.read_value, string_deserializer.read_value_aux,
    string_deserializer.integrity_check, hname, bind, Except.bind]

theorem deserialize_actor_ptr (X : externals) (fuel : Nat)
    (st : string_deserializer × World) :
    deserialize X (fuel + 1) .actor_ptr st
      = (actor_ptr_s_deserialize X (uniform_name .actor_ptr) st).bind
          (fun r => .ok (.actor_ptr r.1, r.2)) := by
  rfl

theorem read_value_aux_depth (X : externals) (n : Nat) (ptype : primitive_type)
    (d : string_deserializer) :
    string_deserializer.read_value_aux X (n + 2) ptype d
      = string_deserializer.read_value X ptype d := by
  unfold string_deserializer.read_value
  cases hi : d.integrity_check with
  | error e => simp [string_deserializer.read_value_aux, hi, bind, Except.bind]
  | ok u =>
    by_cases ha : d.m_open_objects.head? = some atom_name
    · by_cases hp : ptype = pt_uint64
      · simp [string_deserializer.read_value_aux, hi, ha, hp, bind, Except.bind,
          string_deserializer.throw_malformed]
      · simp [string_deserializer.read_value_aux, hi, ha, hp, bind, Except.bind]
    · simp [string_deserializer.read_value_aux, hi, ha, bind, Except.bind]

/-! ## Actor registry: `get` and `put` -/

theorem registry_never_put_step (k : Nat) (r : actor_registry) (op : registry_op)
    (hop : op.not_put k)
    (h : map_find k r.m_instances = none ∨ map_find k r.m_instances = some none) :
    map_find k (r.step op).m_instances = none ∨
    map_find k (r.step op).m_instances = some none := by
  cases op with
  | put key value =>
    simp only [registry_op.not_put] at hop
    cases value with
    | none => simpa [actor_registry.step, actor_registry.put] using h
    | some a =>
      simp only [actor_registry.step, actor_registry.put]
      cases hf : map_find key r.m_instances with
      | some p => simpa using h
      | none =>
        simp only [map_insert, hf]
        rcases h with h | h
        · left
          rw [map_find_append_of_none k _ _ h]
          simp [map_find, hop]
        · right
          exact map_find_append_of_some k _ _ _ h
  | erase key =>
    simp only [actor_registry.step, actor_registry.erase, map_insert]
    cases hf : map_find key r.m_instances with
    | some p => simpa using h
    | none =>
      simp only
      rcases h with h | h
      · rw [map_find_append_of_none k _ _ h]
        by_cases hk : key = k
        · right; simp [map_find, hk]
        · left; simp [map_find, hk]
      · right
        exact map_find_append_of_some k _ _ _ h
  | next_id => simpa [actor_registry.step, actor_registry.next_id] using h

theorem registry_never_put (k : Nat) (ops : List registry_op) (r : actor_registry)
    (hops : ∀ op ∈ ops, op.not_put k)
    (h : map_find k r.m_instances = none ∨ map_find k r.m_instances = some none) :
    (r.run ops).get k = none := by
  induction ops generalizing r with
  | nil =>
    rcases h with h | h <;> simp [actor_registry.run, actor_registry.get, h]
  | cons op ops ih =>
    have h1 := registry_never_put_step k r op (hops op (List.mem_cons_self _ _)) h
    have := ih (r.step op) (fun o ho => hops o (List.mem_cons_of_mem _ ho)) h1
    simpa [actor_registry.run] using this

/-- C19: `get(k)` returns null as long as no `put` was made under `k`, whatever other
calls were made; `put(k, v)` with `v` not null and `k` absent makes `get(k)` return `v`
and attaches one eraser to `v`; `put(k, v)` with `k` present or `v` null changes nothing
and attaches nothing. -/
theorem registry_get_put (r : actor_registry) (k : Nat) (a : actor) :
    (∀ ops : List registry_op, (∀ op ∈ ops, op.not_put k) →
      (actor_registry.init.run ops).get k = none) ∧
    (map_find k r.m_instances = none → r.get k = none) ∧
    (map_find k r.m_instances = none →
      (r.put k (some a)).1.get k = some a ∧
      (r.put k (some a)).2 = some { m_id := a.m_id } ∧
      (r.put k (some a)).1.m_instances = r.m_instances ++ [(k, some a)]) ∧
    (map_find k r.m_instances ≠ none → r.put k (some a) = (r, none)) ∧
    r.put k none = (r, none) := by
  refine ⟨?_, ?_, ?_, ?_, by rfl⟩
  · intro ops hops
    exact registry_never_put k ops _ hops (Or.inl (by rfl))
  · intro h
    simp [actor_registry.get, h]
  · intro h
    have h1 := map_find_insert_of_none k (some a) r.m_instances h
    simp only [map_insert, h] at h1
    simp [actor_registry.put, actor_registry.get, h, map_insert, h1]
  · intro h
    cases hf : map_find k r.m_instances with
    | none => exact absurd hf h
    | some p => simp [actor_registry.put, hf]

theorem registry_get_put_witness :
    map_find 5 actor_registry.init.m_instances = none ∧
    (actor_registry.init.put 5 (some sample_actor)).1.get 5 = some sample_actor :=
  ⟨by rfl, ((registry_get_put actor_registry.init 5 sample_actor).2.2.1 (by rfl)).1⟩

/-! ## Group manager: `add_module` -/

theorem map_find_map_keys {κ α : Type} [DecidableEq κ] (k : κ) (m : List (κ × α))
    (f : κ × α → κ × α) (hf : ∀ e, (f e).1 = e.1) :
    map_find k (m.map f) = (map_find k m).map (fun v => (f (k, v)).2) := by
  induction m with
  | nil => rfl
  | cons e m ih =>
    by_cases he : e.1 = k
    · have : e = (k, e.2) := by rw [← he]
      simp only [List.map, map_find, hf, he, if_true, Option.map]
      rw [this]
    · simp [List.map, map_find, hf, he, ih]

theorem group_manager_local_registered (gm : group_manager) (h : gm.reachable) :
    map_find local_name gm.m_mmap ≠ none := by
  induction h with
  | init => decide
  | add_module gm mod _ ih =>
    cases hf : map_find local_name gm.m_mmap with
    | none => exact absurd hf ih
    | some m =>
      simp only [group_manager.add_module]
      have : map_find local_name (map_insert mod.m_name mod gm.m_mmap) = some m := by
        unfold map_insert
        cases hm : map_find mod.m_name gm.m_mmap with
        | some x => simpa using hf
        | none => simpa using map_find_append_of_some local_name _ _ _ hf
      split <;> simp [this]
  | get gm module_name group_identifier heap r _ hr ih =>
    unfold group_manager.get at hr
    cases hm : map_find module_name gm.m_mmap with
    | none => simp [hm] at hr
    | some m =>
      simp only [hm, Except.ok.injEq] at hr
      subst hr
      simp only
      rw [map_find_map_keys]
      · cases hf : map_find local_name gm.m_mmap with
        | none => exact absurd hf ih
        | some x => simp
      · intro e
        split <;> rfl

theorem add_module_fresh (gm : group_manager) (mod : group_module)
    (h : map_find mod.m_name gm.m_mmap = none) :
    (gm.add_module mod).2 = .returned ∧
    (gm.add_module mod).1.m_mmap = gm.m_mmap ++ [(mod.m_name, mod)] ∧
    map_find mod.m_name (gm.add_module mod).1.m_mmap = some mod := by
  have hi := map_find_insert_of_none mod.m_name mod gm.m_mmap h
  have hm : map_insert mod.m_name mod gm.m_mmap = gm.m_mmap ++ [(mod.m_name, mod)] := by
    simp [map_insert, h]
  exact ⟨by simp [group_manager.add_module, h], by simp [group_manager.add_module, h, hm],
    by simpa [group_manager.add_module, h] using hi⟩

/-- C20: `add_module(m)` with a name that is already registered does not raise an error
that a caller could handle: the failed insertion deletes the module, and the call then
reads the name stored in the deleted module, which is undefined behaviour.  This happens
for the name `local` on a new manager, whatever the module holds, and in every state for
every name that is registered; the module map is left as it was, and only a call with a
fresh name returns. -/
theorem add_module_reads_deleted_module (gm : group_manager) (mod : group_module)
    (inst : List (List Char × group)) :
    group_manager.init.add_module { m_name := local_name, m_instances := inst }
      = (group_manager.init, .reads_deleted_module) ∧
    (gm.add_module mod).2
      = (if (map_find mod.m_name gm.m_mmap).isSome then .reads_deleted_module
         else .returned) ∧
    (if (map_find mod.m_name gm.m_mmap).isSome then (gm.add_module mod).1 = gm
     else (gm.add_module mod).1.m_mmap = gm.m_mmap ++ [(mod.m_name, mod)]) := by
  refine ⟨by rfl, ?_, ?_⟩
  · cases h : map_find mod.m_name gm.m_mmap <;> simp [group_manager.add_module, h]
  · cases h : map_find mod.m_name gm.m_mmap with
    | none => simpa [h] using (add_module_fresh gm mod h).2.1
    | some m => simp [group_manager.add_module, h, map_insert]

/-! ## Local groups: `enqueue`, `subscribe`, `unsubscribe` -/

theorem local_group_nodup (g : local_group) (h : g.reachable) : g.m_subscribers.Nodup := by
  induction h with
  | init addr gname => simp [local_group.init]
  | subscribe g who _ ih =>
    unfold local_group.subscribe
    split
    · exact ih
    · rename_i hmem
      have hp := List.perm_orderedInsert channel.le who g.m_subscribers
      exact (hp.nodup_iff).mpr (List.nodup_cons.mpr ⟨hmem, ih⟩)
  | unsubscribe g who _ ih => exact ih.filter _

theorem enqueue_loop_some (callee : channel → Bool) (sender : Option actor)
    (m : List Value) (s : List channel) (calls : List enqueue_call)
    (h : local_group.enqueue_loop callee sender m s = some calls) :
    calls = s.map (fun c => { receiver := c, sender := sender, msg := m }) := by
  induction s generalizing calls with
  | nil =>
    simp only [local_group.enqueue_loop, Option.some.injEq] at h
    simp [← h]
  | cons c cs ih =>
    simp only [local_group.enqueue_loop] at h
    split at h
    · cases hl : local_group.enqueue_loop callee sender m cs with
      | none => simp [hl] at h
      | some rest =>
        simp only [hl, Option.map, Option.some.injEq] at h
        rw [← h, ih rest hl]
        rfl
    · exact absurd h (by simp)

theorem enqueue_loop_returns (callee : channel → Bool) (sender : Option actor)
    (m : List Value) (s : List channel) (h : ∀ c ∈ s, callee c = true) :
    local_group.enqueue_loop callee sender m s
      = some (s.map (fun c => { receiver := c, sender := sender, msg := m })) := by
  induction s with
  | nil => rfl
  | cons c cs ih =>
    simp [local_group.enqueue_loop, h c (List.mem_cons_self _ _),
      ih (fun x hx => h x (List.mem_cons_of_mem _ hx))]

theorem self_subscribed_never_returns (fuel : Nat) (sender : Option actor) (m : List Value) :
    sample_self_subscribed.enqueue [(1, sample_self_subscribed)] fuel sender m = none := by
  induction fuel with
  | zero => rfl
  | succ fuel ih =>
    simp [local_group.enqueue, sample_self_subscribed, local_group.subscribe,
      local_group.init, local_group.enqueue_loop, map_find] at ih ⊢
    simp [ih]

/-- C17 (as stated, refuted): the call `enqueue(sender, m)` on a local group that is
subscribed to itself calls `enqueue` on itself and never returns. -/
theorem self_subscribed_enqueue_diverges :
    sample_self_subscribed.reachable ∧
    sample_self_subscribed.m_subscribers = [channel.is_group sample_self_subscribed.self] ∧
    ∀ (fuel : Nat) (sender : Option actor) (m : List Value),
      sample_self_subscribed.enqueue [(1, sample_self_subscribed)] fuel sender m = none :=
  ⟨local_group.reachable.subscribe _ _ (local_group.reachable.init 1 ['g']), by rfl,
   self_subscribed_never_returns⟩

/-- C17 (amended): in every state of a local group with subscriber set `S`, whenever
`enqueue(sender, m)` returns, it has called `enqueue(sender, m)` on the channels of `S`,
each exactly once, and on no other channel, and `S` is unchanged; the call returns at
least when no subscriber is a local group. -/
theorem local_group_enqueue (g : local_group) (h : g.reachable)
    (heap : List (Nat × local_group)) (fuel : Nat) (sender : Option actor) (m : List Value) :
    (∀ r, g.enqueue heap fuel sender m = some r →
      r.2 = g ∧
      r.1.map enqueue_call.receiver = g.m_subscribers ∧
      (∀ e ∈ r.1, e.sender = sender ∧ e.msg = m) ∧
      ∀ c : channel,
        (r.1.map enqueue_call.receiver).count c = if c ∈ g.m_subscribers then 1 else 0) ∧
    g.m_subscribers.Nodup ∧
    ((∀ c ∈ g.m_subscribers, ∀ hg, c = channel.is_group hg → map_find hg.addr heap = none) →
      g.enqueue heap (fuel + 1) sender m
        = some (g.m_subscribers.map
            (fun c => { receiver := c, sender := sender, msg := m }), g)) := by
  have hnd := local_group_nodup g h
  refine ⟨?_, hnd, ?_⟩
  · intro r hr
    cases fuel with
    | zero => simp [local_group.enqueue] at hr
    | succ fuel =>
      simp only [local_group.enqueue] at hr
      cases hl : local_group.enqueue_loop
          (fun c => match c with
            | .is_group h =>
              (match map_find h.addr heap with
               | some hg => (local_group.enqueue heap fuel hg sender m).isSome
               | none => true)
            | _ => true) sender m g.m_subscribers with
      | none => simp [hl] at hr
      | some calls =>
        simp only [hl, Option.map, Option.some.injEq] at hr
        have hc := enqueue_loop_some _ _ _ _ _ hl
        subst hr
        have hmap : calls.map enqueue_call.receiver = g.m_subscribers := by
          rw [hc]
          simp [Function.comp_def]
        refine ⟨rfl, hmap, ?_, ?_⟩
        · intro e he
          rw [hc, List.mem_map] at he
          obtain ⟨c, _, hce⟩ := he
          subst hce
          exact ⟨rfl, rfl⟩
        · intro c
          rw [hmap]
          by_cases hcm : c ∈ g.m_subscribers
          · simp [hcm, List.count_eq_one_of_mem hnd hcm]
          · simp [hcm, List.count_eq_zero_of_not_mem hcm]
  · intro hs
    simp only [local_group.enqueue]
    rw [enqueue_loop_returns]
    · rfl
    · intro c hc
      cases c with
      | is_group hg => simp [hs _ hc hg rfl]
      | is_actor a => rfl
      | other n => rfl

theorem local_group_enqueue_witness :
    ((local_group.init 1 ['g']).subscribe (.is_actor sample_actor)).2.reachable ∧
    ((local_group.init 1 ['g']).subscribe (.is_actor sample_actor)).2.enqueue [] (0 + 1)
        none []
      = some ([{ receiver := .is_actor sample_actor, sender := none, msg := [] }],
              ((local_group.init 1 ['g']).subscribe (.is_actor sample_actor)).2) :=
  ⟨local_group.reachable.subscribe _ _ (local_group.reachable.init 1 ['g']),
   (local_group_enqueue _
      (local_group.reachable.subscribe _ _ (local_group.reachable.init 1 ['g']))
      [] 0 none []).2.2 (fun _ _ _ _ => rfl)⟩

theorem filter_orderedInsert_self (who : channel) (s : List channel) (h : who ∉ s) :
    (s.orderedInsert channel.le who).filter (fun c => decide (c ≠ who)) = s := by
  rw [List.orderedInsert_eq_take_drop]
  have hs : s.filter (fun c => decide (c ≠ who)) = s := by
    rw [List.filter_eq_self]
    intro a ha
    simp only [ne_eq, decide_not, Bool.not_eq_true', decide_eq_false_iff_not]
    intro hc
    exact h (hc ▸ ha)
  simp only [List.filter_append, List.filter_cons, ne_eq, not_true_eq_false, decide_False,
    Bool.false_eq_true, if_false]
  rw [← List.filter_append, List.takeWhile_append_dropWhile]
  exact hs

/-- C18: when `c` is not subscribed, `subscribe(c)` adds `c` and returns a subscription
whose destruction removes `c` again and leaves every other subscriber in place;
`unsubscribe(c)` applied twice, or applied to a channel that is not subscribed, leaves the
same subscriber set as applying it once. -/
theorem local_group_subscribe (g : local_group) (c : channel) :
    (c ∉ g.m_subscribers →
      (g.subscribe c).1 = some { m_self := c, m_group := some g.self } ∧
      (∀ x, x ∈ (g.subscribe c).2.m_subscribers ↔ x = c ∨ x ∈ g.m_subscribers) ∧
      local_group.subscription_destroy (g.subscribe c).1 (g.subscribe c).2 = g) ∧
    (∀ x, x ∈ (g.unsubscribe c).m_subscribers ↔ x ≠ c ∧ x ∈ g.m_subscribers) ∧
    (g.unsubscribe c).unsubscribe c = g.unsubscribe c ∧
    (c ∉ g.m_subscribers → g.unsubscribe c = g) := by
  refine ⟨?_, ?_, ?_, ?_⟩
  · intro hc
    refine ⟨by simp [local_group.subscribe, hc], ?_, ?_⟩
    · intro x
      simp [local_group.subscribe, hc, List.mem_orderedInsert]
    · simp only [local_group.subscribe, hc, if_false, local_group.subscription_destroy,
        local_group.unsubscriber_destroy, local_group.unsubscribe,
        filter_orderedInsert_self c g.m_subscribers hc]
  · intro x
    simp [local_group.unsubscribe, List.mem_filter, and_comm]
  · simp [local_group.unsubscribe, List.filter_filter]
  · intro hc
    have : g.m_subscribers.filter (fun x => decide (x ≠ c)) = g.m_subscribers := by
      rw [List.filter_eq_self]
      intro a ha
      simp only [ne_eq, decide_not, Bool.not_eq_true', decide_eq_false_iff_not]
      intro h
      exact hc (h ▸ ha)
    simp only [local_group.unsubscribe, this]

theorem local_group_subscribe_witness :
    channel.other 7 ∉ (local_group.init 1 ['g']).m_subscribers ∧
    local_group.subscription_destroy
        ((local_group.init 1 ['g']).subscribe (channel.other 7)).1
        ((local_group.init 1 ['g']).subscribe (channel.other 7)).2
      = local_group.init 1 ['g'] :=
  ⟨by decide,
   ((local_group_subscribe (local_group.init 1 ['g']) (channel.other 7)).1 (by decide)).2.2⟩

/-! ## Comparing process information -/

/-- C12: `compare` stops at the first null byte of the node ids: two processes whose node
ids start with a null byte and whose pids agree compare as equal, whatever the other 19
bytes are; for instance the node ids `00 01 01 ...` and `00 02 02 ...`. -/
theorem compare_stops_at_null_byte (pid : Nat) (ta tb : List Nat) :
    process_information.compare { m_process_id := pid, m_node_id := 0 :: ta }
      { m_process_id := pid, m_node_id := 0 :: tb } = 0 ∧
    process_information.compare
      { m_process_id := 7, m_node_id := 0 :: List.replicate 19 1 }
      { m_process_id := 7, m_node_id := 0 :: List.replicate 19 2 } = 0 ∧
    (0 :: List.replicate 19 1 : List Nat) ≠ 0 :: List.replicate 19 2 := by
  refine ⟨?_, by rfl, by decide⟩
  simp [process_information.compare, strncmp, node_id_size]

/-! ## Copying primitive variants -/

/-- C13: the copy assignment and the move assignment from an empty variant leave the
target as it was: after `a = b` with `a` holding the int32 7 and `b` empty, `a` still has
the tag `pt_int32`.  In all other cases the target takes the tag and the value of the
source. -/
theorem copy_assign_from_empty (a b : primitive_variant) :
    primitive_variant.copy_assign a b = (if b = null then a else b) ∧
    (primitive_variant.move_assign a b).1 = (if b = null then a else b) ∧
    (primitive_variant.copy_assign (i32 7) null).ptype = pt_int32 ∧
    primitive_variant.null.ptype = pt_null ∧
    primitive_variant.copy_construct b = b ∧
    (primitive_variant.move_construct b).1 = b := by
  have hs : primitive_variant.apply_setter a b = (if b = null then a else b) := by
    cases b <;> first
      | rfl
      | (simp only [primitive_variant.apply_setter, primitive_variant.assign_value,
          primitive_variant.ptv_set, reduceCtorEq, if_false]
         split <;> rfl)
  refine ⟨hs, hs, by rfl, by rfl, ?_, ?_⟩
  · cases b <;> rfl
  · cases b <;> rfl

/-! ## The map of type-info objects -/

theorem map_find_assign {κ α : Type} [DecidableEq κ] (k s : κ) (v : α) (m : List (κ × α)) :
    map_find s (map_assign k v m) = if k = s then some v else map_find s m := by
  induction m with
  | nil => simp [map_assign, map_find]
  | cons e m ih =>
    by_cases he : e.1 = k
    · by_cases hs : k = s
      · simp [map_assign, map_find, he, hs]
      · simp [map_assign, map_find, he, hs]
    · by_cases hs : k = s
      · subst hs
        simp [map_assign, map_find, he, ih]
      · simp only [map_assign, he, if_false, map_find, ih, hs]

theorem mem_set_insert {α : Type} [DecidableEq α] (x y : α) (s : List α) :
    x ∈ set_insert y s ↔ x = y ∨ x ∈ s := by
  unfold set_insert
  split
  · rename_i h
    constructor
    · intro hx; exact Or.inr hx
    · rintro (hx | hx)
      · subst hx; exact h
      · exact hx
  · simp [or_comm]

theorem at_push (P : platform) (ints : int_names) (n : native_int) (s : Nat) :
    (push P ints n).at s =
      if P.sizeof n = s then
        (if P.is_signed n then (set_insert (.int n) (ints.at s).1, (ints.at s).2)
         else ((ints.at s).1, set_insert (.int n) (ints.at s).2))
      else ints.at s := by
  unfold push
  by_cases hs : P.sizeof n = s
  · subst hs
    cases hsg : P.is_signed n <;> simp [int_names.at, map_find_assign]
  · cases hsg : P.is_signed n <;> simp [int_names.at, map_find_assign, hs]

theorem mem_pushed (P : platform) (L : List native_int) (ints : int_names) (s : Nat)
    (x : cpp_type) :
    (x ∈ ((L.foldl (push P) ints).at s).1 ↔
      x ∈ (ints.at s).1 ∨ ∃ n ∈ L, x = .int n ∧ P.sizeof n = s ∧ P.is_signed n = true) ∧
    (x ∈ ((L.foldl (push P) ints).at s).2 ↔
      x ∈ (ints.at s).2 ∨ ∃ n ∈ L, x = .int n ∧ P.sizeof n = s ∧ P.is_signed n = false) := by
  induction L generalizing ints with
  | nil => simp
  | cons n L ih =>
    obtain ⟨ih1, ih2⟩ := ih (push P ints n)
    clear ih
    refine ⟨?_, ?_⟩
    · rw [List.foldl_cons, ih1, at_push]
      clear ih1 ih2
      by_cases hs : P.sizeof n = s
      · cases hsg : P.is_signed n
        · simp only [hs, if_true, Bool.false_eq_true, if_false, List.mem_cons,
            exists_eq_or_imp, hsg, and_false, false_or]
        · simp only [hs, if_true, mem_set_insert, List.mem_cons, exists_eq_or_imp, hsg,
            and_true]
          tauto
      · simp only [hs, if_false, List.mem_cons, exists_eq_or_imp, false_and, and_false,
          false_or]
    · rw [List.foldl_cons, ih2, at_push]
      clear ih1 ih2
      by_cases hs : P.sizeof n = s
      · cases hsg : P.is_signed n
        · simp only [hs, if_true, Bool.false_eq_true, if_false, mem_set_insert,
            List.mem_cons, exists_eq_or_imp, hsg, and_true]
          tauto
        · simp only [hs, if_true, List.mem_cons, exists_eq_or_imp, hsg,
            Bool.true_eq_false, and_false, false_or]
      · simp only [hs, if_false, List.mem_cons, exists_eq_or_imp, false_and, and_false,
          false_or]

theorem mem_pushed_types (n : native_int) : n ∈ pushed_types := by
  cases n <;> decide

theorem map_find_insert_of_some {κ α : Type} [DecidableEq κ] (k k' : κ) (v v' : α)
    (m : List (κ × α)) (h : map_find k m = some v) :
    map_find k (map_insert k' v' m) = some v := by
  unfold map_insert
  cases hf : map_find k' m with
  | none => exact map_find_append_of_some k m _ v h
  | some x => exact h

theorem map_find_insert_of_ne {κ α : Type} [DecidableEq κ] (k k' : κ) (v' : α)
    (m : List (κ × α)) (hk : k' ≠ k) (h : map_find k m = none) :
    map_find k (map_insert k' v' m) = none := by
  unfold map_insert
  cases hf : map_find k' m with
  | none => simp [map_find_append_of_none k m _ h, map_find, hk]
  | some x => exact h

theorem map_find_foldl_insert_of_some {κ α : Type} [DecidableEq κ] (k : κ) (v v' : α)
    (names : List κ) (m : List (κ × α)) (h : map_find k m = some v) :
    map_find k (names.foldl (fun rn tname => map_insert tname v' rn) m) = some v := by
  induction names generalizing m with
  | nil => exact h
  | cons n names ih => exact ih _ (map_find_insert_of_some k n v v' m h)

theorem map_find_foldl_insert_of_ne {κ α : Type} [DecidableEq κ] (k : κ) (v' : α)
    (names : List κ) (m : List (κ × α)) (hk : ∀ n ∈ names, n ≠ k)
    (h : map_find k m = none) :
    map_find k (names.foldl (fun rn tname => map_insert tname v' rn) m) = none := by
  induction names generalizing m with
  | nil => exact h
  | cons n names ih =>
    exact ih _ (fun x hx => hk x (List.mem_cons_of_mem _ hx))
      (map_find_insert_of_ne k n v' m (hk n (List.mem_cons_self _ _)) h)

theorem helper_insert_bind (uti : uniform_type_info) (names : List cpp_type)
    (d m : uniform_type_info_map)
    (f : uniform_type_info_map → Except Exn uniform_type_info_map)
    (h : (uniform_type_info_map.helper_insert uti names d >>= f) = .ok m) :
    ∃ d', f d' = .ok m ∧ d'.m_ints = d.m_ints ∧
      d'.m_by_uname = map_insert uti.m_name uti d.m_by_uname ∧
      d'.m_by_rname = names.foldl (fun rn tname => map_insert tname uti rn) d.m_by_rname := by
  unfold uniform_type_info_map.helper_insert at h
  split at h
  · simp [bind, Except.bind] at h
  · exact ⟨_, h, rfl, rfl, rfl⟩

theorem helper_insert_ok (uti : uniform_type_info) (names : List cpp_type)
    (d m : uniform_type_info_map)
    (h : uniform_type_info_map.helper_insert uti names d = .ok m) :
    m.m_ints = d.m_ints ∧
      m.m_by_uname = map_insert uti.m_name uti d.m_by_uname ∧
      m.m_by_rname = names.foldl (fun rn tname => map_insert tname uti rn) d.m_by_rname := by
  unfold uniform_type_info_map.helper_insert at h
  split at h
  · simp at h
  · cases h
    exact ⟨rfl, rfl, rfl⟩

theorem pushed_names_ne (P : platform) (s : Nat) (k : cpp_type) (hk : ∀ n, k ≠ .int n) :
    (∀ x ∈ ((pushed_types.foldl (push P) []).at s).1, x ≠ k) ∧
    (∀ x ∈ ((pushed_types.foldl (push P) []).at s).2, x ≠ k) := by
  refine ⟨fun x hx hxk => ?_, fun x hx hxk => ?_⟩
  · rcases ((mem_pushed P pushed_types [] s x).1.mp hx) with h | ⟨n, _, hn, _⟩
    · simp [int_names.at, map_find] at h
    · exact hk n (hxk ▸ hn)
  · rcases ((mem_pushed P pushed_types [] s x).2.mp hx) with h | ⟨n, _, hn, _⟩
    · simp [int_names.at, map_find] at h
    · exact hk n (hxk ▸ hn)

/-- One call of the helper `insert` with raw names other than that of `group_ptr` keeps
the sets of integer names and the entries that `init_spec` is about. -/
theorem helper_insert_bind_keeps (uti : uniform_type_info) (names : List cpp_type)
    (d m : uniform_type_info_map)
    (f : uniform_type_info_map → Except Exn uniform_type_info_map)
    (a g : uniform_type_info)
    (h : (uniform_type_info_map.helper_insert uti names d >>= f) = .ok m)
    (hn : ∀ n ∈ names, n ≠ .group_ptr)
    (hg : d.by_raw_name .group_ptr = none) (ha : d.by_raw_name .actor_ptr = some a)
    (hu : d.by_uniform_name (uniform_name .group_ptr) = some g) :
    ∃ d', f d' = .ok m ∧ d'.m_ints = d.m_ints ∧ d'.by_raw_name .group_ptr = none ∧
      d'.by_raw_name .actor_ptr = some a ∧
      d'.by_uniform_name (uniform_name .group_ptr) = some g := by
  obtain ⟨d', hf, hi, hu', hr'⟩ := helper_insert_bind _ _ _ _ _ h
  refine ⟨d', hf, hi, ?_, ?_, ?_⟩
  · unfold uniform_type_info_map.by_raw_name
    rw [hr']
    exact map_find_foldl_insert_of_ne _ _ _ _ hn hg
  · unfold uniform_type_info_map.by_raw_name
    rw [hr']
    exact map_find_foldl_insert_of_some _ _ _ _ _ ha
  · unfold uniform_type_info_map.by_uniform_name
    rw [hu']
    exact map_find_insert_of_some _ _ _ _ _ hu

/-- What `init` leaves in the map: the sets of integer names, no entry under the raw name
of `group_ptr`, and the objects of `actor_ptr` and `group_ptr`. -/
theorem init_spec (P : platform) (m : uniform_type_info_map)
    (h : uniform_type_info_map.init P = .ok m) :
    m.m_ints = pushed_types.foldl (push P) [] ∧
    m.by_raw_name .group_ptr = none ∧
    m.by_raw_name .actor_ptr = some (uniform_type_info_map.new_tinfo 5 .actor_ptr) ∧
    m.by_uniform_name (uniform_name .group_ptr)
      = some (uniform_type_info_map.new_tinfo 6 .group_ptr) := by
  unfold uniform_type_info_map.init at h
  obtain ⟨d1, h1, i1, u1, r1⟩ := helper_insert_bind _ _ _ _ _ h
  obtain ⟨d2, h2, i2, u2, r2⟩ := helper_insert_bind _ _ _ _ _ h1
  obtain ⟨d3, h3, i3, u3, r3⟩ := helper_insert_bind _ _ _ _ _ h2
  obtain ⟨d4, h4, i4, u4, r4⟩ := helper_insert_bind _ _ _ _ _ h3
  obtain ⟨d5, h5, i5, u5, r5⟩ := helper_insert_bind _ _ _ _ _ h4
  obtain ⟨d6, h6, i6, u6, r6⟩ := helper_insert_bind _ _ _ _ _ h5
  obtain ⟨d7, h7, i7, u7, r7⟩ := helper_insert_bind _ _ _ _ _ h6
  obtain ⟨d8, h8, i8, u8, r8⟩ := helper_insert_bind _ _ _ _ _ h7
  obtain ⟨d9, h9, i9, u9, r9⟩ := helper_insert_bind _ _ _ _ _ h8
  obtain ⟨d10, h10, i10, u10, r10⟩ := helper_insert_bind _ _ _ _ _ h9
  obtain ⟨d11, h11, i11, u11, r11⟩ := helper_insert_bind _ _ _ _ _ h10
  obtain ⟨d12, h12, i12, u12, r12⟩ := helper_insert_bind _ _ _ _ _ h11
  clear h h1 h2 h3 h4 h5 h6 h7 h8 h9 h10 h11
  have e0 : d12.m_ints = [] := by rw [i12, i11, i10, i9, i8, i7, i6, i5, i4, i3, i2, i1]
  have g0 : d12.by_raw_name .group_ptr = none := by
    unfold uniform_type_info_map.by_raw_name
    rw [r12, r11, r10, r9, r8, r7, r6, r5, r4, r3, r2, r1]
    rfl
  have a0 : d12.by_raw_name .actor_ptr = some (uniform_type_info_map.new_tinfo 5 .actor_ptr) := by
    unfold uniform_type_info_map.by_raw_name
    rw [r12, r11, r10, r9, r8, r7, r6, r5, r4, r3, r2, r1]
    rfl
  have n0 : d12.by_uniform_name (uniform_name .group_ptr)
      = some (uniform_type_info_map.new_tinfo 6 .group_ptr) := by
    unfold uniform_type_info_map.by_uniform_name
    rw [u12, u11, u10, u9, u8, u7, u6, u5, u4, u3, u2, u1]
    rfl
  clear i1 i2 i3 i4 i5 i6 i7 i8 i9 i10 i11 i12 u1 u2 u3 u4 u5 u6 u7 u8 u9 u10 u11 u12
  clear r1 r2 r3 r4 r5 r6 r7 r8 r9 r10 r11 r12
  have hd : ∃ d13 : uniform_type_info_map,
      (do
        let d : uniform_type_info_map :=
          { d13 with m_ints := pushed_types.foldl (push P) d13.m_ints }
        let d ← uniform_type_info_map.helper_insert
          (uniform_type_info_map.new_tinfo 14 (.prim pt_int8)) (d.m_ints.at 1).1 d
        let d ← uniform_type_info_map.helper_insert
          (uniform_type_info_map.new_tinfo 15 (.prim pt_uint8)) (d.m_ints.at 1).2 d
        let d ← uniform_type_info_map.helper_insert
          (uniform_type_info_map.new_tinfo 16 (.prim pt_int16)) (d.m_ints.at 2).1 d
        let d ← uniform_type_info_map.helper_insert
          (uniform_type_info_map.new_tinfo 17 (.prim pt_uint16)) (d.m_ints.at 2).2 d
        let d ← uniform_type_info_map.helper_insert
          (uniform_type_info_map.new_tinfo 18 (.prim pt_int32)) (d.m_ints.at 4).1 d
        let d ← uniform_type_info_map.helper_insert
          (uniform_type_info_map.new_tinfo 19 (.prim pt_uint32)) (d.m_ints.at 4).2 d
        let d ← uniform_type_info_map.helper_insert
          (uniform_type_info_map.new_tinfo 20 (.prim pt_int64)) (d.m_ints.at 8).1 d
        uniform_type_info_map.helper_insert
          (uniform_type_info_map.new_tinfo 21 (.prim pt_uint64)) (d.m_ints.at 8).2 d)
        = .ok m ∧
      d13.m_ints = [] ∧ d13.by_raw_name .group_ptr = none ∧
      d13.by_raw_name .actor_ptr = some (uniform_type_info_map.new_tinfo 5 .actor_ptr) ∧
      d13.by_uniform_name (uniform_name .group_ptr)
        = some (uniform_type_info_map.new_tinfo 6 .group_ptr) := by
    cases hdl : P.double_is_long_double
    · simp only [hdl, Bool.false_eq_true, if_false, bind_assoc] at h12
      obtain ⟨d13, h13, i13, g13, a13, n13⟩ :=
        helper_insert_bind_keeps _ _ _ _ _ _ _ h12 (by simp) g0 a0 n0
      obtain ⟨d14, h14, i14, g14, a14, n14⟩ :=
        helper_insert_bind_keeps _ _ _ _ _ _ _ h13 (by simp) g13 a13 n13
      exact ⟨d14, h14, by rw [i14, i13, e0], g14, a14, n14⟩
    · simp only [hdl, if_true] at h12
      obtain ⟨d13, h13, i13, g13, a13, n13⟩ :=
        helper_insert_bind_keeps _ _ _ _ _ _ _ h12 (by simp) g0 a0 n0
      exact ⟨d13, h13, by rw [i13, e0], g13, a13, n13⟩
  obtain ⟨d13, h13, e13, g13, a13, n13⟩ := hd
  clear h12 e0 g0 a0 n0
  have hne : ∀ n : native_int, cpp_type.group_ptr ≠ .int n := by intro n; simp
  obtain ⟨d14, h14, i14, g14, a14, n14⟩ :=
    helper_insert_bind_keeps _ _ _ _ _ _ _ h13
      (by rw [e13]; exact (pushed_names_ne P _ _ hne).1) g13 a13 n13
  obtain ⟨d15, h15, i15, g15, a15, n15⟩ :=
    helper_insert_bind_keeps _ _ _ _ _ _ _ h14
      (by rw [i14, e13]; exact (pushed_names_ne P _ _ hne).2) g14 a14 n14
  obtain ⟨d16, h16, i16, g16, a16, n16⟩ :=
    helper_insert_bind_keeps _ _ _ _ _ _ _ h15
      (by rw [i15, i14, e13]; exact (pushed_names_ne P _ _ hne).1) g15 a15 n15
  obtain ⟨d17, h17, i17, g17, a17, n17⟩ :=
    helper_insert_bind_keeps _ _ _ _ _ _ _ h16
      (by rw [i16, i15, i14, e13]; exact (pushed_names_ne P _ _ hne).2) g16 a16 n16
  obtain ⟨d18, h18, i18, g18, a18, n18⟩ :=
    helper_insert_bind_keeps _ _ _ _ _ _ _ h17
      (by rw [i17, i16, i15, i14, e13]; exact (pushed_names_ne P _ _ hne).1) g17 a17 n17
  obtain ⟨d19, h19, i19, g19, a19, n19⟩ :=
    helper_insert_bind_keeps _ _ _ _ _ _ _ h18
      (by rw [i18, i17, i16, i15, i14, e13]; exact (pushed_names_ne P _ _ hne).2)
      g18 a18 n18
  obtain ⟨d20, h20, i20, g20, a20, n20⟩ :=
    helper_insert_bind_keeps _ _ _ _ _ _ _ h19
      (by rw [i19, i18, i17, i16, i15, i14, e13]; exact (pushed_names_ne P _ _ hne).1)
      g19 a19 n19
  obtain ⟨i21, u21, r21⟩ := helper_insert_ok _ _ _ _ h20
  have hn21 : ∀ n ∈ (d20.m_ints.at 8).2, n ≠ cpp_type.group_ptr := by
    rw [i20, i19, i18, i17, i16, i15, i14, e13]
    exact (pushed_names_ne P _ _ hne).2
  refine ⟨by rw [i21, i20, i19, i18, i17, i16, i15, i14, e13], ?_, ?_, ?_⟩
  · unfold uniform_type_info_map.by_raw_name
    rw [r21]
    exact map_find_foldl_insert_of_ne _ _ _ _ hn21 g20
  · unfold uniform_type_info_map.by_raw_name
    rw [r21]
    exact map_find_foldl_insert_of_some _ _ _ _ _ a20
  · unfold uniform_type_info_map.by_uniform_name
    rw [u21]
    exact map_find_insert_of_some _ _ _ _ _ n20

/-- C14: the object of `group_ptr` is registered under the raw name of `actor_ptr`, so
after the construction of the map (on x86-64 Linux and on every platform on which the
construction succeeds) `by_raw_name` finds nothing for the raw name of `group_ptr`, while
`by_uniform_name` finds the object made for `group_ptr`; the raw name of `actor_ptr`
leads to the object of `actor_ptr`. -/
theorem group_ptr_raw_name_not_registered (P : platform) :
    (uniform_type_info_map.init lp64).map
        (fun m => (m.by_raw_name .group_ptr, m.by_raw_name .actor_ptr,
          m.by_uniform_name (uniform_name .group_ptr)))
      = .ok (none, some (uniform_type_info_map.new_tinfo 5 .actor_ptr),
          some (uniform_type_info_map.new_tinfo 6 .group_ptr)) ∧
    (match uniform_type_info_map.init P with
     | .ok m =>
        m.by_raw_name .group_ptr = none ∧
        m.by_uniform_name (uniform_name .group_ptr)
          = some (uniform_type_info_map.new_tinfo 6 .group_ptr)
     | .error _ => True) := by
  refine ⟨by rfl, ?_⟩
  cases h : uniform_type_info_map.init P with
  | error e => trivial
  | ok m =>
    obtain ⟨_, hg, _, hu⟩ := init_spec P m h
    exact ⟨hg, hu⟩

/-- C16: once the map is constructed, the object of a fixed-width integer type `T`
answers `equals` with true for the native integer type `U` exactly when `U` has the size
and the signedness of `T`. -/
theorem int_tinfo_equals_iff (P : platform) (m : uniform_type_info_map) (T : fixed_int)
    (U : native_int) (h : uniform_type_info_map.init P = .ok m) :
    uniform_type_info_map.int_tinfo_equals T (.int U) m = true ↔
      P.sizeof U = T.sizeof ∧ P.is_signed U = T.is_signed := by
  obtain ⟨hi, _, _, _⟩ := init_spec P m h
  unfold uniform_type_info_map.int_tinfo_equals
  rw [hi]
  have hm := mem_pushed P pushed_types [] T.sizeof (.int U)
  have hempty : int_names.at [] T.sizeof = ([], []) := rfl
  cases hs : T.is_signed
  · simp only [Bool.false_eq_true, if_false, List.any_eq_true, decide_eq_true_eq,
      exists_eq_right, hm.2, hempty, List.not_mem_nil, false_or]
    constructor
    · rintro ⟨n, _, hn, h1, h2⟩
      cases hn
      exact ⟨h1, h2⟩
    · rintro ⟨h1, h2⟩
      exact ⟨U, mem_pushed_types U, rfl, h1, h2⟩
  · simp only [if_true, List.any_eq_true, decide_eq_true_eq,
      exists_eq_right, hm.1, hempty, List.not_mem_nil, false_or]
    constructor
    · rintro ⟨n, _, hn, h1, h2⟩
      cases hn
      exact ⟨h1, h2⟩
    · rintro ⟨h1, h2⟩
      exact ⟨U, mem_pushed_types U, rfl, h1, h2⟩

theorem int_tinfo_equals_iff_witness :
    uniform_type_info_map.init lp64 = .ok sample_type_map ∧
    (uniform_type_info_map.int_tinfo_equals .int64 (.int .long_long) sample_type_map = true ↔
      lp64.sizeof .long_long = fixed_int.int64.sizeof ∧
        lp64.is_signed .long_long = fixed_int.int64.is_signed) :=
  ⟨by rfl, int_tinfo_equals_iff lp64 sample_type_map .int64 .long_long (by rfl)⟩

/-- C15: when an object with the uniform name of `what` is registered, `insert` returns
false and leaves the map as it was, so `by_uniform_name` and `by_raw_name` answer as
before for every name; `announce` returns the same false. -/
theorem insert_existing_uniform_name (raw_names : List cpp_type) (tinfo : cpp_type)
    (what existing : uniform_type_info) (m : uniform_type_info_map)
    (h : m.by_uniform_name what.m_name = some existing) :
    (m.insert raw_names what).2 = .ok false ∧
    (∀ name, (m.insert raw_names what).1.by_uniform_name name = m.by_uniform_name name) ∧
    (∀ name, (m.insert raw_names what).1.by_raw_name name = m.by_raw_name name) ∧
    (m.insert raw_names what).1 = m ∧
    uniform_type_info_map.announce tinfo what m = (m, .ok false) := by
  unfold uniform_type_info_map.by_uniform_name at h
  have hi : ∀ names, m.insert names what = (m, .ok false) := by
    intro names
    simp only [uniform_type_info_map.insert, h]
  refine ⟨by rw [hi], fun name => by rw [hi], fun name => by rw [hi], by rw [hi], ?_⟩
  unfold uniform_type_info_map.announce
  exact hi _

theorem insert_existing_uniform_name_witness :
    sample_type_map.by_uniform_name
        (uniform_type_info.mk 99 (uniform_name (.prim pt_int32)) none).m_name
      = some (uniform_type_info_map.new_tinfo 18 (.prim pt_int32)) ∧
    ((sample_type_map.insert [.other "my_int".toList]
        (uniform_type_info.mk 99 (uniform_name (.prim pt_int32)) none)).2 = .ok false ∧
     (∀ name, (sample_type_map.insert [.other "my_int".toList]
        (uniform_type_info.mk 99 (uniform_name (.prim pt_int32)) none)).1.by_uniform_name name
          = sample_type_map.by_uniform_name name) ∧
     (∀ name, (sample_type_map.insert [.other "my_int".toList]
        (uniform_type_info.mk 99 (uniform_name (.prim pt_int32)) none)).1.by_raw_name name
          = sample_type_map.by_raw_name name) ∧
     (sample_type_map.insert [.other "my_int".toList]
        (uniform_type_info.mk 99 (uniform_name (.prim pt_int32)) none)).1 = sample_type_map ∧
     uniform_type_info_map.announce (.other "my_int".toList)
        (uniform_type_info.mk 99 (uniform_name (.prim pt_int32)) none) sample_type_map
          = (sample_type_map, .ok false)) :=
  ⟨by rfl, insert_existing_uniform_name [.other "my_int".toList] (.other "my_int".toList)
    (uniform_type_info.mk 99 (uniform_name (.prim pt_int32)) none)
    (uniform_type_info_map.new_tinfo 18 (.prim pt_int32)) sample_type_map (by rfl)⟩

/-- C11: a comma and a space are not interchangeable inside a tuple: `from_string` reads
`@tuple ( { @i32 ( 7 ), @i32 ( 8 ) } )`, but raises `std::logic_error` once the comma
is replaced by a space; it reads `@tuple ( { @i32 ( 7 ) } )`, but raises
`std::logic_error` once the space after the brace is replaced by a comma.
`begin_sequence` takes the number of commas for the number of slots. -/
theorem comma_and_space_not_interchangeable (X : externals) (w : World) :
    from_string X "@tuple ( \x7b @i32 ( 7 ), @i32 ( 8 ) \x7d )".toList w
      = .ok (.any_tuple [.prim (i32 7), .prim (i32 8)], w) ∧
    from_string X "@tuple ( \x7b @i32 ( 7 )  @i32 ( 8 ) \x7d )".toList w
      = .error (.logic_error "malformed string: expected another character") ∧
    from_string X "@tuple ( \x7b @i32 ( 7 ) \x7d )".toList w
      = .ok (.any_tuple [.prim (i32 7)], w) ∧
    from_string X "@tuple ( \x7b,@i32 ( 7 ) \x7d )".toList w
      = .error (.logic_error "malformed string: could not seek object type name") :=
  ⟨by rfl, by rfl, by rfl, by rfl⟩

/-! ## Node ids as text -/

theorem hex_char_value_eq_spec (c : Char) : hex_char_value c = spec_hex_value c := by
  have hc : c = Char.ofNat c.toNat := (Char.ofNat_toNat c).symm
  by_cases h1 : 48 ≤ c.toNat ∧ c.toNat ≤ 57
  · obtain ⟨ha, hb⟩ := h1
    generalize c.toNat = k at hc ha hb
    subst hc
    interval_cases k <;> rfl
  · by_cases h2 : 97 ≤ c.toNat ∧ c.toNat ≤ 102
    · obtain ⟨ha, hb⟩ := h2
      generalize c.toNat = k at hc ha hb
      subst hc
      interval_cases k <;> rfl
    · by_cases h3 : 65 ≤ c.toNat ∧ c.toNat ≤ 70
      · obtain ⟨ha, hb⟩ := h3
        generalize c.toNat = k at hc ha hb
        subst hc
        interval_cases k <;> rfl
      · have hne : ∀ d : Char, (48 ≤ d.toNat ∧ d.toNat ≤ 57) ∨ (97 ≤ d.toNat ∧ d.toNat ≤ 102)
            ∨ (65 ≤ d.toNat ∧ d.toNat ≤ 70) → c ≠ d := by
          intro d hd hcd
          subst hcd
          tauto
        have m1 : c ∉ "0123456789abcdef".toList := by
          intro hm
          simp only [String.toList, List.mem_cons, List.mem_singleton, List.not_mem_nil,
            or_false] at hm
          rcases hm with h | h | h | h | h | h | h | h | h | h | h | h | h | h | h | h <;>
            exact hne _ (by decide) h
        have m2 : c ∉ "0123456789ABCDEF".toList := by
          intro hm
          simp only [String.toList, List.mem_cons, List.mem_singleton, List.not_mem_nil,
            or_false] at hm
          rcases hm with h | h | h | h | h | h | h | h | h | h | h | h | h | h | h | h <;>
            exact hne _ (by decide) h
        simp only [hex_char_value, h1, h2, h3, if_false, spec_hex_value, m1, m2]

theorem equal_loop_iff (bs : List Nat) (j : List Char) :
    equal_loop j bs = true ↔ node_id_from_string_loop bs.length j = .ok bs := by
  induction bs generalizing j with
  | nil => simp [equal_loop, node_id_from_string_loop]
  | cons b bs ih =>
    simp only [equal_loop, List.length_cons, node_id_from_string_loop]
    cases h1 : hex_char_value (j.headD (Char.ofNat 0)) with
    | none => simp
    | some hi =>
      cases h2 : hex_char_value (j.tail.headD (Char.ofNat 0)) with
      | none => simp
      | some lo =>
        simp only [bind, Except.bind]
        by_cases hb : ((hi * 16) % 256 ||| lo) = b
        · simp only [hb, ne_eq, not_true_eq_false, if_false, ih j.tail.tail]
          cases node_id_from_string_loop bs.length j.tail.tail with
          | error e => simp
          | ok bytes => simp
        · simp only [ne_eq, hb, not_false_eq_true, if_true]
          cases node_id_from_string_loop bs.length j.tail.tail with
          | error e => simp
          | ok bytes => simp [hb]

theorem equal_iff_from_string (hash : List Char) (node_id : List Nat)
    (h : node_id.length = node_id_size) :
    equal hash node_id = true ↔ node_id_from_string hash = .ok node_id := by
  unfold equal node_id_from_string
  rw [h]
  by_cases hl : hash.length = node_id_size * 2
  · simp only [hl, ne_eq, not_true_eq_false, if_false, equal_loop_iff, h]
  · simp [hl]

theorem from_string_loop_length (n : Nat) (j : List Char) (bs : List Nat)
    (h : node_id_from_string_loop n j = .ok bs) : bs.length = n := by
  induction n generalizing j bs with
  | zero =>
    simp only [node_id_from_string_loop, Except.ok.injEq] at h
    subst h
    rfl
  | succ n ih =>
    cases h1 : hex_char_value (j.headD (Char.ofNat 0)) with
    | none =>
      simp only [node_id_from_string_loop, h1] at h
      cases h
    | some hi =>
      cases h2 : hex_char_value (j.tail.headD (Char.ofNat 0)) with
      | none =>
        simp only [node_id_from_string_loop, h1, h2] at h
        cases h
      | some lo =>
        cases h3 : node_id_from_string_loop n j.tail.tail with
        | error e =>
          simp only [node_id_from_string_loop, h1, h2, h3, bind, Except.bind] at h
          cases h
        | ok bytes =>
          simp only [node_id_from_string_loop, h1, h2, h3, bind, Except.bind,
            Except.ok.injEq] at h
          subst h
          simp only [List.length_cons, ih _ _ h3]

theorem from_string_loop_iff_decode (n : Nat) (j : List Char) (bs : List Nat)
    (hj : j.length = n * 2) :
    node_id_from_string_loop n j = .ok bs ↔ spec_hex_decode j = some bs := by
  induction n generalizing j bs with
  | zero =>
    have : j = [] := List.length_eq_zero.mp (by omega)
    subst this
    simp [node_id_from_string_loop, spec_hex_decode, eq_comm]
  | succ n ih =>
    match j, hj with
    | a :: b :: rest, hj =>
      have hr : rest.length = n * 2 := by
        simp only [List.length_cons] at hj
        omega
      simp only [node_id_from_string_loop, List.headD_cons, List.tail_cons, spec_hex_decode,
        ← hex_char_value_eq_spec]
      cases h1 : hex_char_value a with
      | none => simp
      | some hi =>
        have hhi : hi < 16 := by
          simp only [hex_char_value] at h1
          split at h1
          · simp only [Option.some.injEq] at h1; omega
          · split at h1
            · simp only [Option.some.injEq] at h1; omega
            · split at h1
              · simp only [Option.some.injEq] at h1; omega
              · simp at h1
        cases h2 : hex_char_value b with
        | none => simp
        | some lo =>
          have hlo : lo < 16 := by
            simp only [hex_char_value] at h2
            split at h2
            · simp only [Option.some.injEq] at h2; omega
            · split at h2
              · simp only [Option.some.injEq] at h2; omega
              · split at h2
                · simp only [Option.some.injEq] at h2; omega
                · simp at h2
          have hv : ((hi * 16) % 256 ||| lo) = 16 * hi + lo := by
            interval_cases hi <;> interval_cases lo <;> rfl
          cases h3 : node_id_from_string_loop n rest with
          | error e =>
            have : spec_hex_decode rest = none := by
              cases h4 : spec_hex_decode rest with
              | none => rfl
              | some bytes => rw [← ih rest bytes hr, h3] at h4; simp at h4
            simp [this, bind, Except.bind]
          | ok bytes =>
            have : spec_hex_decode rest = some bytes := (ih rest bytes hr).mp h3
            simp [this, bind, Except.bind, hv]
    | [], hj => simp at hj
    | [_], hj => simp at hj; omega

theorem from_string_iff_decode (hash : List Char) (node_id : List Nat) :
    node_id_from_string hash = .ok node_id ↔
      hash.length = 40 ∧ spec_hex_decode hash = some node_id := by
  unfold node_id_from_string
  by_cases hl : hash.length = node_id_size * 2
  · have hl' : hash.length = 40 := hl
    simp only [hl, ne_eq, not_true_eq_false, if_false,
      from_string_loop_iff_decode node_id_size hash node_id hl]
    simp [node_id_size]
  · have hl' : ¬ hash.length = 40 := hl
    simp [hl, hl']

theorem spec_hex_decode_chars : ∀ (j : List Char) (bs : List Nat),
    spec_hex_decode j = some bs → ∀ c ∈ j, spec_hex_value c ≠ none
  | [], _, _ => by simp
  | [_], _, h => by simp [spec_hex_decode] at h
  | a :: b :: rest, bs, h => by
    simp only [spec_hex_decode] at h
    cases h1 : spec_hex_value a with
    | none => simp [h1] at h
    | some hi =>
      cases h2 : spec_hex_value b with
      | none => simp [h1, h2] at h
      | some lo =>
        cases h3 : spec_hex_decode rest with
        | none => simp [h1, h2, h3] at h
        | some bytes =>
          intro c hc
          simp only [List.mem_cons] at hc
          rcases hc with hc | hc | hc
          · subst hc; simp [h1]
          · subst hc; simp [h2]
          · exact spec_hex_decode_chars rest bytes h3 c hc

theorem from_string_loop_error (n : Nat) (j : List Char) (e : Exn)
    (h : node_id_from_string_loop n j = .error e) :
    e = .invalid_argument "illegal character" := by
  induction n generalizing j with
  | zero => simp [node_id_from_string_loop] at h
  | succ n ih =>
    cases h1 : hex_char_value (j.headD (Char.ofNat 0)) with
    | none =>
      simp only [node_id_from_string_loop, h1, Except.error.injEq] at h
      exact h.symm
    | some hi =>
      cases h2 : hex_char_value (j.tail.headD (Char.ofNat 0)) with
      | none =>
        simp only [node_id_from_string_loop, h1, h2, Except.error.injEq] at h
        exact h.symm
      | some lo =>
        cases h3 : node_id_from_string_loop n j.tail.tail with
        | error e' =>
          simp only [node_id_from_string_loop, h1, h2, h3, bind, Except.bind,
            Except.error.injEq] at h
          subst h
          exact ih _ h3
        | ok bytes =>
          simp only [node_id_from_string_loop, h1, h2, h3, bind, Except.bind] at h
          cases h

theorem hex_digit_lowercase (n : Nat) : hex_digit n ∈ "0123456789abcdef".toList := by
  unfold hex_digit
  have h : n % 16 < 16 := Nat.mod_lt _ (by decide)
  generalize n % 16 = k at h
  interval_cases k <;> decide

theorem node_id_to_string_lowercase (node_id : List Nat) :
    ∀ c ∈ node_id_to_string node_id, c ∈ "0123456789abcdef".toList := by
  induction node_id with
  | nil => simp [node_id_to_string]
  | cons b bs ih =>
    intro c hc
    simp only [node_id_to_string, List.mem_cons] at hc
    rcases hc with hc | hc | hc
    · subst hc; exact hex_digit_lowercase _
    · subst hc; exact hex_digit_lowercase _
    · exact ih c hc

/-- C24: `equal(hash, node_id)` returns a truth value in every case (an exception of
`hex_char_value` is caught), and it returns true exactly when `hash` has 40 characters that
are hexadecimal digits of either case and decode to the bytes of `node_id`, which is
exactly when `node_id_from_string(hash)` succeeds and produces `node_id`. -/
theorem equal_iff_node_id_from_string (hash : List Char) (node_id : List Nat)
    (h : node_id.length = node_id_size) :
    (equal hash node_id = true ↔ hash.length = 40 ∧ spec_hex_decode hash = some node_id) ∧
    (equal hash node_id = true ↔ node_id_from_string hash = .ok node_id) ∧
    (equal hash node_id = false ↔ node_id_from_string hash ≠ .ok node_id) := by
  have h1 := equal_iff_from_string hash node_id h
  refine ⟨by rw [h1, from_string_iff_decode], h1, ?_⟩
  rw [ne_eq, ← h1]
  simp

theorem equal_iff_node_id_from_string_witness :
    (List.replicate 20 171).length = node_id_size ∧
    (equal "ABabABabABabABabABabABabABabABabABabABab".toList (List.replicate 20 171) = true ↔
      node_id_from_string "ABabABabABabABabABabABabABabABabABabABab".toList
        = .ok (List.replicate 20 171)) :=
  ⟨by rfl, (equal_iff_node_id_from_string "ABabABabABabABabABabABabABabABabABabABab".toList
    (List.replicate 20 171) (by rfl)).2.1⟩

/-- C25: for a node id `n` of 20 bytes, `to_string(n)` has 40 characters, all of them
lowercase hexadecimal digits, two per byte with the most significant one first, and
`node_id_from_string` reads `n` back from it; `to_string` of a process information is the
pid in decimal, an `@` and that text; `node_id_from_string` raises
`std::invalid_argument` on a string whose length is not 40 and on a string that contains
a character that is not a hexadecimal digit. -/
theorem node_id_text_round_trip (n : List Nat) (pid : Nat) (hlen : n.length = node_id_size)
    (hb : ∀ b ∈ n, b < 256) :
    (node_id_to_string n).length = 40 ∧
    (∀ c ∈ node_id_to_string n, c ∈ "0123456789abcdef".toList) ∧
    spec_hex_decode (node_id_to_string n) = some n ∧
    node_id_from_string (node_id_to_string n) = .ok n ∧
    process_information.to_string { m_process_id := pid, m_node_id := n }
      = ostream_put_nat pid ++ '@' :: node_id_to_string n ∧
    (∀ c ∈ ostream_put_nat pid, isDigitChar c = true) ∧
    digitsVal (ostream_put_nat pid) 0 = pid ∧
    (∀ s : List Char, s.length ≠ 40 →
      node_id_from_string s
        = .error (.invalid_argument "string argument is not a node id hash")) ∧
    (∀ (s : List Char) (c : Char), c ∈ s → spec_hex_value c = none →
      ∃ msg, node_id_from_string s = .error (.invalid_argument msg)) := by
  have hfs : node_id_from_string (node_id_to_string n) = .ok n :=
    (equal_iff_from_string _ n hlen).mp (equal_to_string n hb)
  have hdec := (from_string_iff_decode _ _).mp hfs
  refine ⟨hdec.1, node_id_to_string_lowercase n, hdec.2, hfs, rfl,
    (ostream_put_nat_spec pid).1, (ostream_put_nat_spec pid).2.2, ?_, ?_⟩
  · intro s hs
    have : s.length ≠ node_id_size * 2 := hs
    simp [node_id_from_string, this]
  · intro s c hc hnone
    cases hr : node_id_from_string s with
    | ok bs =>
      have := (from_string_iff_decode s bs).mp hr
      exact absurd hnone (spec_hex_decode_chars s bs this.2 c hc)
    | error e =>
      unfold node_id_from_string at hr
      split at hr
      · simp only [Except.error.injEq] at hr
        exact ⟨_, by rw [← hr]⟩
      · exact ⟨_, by rw [from_string_loop_error _ _ _ hr]⟩

theorem node_id_text_round_trip_witness :
    (List.replicate 20 171).length = node_id_size ∧
    node_id_from_string (node_id_to_string (List.replicate 20 171))
      = .ok (List.replicate 20 171) :=
  ⟨by rfl, (node_id_text_round_trip (List.replicate 20 171) 7 (by rfl)
    (by intro b hb; rw [List.eq_of_mem_replicate hb]; decide)).2.2.2.1⟩

/-! ## Proxy cache: `add` -/

theorem add_m_proxies (c : actor_proxy_cache) (pptr : actor) :
    (c.add pptr).m_proxies
      = map_insert (actor_proxy_cache.key_of pptr) pptr c.m_proxies := by
  unfold actor_proxy_cache.add
  cases c.m_new_cb <;> simp

theorem map_find_insert_same {κ α : Type} [DecidableEq κ] (k : κ) (v : α)
    (m : List (κ × α)) :
    map_find k (map_insert k v m) = some ((map_find k m).getD v) := by
  cases h : map_find k m with
  | none => simp [map_find_insert_of_none k v m h]
  | some q => simp [map_insert_of_some k v q m h, h]

/-- C26 (as stated, refuted): when the cache already holds a proxy under the key of `p`
(here the proxy that an earlier `get` created at address 100), `add(p)` does not replace
it, and `get` with the key of `p` returns that other proxy. -/
theorem add_keeps_cached_proxy :
    actor_proxy_cache.reachable
      ((actor_proxy_cache.init false).get (actor_proxy_cache.key_of sample_proxy) 100).2.1 ∧
    ((((actor_proxy_cache.init false).get (actor_proxy_cache.key_of sample_proxy) 100).2.1.add
        sample_proxy).get (actor_proxy_cache.key_of sample_proxy) 101).1
      = actor_proxy_cache.new_actor_proxy 100 5
          { m_process_id := 9, m_node_id := List.replicate 20 171 } ∧
    actor_proxy_cache.key_of (actor_proxy_cache.new_actor_proxy 100 5
          { m_process_id := 9, m_node_id := List.replicate 20 171 })
      = actor_proxy_cache.key_of sample_proxy ∧
    actor_proxy_cache.new_actor_proxy 100 5
          { m_process_id := 9, m_node_id := List.replicate 20 171 } ≠ sample_proxy :=
  ⟨actor_proxy_cache.reachable.get _ _ _ (actor_proxy_cache.reachable.init false),
   by rfl, by rfl, by decide⟩

/-- C26 (amended): in every state of the proxy cache, after `add(p)` the call `get` with
the key (id, process id, node id) of `p` returns the proxy that was cached under that key
before the call if there was one, and `p` itself otherwise; the call changes nothing and
creates no proxy. -/
theorem proxy_cache_add_get (c : actor_proxy_cache) (p : actor) (heap : Nat) :
    (c.add p).get (actor_proxy_cache.key_of p) heap
      = ((map_find (actor_proxy_cache.key_of p) c.m_proxies).getD p, c.add p, heap) ∧
    (map_find (actor_proxy_cache.key_of p) c.m_proxies = none →
      ((c.add p).get (actor_proxy_cache.key_of p) heap).1 = p) ∧
    (∀ q, map_find (actor_proxy_cache.key_of p) c.m_proxies = some q →
      ((c.add p).get (actor_proxy_cache.key_of p) heap).1 = q) := by
  have hf : map_find (actor_proxy_cache.key_of p) (c.add p).m_proxies
      = some ((map_find (actor_proxy_cache.key_of p) c.m_proxies).getD p) := by
    rw [add_m_proxies, map_find_insert_same]
  have hg := get_of_some _ (c.add p) heap _ hf
  refine ⟨hg, ?_, ?_⟩
  · intro hn
    rw [hg, hn]
    rfl
  · intro q hq
    rw [hg, hq]
    rfl

theorem proxy_cache_add_get_witness :
    map_find (actor_proxy_cache.key_of sample_proxy) (actor_proxy_cache.init true).m_proxies
      = none ∧
    (((actor_proxy_cache.init true).add sample_proxy).get
      (actor_proxy_cache.key_of sample_proxy) 100).1 = sample_proxy :=
  ⟨by rfl, (proxy_cache_add_get (actor_proxy_cache.init true) sample_proxy 100).2.1 (by rfl)⟩

/-! ## The count of running actors -/

theorem dec_running_value (r : actor_registry) (h : r.m_running < 2 ^ 64) :
    r.dec_running.1.m_running = (if r.m_running = 0 then 2 ^ 64 - 1 else r.m_running - 1) ∧
    r.dec_running.2 =
      (if r.m_running = 0 then .error (.underflow_error "actor_count::dec()")
       else if r.m_running ≤ 2 then .ok true else .ok false) := by
  have hv : (((r.m_running : Int) - 1) % 2 ^ 64).toNat
      = if r.m_running = 0 then 2 ^ 64 - 1 else r.m_running - 1 := by
    split <;> omega
  unfold actor_registry.dec_running
  simp only [hv, size_max]
  by_cases h0 : r.m_running = 0
  · simp [h0]
  · have h1 : ¬ (r.m_running - 1 = 2 ^ 64 - 1) := by omega
    simp only [h0, if_false, h1]
    by_cases h2 : r.m_running ≤ 2
    · have : r.m_running - 1 ≤ 1 := by omega
      simp [h2, this]
    · have : ¬ (r.m_running - 1 ≤ 1) := by omega
      simp [h2, this]

theorem run_running_count (ops : List running_op) (r0 r : actor_registry)
    (hlen : r0.m_running + ops.length < 2 ^ 64)
    (h : actor_registry.run_running ops r0 = .ok r) :
    r.m_running + ops.count .dec = r0.m_running + ops.count .inc := by
  induction ops generalizing r0 with
  | nil =>
    simp only [actor_registry.run_running, Except.ok.injEq] at h
    subst h
    simp
  | cons op ops ih =>
    simp only [List.length_cons] at hlen
    cases op with
    | inc =>
      simp only [actor_registry.run_running] at h
      have hm : (r0.m_running + 1) % 2 ^ 64 = r0.m_running + 1 :=
        Nat.mod_eq_of_lt (by omega)
      have := ih r0.inc_running (by simp only [actor_registry.inc_running, hm]; omega) h
      simp only [actor_registry.inc_running, hm] at this
      simp only [List.count_cons_self, List.count_cons_of_ne (by decide : running_op.dec ≠ .inc)]
      omega
    | dec =>
      obtain ⟨hv, ho⟩ := dec_running_value r0 (by omega)
      simp only [actor_registry.run_running, ho] at h
      by_cases h0 : r0.m_running = 0
      · simp [h0] at h
      · simp only [h0, if_false] at hv h
        have key : actor_registry.run_running ops r0.dec_running.1 = .ok r := by
          by_cases h2 : r0.m_running ≤ 2
          · simpa only [h2, if_true] using h
          · simpa only [h2, if_false] using h
        have := ih _ (by rw [hv]; omega) key
        rw [hv] at this
        simp only [List.count_cons_self,
          List.count_cons_of_ne (by decide : running_op.inc ≠ .dec)]
        omega

/-- C30 (as stated, refuted): on a fresh registry `dec_running()` raises the underflow
error after it has decremented the counter, so `running()` is `2^64 - 1` afterwards (no
call of `inc_running()` was made and one call of `dec_running()`), and the next
`inc_running()` takes the count from `2^64 - 1` to 0. -/
theorem dec_running_wraps :
    actor_registry.init.running = 0 ∧
    actor_registry.init.dec_running.2 = .error (.underflow_error "actor_count::dec()") ∧
    actor_registry.init.dec_running.1.running = 2 ^ 64 - 1 ∧
    actor_registry.init.dec_running.1.inc_running.running = 0 := by
  obtain ⟨hv, ho⟩ := dec_running_value actor_registry.init (by decide)
  have h0 : actor_registry.init.m_running = 0 := rfl
  simp only [h0, if_true] at hv ho
  refine ⟨rfl, ho, hv, ?_⟩
  simp only [actor_registry.running, actor_registry.inc_running, hv]
  norm_num

/-- C30 (amended): `dec_running()` raises the underflow error exactly when the count is 0
before the call, and then leaves the count at `2^64 - 1`; in every other case it returns
and has decreased `running()` by one; `inc_running()` increases `running()` by one,
except that it takes `2^64 - 1` to 0; after a sequence of fewer than `2^64` calls on a
fresh registry in which no `dec_running()` raised, `running()` is the number of
`inc_running()` calls minus the number of `dec_running()` calls. -/
theorem running_count (r : actor_registry) (h : r.m_running < 2 ^ 64) :
    (r.dec_running.2 = .error (.underflow_error "actor_count::dec()") ↔ r.running = 0) ∧
    (r.running = 0 → r.dec_running.1.running = 2 ^ 64 - 1) ∧
    (r.running ≠ 0 →
      r.dec_running.1.running + 1 = r.running ∧ ∃ b, r.dec_running.2 = .ok b) ∧
    (r.running ≠ 2 ^ 64 - 1 → r.inc_running.running = r.running + 1) ∧
    (r.running = 2 ^ 64 - 1 → r.inc_running.running = 0) ∧
    (∀ (ops : List running_op) (r' : actor_registry), ops.length < 2 ^ 64 →
      actor_registry.run_running ops actor_registry.init = .ok r' →
      ops.count .dec ≤ ops.count .inc ∧
      r'.running = ops.count .inc - ops.count .dec) := by
  obtain ⟨hv, ho⟩ := dec_running_value r h
  simp only [actor_registry.running]
  refine ⟨?_, ?_, ?_, ?_, ?_, ?_⟩
  · rw [ho]
    by_cases h0 : r.m_running = 0
    · simp [h0]
    · by_cases h2 : r.m_running ≤ 2 <;> simp [h0, h2]
  · intro h0
    rw [hv]
    simp [h0]
  · intro h0
    rw [hv, ho]
    simp only [h0, if_false]
    refine ⟨by omega, ?_⟩
    by_cases h2 : r.m_running ≤ 2
    · exact ⟨true, by simp [h2]⟩
    · exact ⟨false, by simp [h2]⟩
  · intro hm
    simp only [actor_registry.inc_running]
    exact Nat.mod_eq_of_lt (by omega)
  · intro hm
    simp only [actor_registry.inc_running, hm]
    norm_num
  · intro ops r' hlen hrun
    have := run_running_count ops actor_registry.init r'
      (by simp only [actor_registry.init]; omega) hrun
    simp only [actor_registry.init] at this
    omega

theorem running_count_witness :
    actor_registry.init.m_running < 2 ^ 64 ∧
    [running_op.inc, .inc, .dec].length < 2 ^ 64 ∧
    actor_registry.run_running [.inc, .inc, .dec] actor_registry.init
      = .ok { m_running := 1, m_ids := 1, m_instances := [] } ∧
    (actor_registry.running { m_running := 1, m_ids := 1, m_instances := [] }
      = [running_op.inc, .inc, .dec].count .inc - [running_op.inc, .inc, .dec].count .dec) :=
  ⟨by decide, by decide, by rfl,
   ((running_count actor_registry.init (by decide)).2.2.2.2.2 [.inc, .inc, .dec]
      { m_running := 1, m_ids := 1, m_instances := [] } (by decide) (by rfl)).2⟩

/-! ## Typed access to a primitive variant -/

theorem get_as_of_value (PT : primitive_type) (x : primitive_variant.ptype_to_type PT)
    (hPT : PT ≠ pt_null) :
    primitive_variant.get_as PT (primitive_variant.of_value PT x) = .ok x ∧
    (primitive_variant.of_value PT x).ptype = PT := by
  cases PT <;> first | exact absurd rfl hPT | exact ⟨rfl, rfl⟩

theorem get_as_mismatch (PT : primitive_type) (pv : primitive_variant) (h : pv.ptype ≠ PT) :
    primitive_variant.get_as PT pv = .error (.logic_error "type check failed") := by
  simp [primitive_variant.get_as, primitive_variant.type_check, h, bind, Except.bind]

theorem of_value_surjective (PT : primitive_type) (pv : primitive_variant)
    (h : pv.ptype = PT) : ∃ x, pv = primitive_variant.of_value PT x := by
  subst h
  cases pv <;> first | exact ⟨_, rfl⟩ | exact ⟨(), rfl⟩

/-- C23: for a primitive type with tag `PT`, `get` and `get_ref` return the stored value
when the variant has the tag `PT`, and raise `std::logic_error` in every other case, the
empty variant included; a default-constructed variant has the tag `pt_null`, and
`primitive_variant(pt)` has the tag `pt`. -/
theorem get_checks_tag (PT : primitive_type) (pv : primitive_variant) (hPT : PT ≠ pt_null) :
    (pv.ptype = PT → ∃ x, pv = primitive_variant.of_value PT x ∧
      primitive_variant.get PT pv = .ok x ∧ primitive_variant.get_ref PT pv = .ok x) ∧
    (∀ x, primitive_variant.get PT (primitive_variant.of_value PT x) = .ok x ∧
      primitive_variant.get_ref PT (primitive_variant.of_value PT x) = .ok x) ∧
    (pv.ptype ≠ PT →
      primitive_variant.get PT pv = .error (.logic_error "type check failed") ∧
      primitive_variant.get_ref PT pv = .error (.logic_error "type check failed")) ∧
    primitive_variant.get PT primitive_variant.init
      = .error (.logic_error "type check failed") ∧
    primitive_variant.get_ref PT primitive_variant.init
      = .error (.logic_error "type check failed") ∧
    primitive_variant.init.ptype = pt_null ∧
    (∀ pt, (primitive_variant.of_ptype pt).ptype = pt) := by
  have hnull : primitive_variant.init.ptype ≠ PT := fun h => hPT h.symm
  refine ⟨?_, fun x => ⟨(get_as_of_value PT x hPT).1, (get_as_of_value PT x hPT).1⟩,
    fun h => ⟨get_as_mismatch PT pv h, get_as_mismatch PT pv h⟩,
    get_as_mismatch PT _ hnull, get_as_mismatch PT _ hnull, rfl, ?_⟩
  · intro h
    obtain ⟨x, hx⟩ := of_value_surjective PT pv h
    subst hx
    exact ⟨x, rfl, (get_as_of_value PT x hPT).1, (get_as_of_value PT x hPT).1⟩
  · intro pt
    cases pt <;> rfl

theorem get_checks_tag_witness :
    pt_int32 ≠ pt_null ∧
    (primitive_variant.i32 7).ptype = pt_int32 ∧
    primitive_variant.get pt_int32 (primitive_variant.i32 7) = .ok (7 : Int) ∧
    primitive_variant.get pt_uint32 (primitive_variant.i32 7)
      = .error (.logic_error "type check failed") :=
  ⟨by decide, by rfl,
   ((get_checks_tag pt_int32 (primitive_variant.i32 7) (by decide)).2.1 (7 : Int)).1,
   ((get_checks_tag pt_uint32 (primitive_variant.i32 7) (by decide)).2.2.1 (by decide)).1⟩

theorem get_string_eq_get (pv : primitive_variant) :
    pv.get_string = primitive_variant.get pt_u8string pv ∧
    pv.get_uint32 = primitive_variant.get pt_uint32 pv ∧
    pv.get_uint64 = primitive_variant.get pt_uint64 pv := by
  cases pv <;> exact ⟨rfl, rfl, rfl⟩

/-! ## Actor proxies -/

theorem kill_condition (kill : Nat) (msg : List Value) :
    (decide (msg.length = 2)
      && utype_info_at_is msg 0 .atom_value
      && decide (((msg.get? 0).map Value.get_as_atom_value) = some kill)
      && utype_info_at_is msg 1 (.prim pt_uint32)) = true
    ↔ ∃ r, msg = [.atom_value kill, .prim (u32 r)] := by
  constructor
  · intro h
    simp only [Bool.and_eq_true, decide_eq_true_eq, utype_info_at_is] at h
    obtain ⟨⟨⟨hl, h0⟩, hk⟩, h1⟩ := h
    match msg, hl with
    | [a, b], _ =>
      simp only [List.get?, Option.map, Option.some.injEq] at h0 hk h1
      cases a with
      | atom_value av =>
        simp only [Value.get_as_atom_value] at hk
        subst hk
        cases b with
        | prim bv =>
          simp only [Value.type, type_id.prim.injEq] at h1
          cases bv <;> simp only [primitive_variant.ptype, reduceCtorEq] at h1
          exact ⟨_, rfl⟩
        | _ => simp [Value.type] at h1
      | _ => simp [Value.type] at h0
  · rintro ⟨r, rfl⟩
    simp [utype_info_at_is, Value.type, Value.get_as_atom_value, primitive_variant.ptype]

/-- C27: the call `enqueue(sender, m)` on a proxy runs `cleanup(r)` and pushes nothing to
the queue of the mailman when `m` has exactly two elements, the kill-proxy atom and a
32-bit unsigned reason `r`; for every other `m` it runs no `cleanup` and pushes exactly
one send job, made of the parent process of the proxy, the sender, the proxy and `m`.
The same holds for `default_actor_proxy`, whose job is the closure handed to
`run_later`. -/
theorem proxy_enqueue (X : externals) (default_mid : Nat) (self : actor)
    (sender : Option actor) (msg : List Value) (w : proxy_world) :
    (∀ r, msg = [.atom_value (X.atom_val ":KillProxy".toList), .prim (u32 r)] →
      actor_proxy.enqueue X self sender msg w
        = { w with cleanup_calls := w.cleanup_calls ++ [r] }) ∧
    ((∀ r, msg ≠ [.atom_value (X.atom_val ":KillProxy".toList), .prim (u32 r)]) →
      actor_proxy.enqueue X self sender msg w
        = { w with mailman_queue := w.mailman_queue ++
              [{ target_peer := self.m_parent_process, sender := sender,
                 receiver := some (.is_actor self), content := msg }] }) ∧
    (∀ r, msg = [.atom_value (X.atom_val "KILL_PROXY".toList), .prim (u32 r)] →
      default_actor_proxy.enqueue X default_mid self sender msg w
        = { w with cleanup_calls := w.cleanup_calls ++ [r] }) ∧
    ((∀ r, msg ≠ [.atom_value (X.atom_val "KILL_PROXY".toList), .prim (u32 r)]) →
      default_actor_proxy.enqueue X default_mid self sender msg w
        = { w with run_later_calls := w.run_later_calls ++
              [{ node := self.m_parent_process, sender := sender, receiver := some self,
                 msg := msg, mid := default_mid }] }) := by
  refine ⟨?_, ?_, ?_, ?_⟩
  · rintro r rfl
    have hc := (kill_condition (X.atom_val ":KillProxy".toList) _).mpr ⟨r, rfl⟩
    simp only [actor_proxy.enqueue, List.length_cons, List.length_nil] at hc ⊢
    rw [if_pos hc]
    rfl
  · intro hne
    have hc : ¬ _ := fun h =>
      (kill_condition (X.atom_val ":KillProxy".toList) msg).mp h |>.elim (fun r hr => hne r hr)
    simp only [actor_proxy.enqueue]
    rw [if_neg hc]
    rfl
  · rintro r rfl
    have hc := (kill_condition (X.atom_val "KILL_PROXY".toList) _).mpr ⟨r, rfl⟩
    simp only [default_actor_proxy.enqueue, List.length_cons, List.length_nil] at hc ⊢
    rw [if_pos hc]
    rfl
  · intro hne
    have hc : ¬ _ := fun h =>
      (kill_condition (X.atom_val "KILL_PROXY".toList) msg).mp h |>.elim (fun r hr => hne r hr)
    simp only [default_actor_proxy.enqueue]
    rw [if_neg hc]
    rfl

theorem proxy_enqueue_witness :
    actor_proxy.enqueue sample_externals sample_proxy (some sample_actor)
        [.atom_value (sample_externals.atom_val ":KillProxy".toList), .prim (u32 42)]
        { cleanup_calls := [], mailman_queue := [], run_later_calls := [] }
      = { cleanup_calls := [] ++ [42], mailman_queue := [], run_later_calls := [] } ∧
    actor_proxy.enqueue sample_externals sample_proxy (some sample_actor) [.prim (i32 7)]
        { cleanup_calls := [], mailman_queue := [], run_later_calls := [] }
      = { cleanup_calls := [],
          mailman_queue := [] ++ [{ target_peer := sample_proxy.m_parent_process,
                                    sender := some sample_actor,
                                    receiver := some (.is_actor sample_proxy),
                                    content := [.prim (i32 7)] }],
          run_later_calls := [] } :=
  ⟨(proxy_enqueue sample_externals 0 sample_proxy (some sample_actor) _ _).1 42 rfl,
   (proxy_enqueue sample_externals 0 sample_proxy (some sample_actor) [.prim (i32 7)]
      { cleanup_calls := [], mailman_queue := [], run_later_calls := [] }).2.1
      (by intro r h; simp at h)⟩

/-! ## Equality of tuples and of addressed messages -/

theorem abstract_tuple_equals_at_iff {V : Type} (E : tuple_externals V)
    (a b : abstract_tuple V) (i : Nat) :
    abstract_tuple.equals_at E a b i = true ↔ slot_equal E a b i := by
  unfold abstract_tuple.equals_at slot_equal
  cases h1 : a.elements.get? i with
  | none => simp
  | some x =>
    cases h2 : b.elements.get? i with
    | none => simp
    | some y =>
      simp only [Option.some.injEq, exists_and_left, exists_eq_left']
      cases hu : E.uti_equal x.utype y.utype
      · simp
      · by_cases ha : x.at_addr = y.at_addr
        · simp [ha]
        · cases he : E.equals x.utype x.value y.value <;> simp [ha]

theorem object_array_equals_at_iff {V : Type} (E : tuple_externals V)
    (a b : abstract_tuple V) (i : Nat) :
    object_array.equals_at E a b i = true ↔
      ∃ x y, a.elements.get? i = some x ∧ b.elements.get? i = some y ∧
        E.uti_equal x.utype y.utype = true ∧ E.equals x.utype x.value y.value = true := by
  unfold object_array.equals_at
  cases h1 : a.elements.get? i with
  | none => simp
  | some x =>
    cases h2 : b.elements.get? i with
    | none => simp
    | some y =>
      simp only [Option.some.injEq, exists_and_left, exists_eq_left']
      cases hu : E.uti_equal x.utype y.utype
      · simp
      · cases he : E.equals x.utype x.value y.value <;> simp

theorem same_content_virtual_equals {V : Type} (E : tuple_externals V)
    (a b : abstract_tuple V) (h : same_content E a b)
    (hempty : a.cls = .empty_tuple → a.elements = []) :
    a.virtual_equals E b = true := by
  obtain ⟨hs, hc⟩ := h
  unfold abstract_tuple.virtual_equals
  cases hcls : a.cls with
  | inherits =>
    simp only [abstract_tuple.equals]
    by_cases ha : a.addr = b.addr
    · simp [ha]
    · simp only [ha, if_false, hs, ne_eq, not_true_eq_false, List.all_eq_true, List.mem_range]
      intro i hi
      rw [abstract_tuple_equals_at_iff]
      obtain ⟨x, y, hx, hy, hu, he⟩ := hc i (hs ▸ hi)
      exact ⟨x, y, hx, hy, hu, Or.inr he⟩
  | object_array =>
    simp only [object_array.equals, hs, if_true, List.all_eq_true, List.mem_range]
    intro i hi
    rw [object_array_equals_at_iff]
    exact hc i (hs ▸ hi)
  | empty_tuple =>
    have := hempty hcls
    simp only [abstract_tuple.size, this, List.length_nil] at hs
    simp [empty_tuple.equals, abstract_tuple.size, ← hs]

/-- C22: `abstract_tuple::equals(a, b)` is true exactly when `a` and `b` have the same
size and, at every index, the type-infos are equal and the two values are the same object
or are equal under the `equals` of that type-info; so two different tuple objects that
carry the same content compare equal, whichever class implements `equals`, and so do two
addressed messages with the same sender and receiver that carry the same content. -/
theorem tuple_equals_spec {V : Type} (E : tuple_externals V) (a b : abstract_tuple V)
    (hobj : a.addr = b.addr → a = b) (hrefl : ∀ u, E.uti_equal u u = true) :
    (a.equals E b = true ↔ a.size = b.size ∧ ∀ i, i < a.size → slot_equal E a b i) ∧
    (same_content E a b → (a.cls = .empty_tuple → a.elements = []) →
      a.virtual_equals E b = true ∧
      ∀ (s : Option actor) (r : Option channel),
        addressed_message.eq E { m_sender := s, m_receiver := r, m_content := a }
          { m_sender := s, m_receiver := r, m_content := b } = true) := by
  constructor
  · unfold abstract_tuple.equals
    by_cases ha : a.addr = b.addr
    · have hab := hobj ha
      subst hab
      simp only [if_true, true_iff, true_and]
      intro i hi
      have hlt : i < a.elements.length := hi
      refine ⟨a.elements.get ⟨i, hlt⟩, a.elements.get ⟨i, hlt⟩, ?_, ?_, hrefl _, Or.inl rfl⟩
      · exact List.get?_eq_get hlt
      · exact List.get?_eq_get hlt
    · by_cases hs : a.size = b.size
      · simp only [ha, if_false, hs, ne_eq, not_true_eq_false, List.all_eq_true,
          List.mem_range, true_and, abstract_tuple_equals_at_iff]
      · simp [ha, hs]
  · intro hc hempty
    have hv := same_content_virtual_equals E a b hc hempty
    refine ⟨hv, fun s r => ?_⟩
    simp [addressed_message.eq, hv]

theorem tuple_equals_spec_witness :
    (sample_tuple.addr = sample_tuple_copy.addr → sample_tuple = sample_tuple_copy) ∧
    (∀ u, sample_tuple_externals.uti_equal u u = true) ∧
    sample_tuple.addr ≠ sample_tuple_copy.addr ∧
    same_content sample_tuple_externals sample_tuple sample_tuple_copy ∧
    sample_tuple.virtual_equals sample_tuple_externals sample_tuple_copy = true :=
  have hc : same_content sample_tuple_externals sample_tuple sample_tuple_copy :=
    ⟨rfl, fun i hi => by
      have hi0 : i = 0 := by
        simp only [abstract_tuple.size, sample_tuple, List.length_singleton] at hi
        omega
      subst hi0
      exact ⟨_, _, rfl, rfl, by rfl, by rfl⟩⟩
  ⟨fun h => absurd h (by decide), fun u => by simp [sample_tuple_externals], by decide, hc,
   ((tuple_equals_spec sample_tuple_externals sample_tuple sample_tuple_copy
      (fun h => absurd h (by decide)) (fun u => by simp [sample_tuple_externals])).2 hc
      (fun h => absurd h (by decide))).1⟩

/-! ## `peek_object` -/

theorem skip_skip (d : string_deserializer) :
    d.skip_space_and_comma.skip_space_and_comma = d.skip_space_and_comma := by
  simp [string_deserializer.skip_space_and_comma, List.dropWhile_idempotent]

theorem peek_object_state (d d' : string_deserializer) (n : List Char)
    (h : d.peek_object = .ok (n, d')) :
    d' = d.skip_space_and_comma ∧
    d.seek_object = .ok (n, { d.skip_space_and_comma with
      rest := d.skip_space_and_comma.rest.dropWhile (fun c => !is_delimiter c) }) ∧
    n = d.skip_space_and_comma.rest.takeWhile (fun c => !is_delimiter c) ∧ n ≠ [] := by
  unfold string_deserializer.peek_object at h
  unfold string_deserializer.seek_object at h ⊢
  by_cases he : (d.skip_space_and_comma.rest.takeWhile (fun c => !is_delimiter c)) = []
  · simp [he, string_deserializer.throw_malformed] at h
  · simp only [he, if_false, Except.ok.injEq, Prod.mk.injEq] at h
    obtain ⟨h1, h2⟩ := h
    subst h1
    exact ⟨h2.symm, by simp [he], rfl, he⟩

theorem seek_object_skip (d : string_deserializer) :
    d.skip_space_and_comma.seek_object = d.seek_object := by
  simp only [string_deserializer.seek_object, skip_skip]

theorem peek_object_skip (d : string_deserializer) :
    d.skip_space_and_comma.peek_object = d.peek_object := by
  simp only [string_deserializer.peek_object, seek_object_skip, skip_skip]

theorem consume_skip (c : Char) (d : string_deserializer) :
    d.skip_space_and_comma.consume c = d.consume c := by
  simp only [string_deserializer.consume, skip_skip]

theorem try_consume_skip (c : Char) (d : string_deserializer) :
    d.skip_space_and_comma.try_consume c = d.try_consume c := by
  simp only [string_deserializer.try_consume, skip_skip]

theorem begin_object_skip (name : List Char) (d : string_deserializer) :
    d.skip_space_and_comma.begin_object name = d.begin_object name := by
  simp [string_deserializer.begin_object, string_deserializer.try_consume,
    string_deserializer.skip_space_and_comma, List.dropWhile_idempotent]

theorem end_object_skip (d : string_deserializer) :
    d.skip_space_and_comma.end_object.map string_deserializer.skip_space_and_comma
      = d.end_object.map string_deserializer.skip_space_and_comma := by
  unfold string_deserializer.end_object
  have h1 : d.skip_space_and_comma.m_obj_had_left_parenthesis
      = d.m_obj_had_left_parenthesis := rfl
  rw [h1]
  cases hs : d.m_obj_had_left_parenthesis with
  | nil => rfl
  | cons top stack =>
    cases top with
    | true =>
      simp only [if_true, consume_skip]
    | false =>
      simp only [Bool.false_eq_true, if_false, bind, Except.bind]
      have h2 : d.skip_space_and_comma.m_open_objects = d.m_open_objects := rfl
      cases hn : d.m_open_objects with
      | nil => simp [string_deserializer.skip_space_and_comma, hn]
      | cons name names =>
        by_cases hnames : names = []
        · simp [string_deserializer.skip_space_and_comma, hn, hnames,
            List.dropWhile_idempotent]
        · simp [string_deserializer.skip_space_and_comma, hn, hnames, Except.map,
            List.dropWhile_idempotent]

theorem integrity_check_skip (d : string_deserializer) :
    d.skip_space_and_comma.integrity_check = d.integrity_check := rfl

theorem begin_sequence_skip (d : string_deserializer) :
    d.skip_space_and_comma.begin_sequence = d.begin_sequence := by
  simp only [string_deserializer.begin_sequence, integrity_check_skip, consume_skip]

theorem end_sequence_skip (d : string_deserializer) :
    d.skip_space_and_comma.end_sequence = d.end_sequence := by
  simp only [string_deserializer.end_sequence, integrity_check_skip, consume_skip]

theorem read_plain_value_skip (X : externals) (pt : primitive_type)
    (d : string_deserializer) :
    string_deserializer.read_plain_value X pt d.skip_space_and_comma
      = string_deserializer.read_plain_value X pt d := by
  simp only [string_deserializer.read_plain_value, skip_skip]

theorem read_value_aux_skip (X : externals) (depth : Nat) (pt : primitive_type)
    (d : string_deserializer) :
    string_deserializer.read_value_aux X depth pt d.skip_space_and_comma
      = string_deserializer.read_value_aux X depth pt d := by
  induction depth generalizing pt with
  | zero => rfl
  | succ depth ih =>
    have h2 : d.skip_space_and_comma.m_open_objects = d.m_open_objects := rfl
    simp only [string_deserializer.read_value_aux, integrity_check_skip, h2, ih,
      read_plain_value_skip]

theorem read_value_skip (X : externals) (pt : primitive_type) (d : string_deserializer) :
    string_deserializer.read_value X pt d.skip_space_and_comma
      = string_deserializer.read_value X pt d :=
  read_value_aux_skip X 2 pt d

theorem read_tuple_skip (X : externals) (pts : List primitive_type)
    (d : string_deserializer) :
    string_deserializer.read_tuple X pts d.skip_space_and_comma
      = string_deserializer.read_tuple X pts d := by
  simp only [string_deserializer.read_tuple, integrity_check_skip, consume_skip]

theorem call_skip (X : externals) (c : deserializer_call) (d : string_deserializer) :
    (string_deserializer.call X c d.skip_space_and_comma).map
        (fun x => (x.1, x.2.skip_space_and_comma))
      = (string_deserializer.call X c d).map (fun x => (x.1, x.2.skip_space_and_comma)) := by
  cases c with
  | seek_object => simp only [string_deserializer.call, seek_object_skip]
  | peek_object => simp only [string_deserializer.call, peek_object_skip]
  | begin_object n => simp only [string_deserializer.call, begin_object_skip]
  | end_object =>
    have h := end_object_skip d
    simp only [string_deserializer.call]
    cases h1 : d.skip_space_and_comma.end_object with
    | error e =>
      cases h2 : d.end_object with
      | error e' => simpa [h1, h2, Except.map] using h
      | ok r' => simp [h1, h2, Except.map] at h
    | ok r =>
      cases h2 : d.end_object with
      | error e' => simp [h1, h2, Except.map] at h
      | ok r' =>
        simp only [h1, h2, Except.map, Except.ok.injEq] at h
        simp [Except.map, h]
  | begin_sequence => simp only [string_deserializer.call, begin_sequence_skip]
  | end_sequence => simp only [string_deserializer.call, end_sequence_skip]
  | read_value pt => simp only [string_deserializer.call, read_value_skip]
  | read_tuple pts => simp only [string_deserializer.call, read_tuple_skip]

theorem call_congr (X : externals) (c : deserializer_call) (d d' : string_deserializer)
    (h : d.skip_space_and_comma = d'.skip_space_and_comma) :
    (string_deserializer.call X c d).map (fun x => (x.1, x.2.skip_space_and_comma))
      = (string_deserializer.call X c d').map (fun x => (x.1, x.2.skip_space_and_comma)) := by
  rw [← call_skip X c d, ← call_skip X c d', h]

theorem calls_congr (X : externals) (cs : List deserializer_call)
    (d d' : string_deserializer)
    (h : d.skip_space_and_comma = d'.skip_space_and_comma) :
    string_deserializer.observe (string_deserializer.calls X cs d)
      = string_deserializer.observe (string_deserializer.calls X cs d') := by
  induction cs generalizing d d' with
  | nil => simp [string_deserializer.calls, string_deserializer.observe, Except.map, h]
  | cons c cs ih =>
    have hc := call_congr X c d d' h
    simp only [string_deserializer.calls, bind, Except.bind]
    cases h1 : string_deserializer.call X c d with
    | error e =>
      cases h2 : string_deserializer.call X c d' with
      | error e' =>
        simp only [h1, h2, Except.map, Except.error.injEq] at hc
        simp [string_deserializer.observe, Except.map, hc]
      | ok r' => simp [h1, h2, Except.map] at hc
    | ok r =>
      cases h2 : string_deserializer.call X c d' with
      | error e' => simp [h1, h2, Except.map] at hc
      | ok r' =>
        simp only [h1, h2, Except.map, Except.ok.injEq, Prod.mk.injEq] at hc
        have hi := ih r.2 r'.2 hc.2
        simp only [string_deserializer.observe] at hi ⊢
        cases h3 : string_deserializer.calls X cs r.2 with
        | error e =>
          cases h4 : string_deserializer.calls X cs r'.2 with
          | error e' =>
            simp only [h3, h4, Except.map, Except.error.injEq] at hi
            simp [Except.map, hi]
          | ok rs' => simp [h3, h4, Except.map] at hi
        | ok rs =>
          cases h4 : string_deserializer.calls X cs r'.2 with
          | error e' => simp [h3, h4, Except.map] at hi
          | ok rs' =>
            simp only [h3, h4, Except.map, Except.ok.injEq, Prod.mk.injEq] at hi
            simp [Except.map, hc.1, hi.1, hi.2]

/-- C29: when `peek_object` returns the name `n`, a following `peek_object` returns `n`
again and changes nothing, a following `seek_object` returns `n` and moves the position
past the name, as it would have done without the `peek_object`, and every sequence of
later calls returns the same results or raises the same exception as without the
`peek_object`. -/
theorem peek_object_non_consuming (X : externals) (d d' : string_deserializer)
    (n : List Char) (h : d.peek_object = .ok (n, d')) :
    d'.peek_object = .ok (n, d') ∧
    (∃ d'', d'.seek_object = .ok (n, d'') ∧ d.seek_object = .ok (n, d'') ∧
      d'.rest = n ++ d''.rest ∧ n ≠ []) ∧
    (∀ cs : List deserializer_call,
      string_deserializer.observe (string_deserializer.calls X cs d')
        = string_deserializer.observe (string_deserializer.calls X cs d)) := by
  obtain ⟨h1, h2, h3, h4⟩ := peek_object_state d d' n h
  subst h1
  refine ⟨?_, ⟨_, ?_, h2, ?_, h4⟩, ?_⟩
  · rw [peek_object_skip, h]
  · rw [seek_object_skip, h2]
  · rw [h3]
    exact (List.takeWhile_append_dropWhile _ _).symm
  · intro cs
    exact calls_congr X cs _ _ (skip_skip d)

theorem peek_object_non_consuming_witness :
    (string_deserializer.init " @i32 ( 7 )".toList).peek_object
      = .ok ("@i32".toList, string_deserializer.init "@i32 ( 7 )".toList) ∧
    string_deserializer.observe (string_deserializer.calls sample_externals
        [.seek_object, .begin_object "@i32".toList, .read_value pt_int32, .end_object]
        (string_deserializer.init "@i32 ( 7 )".toList))
      = string_deserializer.observe (string_deserializer.calls sample_externals
        [.seek_object, .begin_object "@i32".toList, .read_value pt_int32, .end_object]
        (string_deserializer.init " @i32 ( 7 )".toList)) :=
  ⟨by rfl,
   (peek_object_non_consuming sample_externals
      (string_deserializer.init " @i32 ( 7 )".toList)
      (string_deserializer.init "@i32 ( 7 )".toList) "@i32".toList (by rfl)).2.2 _⟩

/-! ## Channel references -/

theorem read_actor_tuple_in (X : externals) (a : actor) (ha : a.well_formed)
    (tail : List Char) (stack : List Bool) (names : List (List Char)) :
    string_deserializer.read_tuple X [pt_uint32, pt_uint32, pt_u8string]
      { rest := ' ' :: '{' ::
          (ostream_put_nat a.m_id ++ (',' :: ' ' ::
            (ostream_put_nat a.m_parent_process.m_process_id ++ (',' :: ' ' ::
              (pt_writer_string (node_id_to_string a.m_parent_process.m_node_id)
                ++ (' ' :: '}' :: tail)))))),
        m_obj_had_left_parenthesis := true :: stack,
        m_open_objects := uniform_name .actor_ptr :: names }
    = .ok ([u32 a.m_id, u32 a.m_parent_process.m_process_id,
            s8 (node_id_to_string a.m_parent_process.m_node_id)],
        { rest := tail, m_obj_had_left_parenthesis := true :: stack,
          m_open_objects := uniform_name .actor_ptr :: names }) := by
  obtain ⟨h1, h2, _, _⟩ := ha
  have hn : uniform_name .actor_ptr ≠ atom_name := by decide
  have r1 := read_plain_value_token X pt_uint32 (by decide) [] (ostream_put_nat a.m_id) ','
    (' ' :: (ostream_put_nat a.m_parent_process.m_process_id ++ (',' :: ' ' ::
      (pt_writer_string (node_id_to_string a.m_parent_process.m_node_id)
        ++ (' ' :: '}' :: tail)))))
    (true :: stack) (uniform_name .actor_ptr :: names) (by simp)
    (fun c hc => (ostream_put_nat_chars _ c hc).1) (ostream_put_nat_spec _).2.1 (by decide)
  have r2 := read_plain_value_token X pt_uint32 (by decide) [',', ' ']
    (ostream_put_nat a.m_parent_process.m_process_id) ','
    (' ' :: (pt_writer_string (node_id_to_string a.m_parent_process.m_node_id)
        ++ (' ' :: '}' :: tail)))
    (true :: stack) (uniform_name .actor_ptr :: names) (by decide)
    (fun c hc => (ostream_put_nat_chars _ c hc).1) (ostream_put_nat_spec _).2.1 (by decide)
  have r3 := read_plain_value_string X (node_id_to_string a.m_parent_process.m_node_id)
    [',', ' '] (' ' :: '}' :: tail) (true :: stack) (uniform_name .actor_ptr :: names)
    (by decide) (node_id_to_string_getLast _)
  have v1 : apply_from_string X pt_uint32 (ostream_put_nat a.m_id) = u32 a.m_id := by
    simp [apply_from_string, istream_get_nat_put 4294967295 _ h1 (by norm_num)]
  have v2 : apply_from_string X pt_uint32 (ostream_put_nat a.m_parent_process.m_process_id)
      = u32 a.m_parent_process.m_process_id := by
    simp [apply_from_string, istream_get_nat_put 4294967295 _ h2 (by norm_num)]
  rw [v1] at r1
  rw [v2] at r2
  have rv : ∀ (pt : primitive_type) (rest : List Char),
      string_deserializer.read_value X pt
        { rest := rest, m_obj_had_left_parenthesis := true :: stack,
          m_open_objects := uniform_name .actor_ptr :: names }
      = string_deserializer.read_plain_value X pt
        { rest := rest, m_obj_had_left_parenthesis := true :: stack,
          m_open_objects := uniform_name .actor_ptr :: names } :=
    fun pt rest => read_value_plain X pt rest stack _ names hn
  simp only [List.nil_append, List.cons_append] at r1 r2 r3
  have c1 : ∀ R : List Char,
      string_deserializer.consume '{'
        { rest := ' ' :: '{' :: R, m_obj_had_left_parenthesis := true :: stack,
          m_open_objects := uniform_name .actor_ptr :: names }
      = .ok { rest := R, m_obj_had_left_parenthesis := true :: stack,
              m_open_objects := uniform_name .actor_ptr :: names } := by
    intro R
    simp [string_deserializer.consume, string_deserializer.skip_space_and_comma,
      is_space_or_comma, List.dropWhile]
  have c2 : string_deserializer.consume '}'
        { rest := ' ' :: '}' :: tail, m_obj_had_left_parenthesis := true :: stack,
          m_open_objects := uniform_name .actor_ptr :: names }
      = .ok { rest := tail, m_obj_had_left_parenthesis := true :: stack,
              m_open_objects := uniform_name .actor_ptr :: names } := by
    simp [string_deserializer.consume, string_deserializer.skip_space_and_comma,
      is_space_or_comma, List.dropWhile]
  simp only [string_deserializer.read_tuple, string_deserializer.integrity_check, c1,
    string_deserializer.read_values, rv, r1, r2, r3, c2, bind, Except.bind]
  rfl

theorem find_string_end_escape_any (s : List Char) (last : Char) (rest : List Char) :
    find_string_end last (escape_quotes s ++ rest)
      = (escape_quotes s ++ (find_string_end (s.getLast?.getD last) rest).1,
         (find_string_end (s.getLast?.getD last) rest).2) := by
  induction s generalizing last with
  | nil => simp [escape_quotes]
  | cons c s ih =>
    have hl : ∀ d : Char, (c :: s).getLast?.getD d = s.getLast?.getD c := by
      intro d
      cases s with
      | nil => rfl
      | cons x xs =>
        obtain ⟨y, hy⟩ : ∃ y, (x :: xs).getLast? = some y :=
          ⟨_, List.getLast?_eq_getLast _ (List.cons_ne_nil _ _)⟩
        simp [List.getLast?_cons_cons, hy]
    by_cases hq : c = '"'
    · subst hq
      have := ih '"'
      simp [escape_quotes, find_string_end, this, hl]
    · have := ih c
      simp [escape_quotes, find_string_end, hq, this, hl]

theorem find_string_end_no_quote (last : Char) (rest : List Char)
    (h : ∀ c ∈ rest, c ≠ '"') : (find_string_end last rest).2 = [] := by
  induction rest generalizing last with
  | nil => rfl
  | cons c cs ih =>
    have hc : c ≠ '"' := h c (List.mem_cons_self _ _)
    simp [find_string_end, hc, ih c (fun x hx => h x (List.mem_cons_of_mem _ hx))]

theorem read_plain_value_string_backslash (X : externals) (s seps tail : List Char)
    (stack : List Bool) (names : List (List Char))
    (hseps : ∀ c ∈ seps, is_space_or_comma c = true)
    (hs : s.getLast? = some '\\') (htail : ∀ c ∈ tail, c ≠ '"') :
    string_deserializer.read_plain_value X pt_u8string
      { rest := seps ++ (pt_writer_string s ++ tail), m_obj_had_left_parenthesis := stack,
        m_open_objects := names }
    = .error (.logic_error "malformed string (unterminated value)") := by
  have hskip : (seps ++ (pt_writer_string s ++ tail)).dropWhile is_space_or_comma
      = '"' :: (escape_quotes s ++ '"' :: tail) := by
    have := skip_seps seps '"' (escape_quotes s ++ '"' :: tail) hseps (by decide)
    simpa [pt_writer_string] using this
  have hfind : (find_string_end '"' (escape_quotes s ++ '"' :: tail)).2 = [] := by
    rw [find_string_end_escape_any, hs]
    simp [find_string_end, find_string_end_no_quote '"' tail htail]
  simp only [string_deserializer.read_plain_value, string_deserializer.skip_space_and_comma,
    hskip, List.head?_cons, decide_True, Bool.and_self, if_true, List.tail_cons, hfind]

/-- The text of an object without its opening parenthesis is rejected by the first read
inside the object. -/
theorem begin_object_no_parenthesis (name : List Char) (rest : List Char)
    (stack : List Bool) (names : List (List Char))
    (h : (rest.dropWhile is_space_or_comma).head? ≠ some '(') :
    string_deserializer.begin_object name
      { rest := rest, m_obj_had_left_parenthesis := stack, m_open_objects := names }
    = { rest := rest.dropWhile is_space_or_comma,
        m_obj_had_left_parenthesis := false :: stack,
        m_open_objects := name :: names } := by
  simp only [string_deserializer.begin_object, string_deserializer.try_consume,
    string_deserializer.skip_space_and_comma, List.dropWhile_idempotent]
  cases hr : rest.dropWhile is_space_or_comma with
  | nil => rfl
  | cons x xs =>
    have hx : x ≠ '(' := by
      intro hx
      rw [hr, hx] at h
      exact h rfl
    simp [hx]

theorem read_value_no_parenthesis (X : externals) (pt : primitive_type) (rest : List Char)
    (stack : List Bool) (names : List (List Char)) :
    string_deserializer.read_value X pt
      { rest := rest, m_obj_had_left_parenthesis := false :: stack,
        m_open_objects := names }
    = string_deserializer.throw_malformed
        (if names = [] then "missing begin_object()"
         else "expected left parenthesis after begin_object call or void value") := by
  cases names with
  | nil =>
    simp [string_deserializer.read_value, string_deserializer.read_value_aux,
      string_deserializer.integrity_check, bind, Except.bind,
      string_deserializer.throw_malformed]
  | cons n ns =>
    simp [string_deserializer.read_value, string_deserializer.read_value_aux,
      string_deserializer.integrity_check, bind, Except.bind,
      string_deserializer.throw_malformed]

theorem from_string_prim_missing_open (X : externals) (w : World) (pt : primitive_type)
    (rest : List Char) (hpt : pt ≠ pt_null)
    (h : (rest.dropWhile is_space_or_comma).head? ≠ some '(') :
    from_string X (uniform_name (.prim pt) ++ ' ' :: rest) w
      = .error (.logic_error
          "malformed string: expected left parenthesis after begin_object call or void value") := by
  obtain ⟨h1, h2, h3, h4⟩ := uniform_name_prim_facts pt hpt
  have hpeek := peek_object_name (uniform_name (.prim pt)) [] rest ' ' [] [] h1 h2
    (by decide) (by simp)
  have hseek := seek_object_name (uniform_name (.prim pt)) [] rest ' ' [] [] h1 h2
    (by decide) (by simp)
  simp only [List.nil_append] at hpeek hseek
  have hb := begin_object_no_parenthesis (uniform_name (.prim pt)) (' ' :: rest) [] []
    (by simpa [List.dropWhile, is_space_or_comma] using h)
  simp only [from_string, string_deserializer.init, hpeek, h4, deserialize, hseek,
    bind, Except.bind, ne_eq, not_true_eq_false, if_false, hb, read_value_no_parenthesis]
  simp [string_deserializer.throw_malformed]

theorem from_string_prim_missing_close (X : externals) (w : World) (pt : primitive_type)
    (body : List Char) (hpt : pt ≠ pt_null)
    (hread : ∀ (stack : List Bool) (names : List (List Char)),
      (∃ v, string_deserializer.read_plain_value X pt
        { rest := [' '] ++ (body ++ [' ']), m_obj_had_left_parenthesis := stack,
          m_open_objects := names }
        = .ok (v, { rest := [' '], m_obj_had_left_parenthesis := stack,
                    m_open_objects := names })) ∨
      (∃ e, string_deserializer.read_plain_value X pt
        { rest := [' '] ++ (body ++ [' ']), m_obj_had_left_parenthesis := stack,
          m_open_objects := names } = .error e)) :
    ∃ e, from_string X (uniform_name (.prim pt) ++ ' ' :: '(' :: ' ' :: (body ++ [' '])) w
      = .error e := by
  obtain ⟨h1, h2, h3, h4⟩ := uniform_name_prim_facts pt hpt
  have hpeek := peek_object_name (uniform_name (.prim pt)) []
    ('(' :: ' ' :: (body ++ [' '])) ' ' [] [] h1 h2 (by decide) (by simp)
  have hseek := seek_object_name (uniform_name (.prim pt)) []
    ('(' :: ' ' :: (body ++ [' '])) ' ' [] [] h1 h2 (by decide) (by simp)
  simp only [List.nil_append] at hpeek hseek
  have hbegin : string_deserializer.begin_object (uniform_name (.prim pt))
        { rest := ' ' :: '(' :: ' ' :: (body ++ [' ']), m_obj_had_left_parenthesis := [],
          m_open_objects := [] }
      = { rest := ' ' :: (body ++ [' ']), m_obj_had_left_parenthesis := [true],
          m_open_objects := [uniform_name (.prim pt)] } := by
    simp [string_deserializer.begin_object, string_deserializer.try_consume,
      string_deserializer.skip_space_and_comma, is_space_or_comma, List.dropWhile]
  have hrv := read_value_plain X pt (' ' :: (body ++ [' '])) [] (uniform_name (.prim pt)) [] h3
  have hend : string_deserializer.end_object
        { rest := [' '], m_obj_had_left_parenthesis := [true],
          m_open_objects := [uniform_name (.prim pt)] }
      = .error (.logic_error "malformed string: expected another character") := by
    rfl
  simp only [from_string, string_deserializer.init, hpeek, h4, deserialize, hseek,
    bind, Except.bind, ne_eq, not_true_eq_false, if_false, hbegin, hrv]
  rcases hread [true] [uniform_name (.prim pt)] with ⟨v, hv⟩ | ⟨e, he⟩
  · simp only [List.singleton_append] at hv
    simp only [hv, hend]
    exact ⟨_, rfl⟩
  · simp only [List.singleton_append] at he
    simp only [he]
    exact ⟨_, rfl⟩

theorem prim_text_delete (name body pre post : List Char) (c : Char)
    (hc : c = '(' ∨ c = ')') (hname : ∀ x ∈ name, is_delimiter x = false)
    (h : prim_text name body = pre ++ c :: post) :
    (pre ++ post = name ++ ' ' :: ' ' :: (body ++ [' ', ')'])) ∨
    (pre ++ post = name ++ ' ' :: '(' :: ' ' :: (body ++ [' '])) ∨
    (∃ a b, body = a ++ c :: b ∧ pre = name ++ ' ' :: '(' :: ' ' :: a) := by
  have hcd : is_delimiter c = true := by
    rcases hc with hc | hc <;> subst hc <;> decide
  have hsp : c ≠ ' ' := by
    rcases hc with hc | hc <;> subst hc <;> decide
  unfold prim_text at h
  rcases List.append_eq_append_iff.mp h with ⟨a', h1, h2⟩ | ⟨c', h1, h2⟩
  · -- the deleted character comes after the name
    match a', h1, h2 with
    | [], _, h2 =>
      simp only [List.nil_append, List.cons.injEq] at h2
      exact absurd h2.1.symm hsp
    | [x], h1, h2 =>
      simp only [List.singleton_append, List.cons.injEq] at h2
      obtain ⟨hx, hc', hpost⟩ := h2
      left
      rw [h1, ← hx, ← hpost]
      simp
    | [x, y], _, h2 =>
      simp only [List.cons_append, List.nil_append, List.cons.injEq] at h2
      exact absurd h2.2.2.1.symm hsp
    | x :: y :: z :: a'', h1, h2 =>
      simp only [List.cons_append, List.cons.injEq] at h2
      obtain ⟨hx, hy, hz, h3⟩ := h2
      rcases List.append_eq_append_iff.mp h3 with ⟨e, h4, h5⟩ | ⟨e, h4, h5⟩
      · match e, h4, h5 with
        | [], _, h5 =>
          simp only [List.nil_append, List.cons.injEq] at h5
          exact absurd h5.1.symm hsp
        | [u], h4, h5 =>
          simp only [List.singleton_append, List.cons.injEq] at h5
          obtain ⟨hu, _, hpost⟩ := h5
          right
          left
          rw [h1, ← hx, ← hy, ← hz, h4, ← hu, ← hpost]
          simp
        | [u, v], _, h5 => simp at h5
        | u :: v :: t :: r, _, h5 => simp at h5
      · cases e with
        | nil =>
          simp only [List.nil_append, List.cons.injEq] at h5
          exact absurd h5.1 hsp
        | cons k ks =>
          simp only [List.cons_append, List.cons.injEq] at h5
          right
          right
          refine ⟨a'', ks, ?_, ?_⟩
          · rw [h4, h5.1]
          · rw [h1, ← hx, ← hy, ← hz]
  · cases c' with
    | nil =>
      simp only [List.nil_append, List.cons.injEq] at h2
      exact absurd h2.1 hsp
    | cons x xs =>
      simp only [List.cons_append, List.cons.injEq] at h2
      have hx : c ∈ name := by
        rw [h1, h2.1]
        simp
      have := hname c hx
      rw [hcd] at this
      exact absurd this (by decide)

theorem ostream_put_nat_no_delimiter (n : Nat) :
    ∀ c ∈ ostream_put_nat n, is_delimiter c = false :=
  fun c hc => (isDigitChar_facts c ((ostream_put_nat_spec n).1 c hc)).2.1

theorem ostream_put_int_no_delimiter (i : Int) :
    ∀ c ∈ ostream_put_int i, is_delimiter c = false := by
  unfold ostream_put_int
  split
  · intro c hc
    simp only [List.mem_cons] at hc
    rcases hc with hc | hc
    · subst hc; decide
    · exact ostream_put_nat_no_delimiter _ c hc
  · exact ostream_put_nat_no_delimiter _

theorem head_after_seps (body : List Char)
    (hfirst : ∀ b bs, body = b :: bs → is_space_or_comma b = false ∧ b ≠ '(') :
    ((' ' :: (body ++ [' ', ')'])).dropWhile is_space_or_comma).head? ≠ some '(' := by
  cases body with
  | nil => simp [List.dropWhile, is_space_or_comma]
  | cons b bs =>
    obtain ⟨hs, hne⟩ := hfirst b bs rfl
    have : (' ' :: (b :: bs ++ [' ', ')'])).dropWhile is_space_or_comma
        = b :: (bs ++ [' ', ')']) := by
      have := skip_seps [' '] b (bs ++ [' ', ')']) (by decide) hs
      simpa using this
    rw [this]
    simpa using hne

theorem not_delimiter_facts (b : Char) (h : is_delimiter b = false) :
    is_space_or_comma b = false ∧ b ≠ '(' := by
  refine ⟨is_delimiter_of_sep b h, ?_⟩
  intro hb
  rw [hb] at h
  exact absurd h (by decide)

theorem read_token_before_end (X : externals) (pt : primitive_type) (hpt : pt ≠ pt_u8string)
    (body : List Char) (hbody : ∀ c ∈ body, find_if_cond c = false) (hne : body ≠ [])
    (stack : List Bool) (names : List (List Char)) :
    string_deserializer.read_plain_value X pt
      { rest := [' '] ++ (body ++ [' ']), m_obj_had_left_parenthesis := stack,
        m_open_objects := names }
    = .ok (apply_from_string X pt body,
        { rest := [' '], m_obj_had_left_parenthesis := stack, m_open_objects := names }) :=
  read_plain_value_token X pt hpt [' '] body ' ' [] stack names (by decide) hbody hne
    (by decide)

theorem is_delimiter_find_if_cond (c : Char) (h : is_delimiter c = false) :
    find_if_cond c = false := by
  simp only [is_delimiter, Bool.or_eq_false_iff, decide_eq_false_iff_not] at h
  simp [find_if_cond, h.1.1.1.1.2, h.1.1.2, h.1.2, h.2]

/-- The facts about the text of a value that the proof of rejection needs: no
delimiter outside a string literal, and a read that either returns and leaves the blank
before the missing parenthesis or raises an exception. -/
theorem number_or_string_text (X : externals) (v : primitive_variant)
    (hv : v.number_or_string) :
    v.ptype ≠ pt_null ∧
    (∀ b bs, pt_writer X v = b :: bs → is_delimiter b = false) ∧
    ((∀ s, v ≠ s8 s) → ∀ c ∈ pt_writer X v, is_delimiter c = false) ∧
    (∀ (stack : List Bool) (names : List (List Char)),
      (∃ r, string_deserializer.read_plain_value X v.ptype
        { rest := [' '] ++ (pt_writer X v ++ [' ']), m_obj_had_left_parenthesis := stack,
          m_open_objects := names }
        = .ok (r, { rest := [' '], m_obj_had_left_parenthesis := stack,
                    m_open_objects := names })) ∨
      (∃ e, string_deserializer.read_plain_value X v.ptype
        { rest := [' '] ++ (pt_writer X v ++ [' ']), m_obj_had_left_parenthesis := stack,
          m_open_objects := names } = .error e)) := by
  have hint : ∀ (pt : primitive_type) (body : List Char), pt ≠ pt_u8string → body ≠ [] →
      (∀ c ∈ body, is_delimiter c = false) →
      (∀ b bs, body = b :: bs → is_delimiter b = false) ∧
      ((∀ s, v ≠ s8 s) → ∀ c ∈ body, is_delimiter c = false) ∧
      (∀ (stack : List Bool) (names : List (List Char)),
        (∃ r, string_deserializer.read_plain_value X pt
          { rest := [' '] ++ (body ++ [' ']), m_obj_had_left_parenthesis := stack,
            m_open_objects := names }
          = .ok (r, { rest := [' '], m_obj_had_left_parenthesis := stack,
                      m_open_objects := names })) ∨
        (∃ e, string_deserializer.read_plain_value X pt
          { rest := [' '] ++ (body ++ [' ']), m_obj_had_left_parenthesis := stack,
            m_open_objects := names } = .error e)) := by
    intro pt body hpt hne hb
    refine ⟨fun b bs h => hb b (by rw [h]; simp), fun _ => hb, fun stack names => ?_⟩
    exact Or.inl ⟨_, read_token_before_end X pt hpt body
      (fun c hc => is_delimiter_find_if_cond c (hb c hc)) hne stack names⟩
  cases v with
  | i16 x =>
    exact ⟨by simp [primitive_variant.ptype], hint pt_int16 _ (by decide) (ostream_put_int_chars x).1
      (ostream_put_int_no_delimiter x)⟩
  | i32 x =>
    exact ⟨by simp [primitive_variant.ptype], hint pt_int32 _ (by decide) (ostream_put_int_chars x).1
      (ostream_put_int_no_delimiter x)⟩
  | i64 x =>
    exact ⟨by simp [primitive_variant.ptype], hint pt_int64 _ (by decide) (ostream_put_int_chars x).1
      (ostream_put_int_no_delimiter x)⟩
  | u16 x =>
    exact ⟨by simp [primitive_variant.ptype], hint pt_uint16 _ (by decide) (ostream_put_nat_spec x).2.1
      (ostream_put_nat_no_delimiter x)⟩
  | u32 x =>
    exact ⟨by simp [primitive_variant.ptype], hint pt_uint32 _ (by decide) (ostream_put_nat_spec x).2.1
      (ostream_put_nat_no_delimiter x)⟩
  | u64 x =>
    exact ⟨by simp [primitive_variant.ptype], hint pt_uint64 _ (by decide) (ostream_put_nat_spec x).2.1
      (ostream_put_nat_no_delimiter x)⟩
  | s8 s =>
    refine ⟨by simp [primitive_variant.ptype], ?_, fun h => absurd rfl (h s), fun stack names => ?_⟩
    · intro b bs h
      simp only [pt_writer, pt_writer_string, List.cons.injEq] at h
      rw [← h.1]
      decide
    · by_cases hs : s.getLast? = some '\\'
      · exact Or.inr ⟨_, read_plain_value_string_backslash X s [' '] [' '] stack names
          (by decide) hs (by decide)⟩
      · exact Or.inl ⟨_, read_plain_value_string X s [' '] [' '] stack names (by decide) hs⟩
  | s16 s =>
    refine ⟨by simp [primitive_variant.ptype], fun b bs h => by simp [pt_writer] at h,
      fun _ c hc => by simp [pt_writer] at hc, fun stack names =>
        Or.inr ⟨.logic_error "malformed string (unterminated value)", ?_⟩⟩
    rfl
  | s32 s =>
    refine ⟨by simp [primitive_variant.ptype], fun b bs h => by simp [pt_writer] at h,
      fun _ c hc => by simp [pt_writer] at hc, fun stack names =>
        Or.inr ⟨.logic_error "malformed string (unterminated value)", ?_⟩⟩
    rfl
  | _ => exact absurd hv (by simp [primitive_variant.number_or_string])

theorem prim_missing_parenthesis (X : externals) (w : World) (v : primitive_variant)
    (hv : v.number_or_string) (pre post : List Char) (c : Char) (hc : c = '(' ∨ c = ')')
    (htext : prim_text (uniform_name (.prim v.ptype)) (pt_writer X v) = pre ++ c :: post)
    (hout : ∀ s, v = s8 s → ∀ a b, pt_writer X v = a ++ c :: b →
      pre ≠ uniform_name (.prim v.ptype) ++ ' ' :: '(' :: ' ' :: a) :
    ∃ e, from_string X (pre ++ post) w = .error e := by
  obtain ⟨hpt, hfirst, hbody, hread⟩ := number_or_string_text X v hv
  obtain ⟨_, hname, _, _⟩ := uniform_name_prim_facts v.ptype hpt
  rcases prim_text_delete _ _ pre post c hc hname htext with h | h | ⟨a, b, hab, hpre⟩
  · rw [h]
    exact ⟨_, from_string_prim_missing_open X w v.ptype (' ' :: (pt_writer X v ++ [' ', ')']))
      hpt (head_after_seps _ (fun b bs h => not_delimiter_facts b (hfirst b bs h)))⟩
  · rw [h]
    exact from_string_prim_missing_close X w v.ptype _ hpt hread
  · exfalso
    by_cases hs : ∃ s, v = s8 s
    · obtain ⟨s, hs⟩ := hs
      exact hout s hs a b hab hpre
    · have hd := hbody (fun s h => hs ⟨s, h⟩) c (by rw [hab]; simp)
      rcases hc with hc | hc <;> subst hc <;> exact absurd hd (by decide)

theorem actor_text_prim_text (a : actor) :
    actor_text a = prim_text (uniform_name .actor_ptr) (actor_body a) := by
  simp [actor_text, actor_body, prim_text]

theorem hex_lowercase_no_parenthesis (c : Char) (h : c ∈ "0123456789abcdef".toList) :
    c ≠ '(' ∧ c ≠ ')' := by
  simp only [String.toList, List.mem_cons, List.mem_singleton, List.not_mem_nil,
    or_false] at h
  rcases h with h | h | h | h | h | h | h | h | h | h | h | h | h | h | h | h <;>
    subst h <;> decide

theorem escape_quotes_no_quote (l : List Char) (h : ∀ x ∈ l, x ≠ '"') :
    escape_quotes l = l := by
  induction l with
  | nil => rfl
  | cons x xs ih =>
    have hx : x ≠ '"' := h x (List.mem_cons_self _ _)
    simp [escape_quotes, hx, ih (fun y hy => h y (List.mem_cons_of_mem _ hy))]

theorem actor_body_no_parenthesis (a : actor) : ∀ c ∈ actor_body a, c ≠ '(' ∧ c ≠ ')' := by
  have hd : ∀ n : Nat, ∀ c ∈ ostream_put_nat n, c ≠ '(' ∧ c ≠ ')' := by
    intro n c hc
    have := ostream_put_nat_no_delimiter n c hc
    constructor <;> intro h <;> rw [h] at this <;> exact absurd this (by decide)
  have he : escape_quotes (node_id_to_string a.m_parent_process.m_node_id)
      = node_id_to_string a.m_parent_process.m_node_id :=
    escape_quotes_no_quote _
      (fun x hx => (node_id_to_string_chars a.m_parent_process.m_node_id x hx).1)
  intro c hc
  simp only [actor_body, pt_writer_string, he, List.mem_cons, List.mem_append,
    List.mem_singleton, List.not_mem_nil, or_false] at hc
  rcases hc with h | h | h | h | h | h | h | (h | h | h) | h | h
  · subst h; decide
  · exact hd _ c h
  · subst h; decide
  · subst h; decide
  · exact hd _ c h
  · subst h; decide
  · subst h; decide
  · subst h; decide
  · exact hex_lowercase_no_parenthesis c
      (node_id_to_string_lowercase a.m_parent_process.m_node_id c h)
  · subst h; decide
  · subst h; decide
  · subst h; decide

theorem read_tuple_no_parenthesis (X : externals) (pts : List primitive_type)
    (rest : List Char) (stack : List Bool) (name : List Char) (names : List (List Char)) :
    string_deserializer.read_tuple X pts
      { rest := rest, m_obj_had_left_parenthesis := false :: stack,
        m_open_objects := name :: names }
    = .error (.logic_error
        "malformed string: expected left parenthesis after begin_object call or void value") := by
  simp [string_deserializer.read_tuple, string_deserializer.integrity_check, bind,
    Except.bind, string_deserializer.throw_malformed]

theorem from_string_actor_missing_open (X : externals) (w : World) (a : actor) :
    from_string X (uniform_name .actor_ptr ++ ' ' :: ' ' :: (actor_body a ++ [' ', ')'])) w
      = .error (.logic_error
          "malformed string: expected left parenthesis after begin_object call or void value") := by
  have hpeek := peek_object_name (uniform_name .actor_ptr) []
    (' ' :: (actor_body a ++ [' ', ')'])) ' ' [] [] (by decide) (by decide) (by decide)
    (by simp)
  have hseek := seek_object_name (uniform_name .actor_ptr) []
    (' ' :: (actor_body a ++ [' ', ')'])) ' ' [] [] (by decide) (by decide) (by decide)
    (by simp)
  simp only [List.nil_append] at hpeek hseek
  have hfrom : uniform_type_info_from (uniform_name .actor_ptr) = .ok .actor_ptr := by rfl
  have hhead := head_after_seps (actor_body a) (fun b bs h => by
    simp only [actor_body, List.cons.injEq] at h
    rw [← h.1]
    decide)
  have hb := begin_object_no_parenthesis (uniform_name .actor_ptr)
    (' ' :: ' ' :: (actor_body a ++ [' ', ')'])) [] []
    (by simp [List.dropWhile, is_space_or_comma, hhead])
  simp only [from_string, string_deserializer.init, hpeek, hfrom, deserialize_actor_ptr,
    actor_ptr_s_deserialize, hseek, bind, Except.bind, ne_eq, not_true_eq_false, if_false,
    hb, read_tuple_no_parenthesis]

theorem from_string_actor_missing_close (X : externals) (w : World) (a : actor)
    (ha : a.well_formed) :
    from_string X (uniform_name .actor_ptr ++ ' ' :: '(' :: ' ' :: (actor_body a ++ [' '])) w
      = .error (.logic_error "malformed string: expected another character") := by
  have hpeek := peek_object_name (uniform_name .actor_ptr) []
    ('(' :: ' ' :: (actor_body a ++ [' '])) ' ' [] [] (by decide) (by decide) (by decide)
    (by simp)
  have hseek := seek_object_name (uniform_name .actor_ptr) []
    ('(' :: ' ' :: (actor_body a ++ [' '])) ' ' [] [] (by decide) (by decide) (by decide)
    (by simp)
  simp only [List.nil_append] at hpeek hseek
  have hfrom : uniform_type_info_from (uniform_name .actor_ptr) = .ok .actor_ptr := by rfl
  have hbegin : ∀ R : List Char,
      string_deserializer.begin_object (uniform_name .actor_ptr)
        { rest := ' ' :: '(' :: R, m_obj_had_left_parenthesis := [], m_open_objects := [] }
      = { rest := R, m_obj_had_left_parenthesis := [true],
          m_open_objects := [uniform_name .actor_ptr] } := by
    intro R
    simp [string_deserializer.begin_object, string_deserializer.try_consume,
      string_deserializer.skip_space_and_comma, is_space_or_comma, List.dropWhile]
  have htuple := read_actor_tuple_in X a ha [' '] [] []
  have hbody : ' ' :: '{' ::
          (ostream_put_nat a.m_id ++ (',' :: ' ' ::
            (ostream_put_nat a.m_parent_process.m_process_id ++ (',' :: ' ' ::
              (pt_writer_string (node_id_to_string a.m_parent_process.m_node_id)
                ++ (' ' :: '}' :: [' '])))))) = ' ' :: (actor_body a ++ [' ']) := by
    simp [actor_body]
  rw [hbody] at htuple
  have hend : string_deserializer.end_object
        { rest := [' '], m_obj_had_left_parenthesis := [true],
          m_open_objects := [uniform_name .actor_ptr] }
      = .error (.logic_error "malformed string: expected another character") := by
    rfl
  simp only [from_string, string_deserializer.init, hpeek, hfrom, deserialize_actor_ptr,
    actor_ptr_s_deserialize, hseek, bind, Except.bind, ne_eq, not_true_eq_false, if_false,
    hbegin, htuple, hend]

theorem actor_missing_parenthesis (X : externals) (w : World) (a : actor)
    (ha : a.well_formed) (pre post : List Char) (c : Char) (hc : c = '(' ∨ c = ')')
    (htext : actor_text a = pre ++ c :: post) :
    ∃ e, from_string X (pre ++ post) w = .error e := by
  rw [actor_text_prim_text] at htext
  rcases prim_text_delete _ _ pre post c hc (by decide) htext with h | h | ⟨x, y, hxy, _⟩
  · rw [h]
    exact ⟨_, from_string_actor_missing_open X w a⟩
  · rw [h]
    exact ⟨_, from_string_actor_missing_close X w a ha⟩
  · exfalso
    have := actor_body_no_parenthesis a c (by rw [hxy]; simp)
    rcases hc with hc | hc
    · exact this.1 hc
    · exact this.2 hc

theorem null_channel_missing_parenthesis (X : externals) (w : World) (pre post : List Char)
    (c : Char) (hc : c = '(' ∨ c = ')')
    (htext : channel_text nullptr_type_name = pre ++ c :: post) :
    ∃ e, from_string X (pre ++ post) w = .error e := by
  have ht : channel_text nullptr_type_name
      = prim_text (uniform_name .channel_ptr) nullptr_type_name := rfl
  rw [ht] at htext
  rcases prim_text_delete _ _ pre post c hc (by decide) htext with h | h | ⟨x, y, hxy, _⟩
  · rw [h]
    exact ⟨.logic_error "malformed string: expected end of of string", by rfl⟩
  · rw [h]
    exact ⟨.logic_error "malformed string: expected another character", by rfl⟩
  · exfalso
    have hm : c ∈ nullptr_type_name := by rw [hxy]; simp
    simp only [nullptr_type_name, List.mem_cons, List.mem_singleton, List.not_mem_nil,
      or_false] at hm
    rcases hc with hc | hc <;> subst hc <;> simp at hm

/-- C21: the 8-bit integer 40 is written as the raw character `(`, so its rendering is
`@i8 ( ( )`; deleting either of the two opening parentheses, neither of which lies in a
string literal, leaves an input that `from_string` accepts and reads as the 8-bit
integer 0. -/
theorem int8_missing_parenthesis_accepted :
    to_string_impl sample_externals (.prim (i8 40)) sample_world
      = .ok ("@i8 ".toList ++ '(' :: " ( )".toList, sample_world) ∧
    from_string sample_externals ("@i8 ".toList ++ " ( )".toList) sample_world
      = .ok (.prim (i8 0), sample_world) ∧
    to_string_impl sample_externals (.prim (i8 40)) sample_world
      = .ok ("@i8 ( ".toList ++ '(' :: " )".toList, sample_world) ∧
    from_string sample_externals ("@i8 ( ".toList ++ " )".toList) sample_world
      = .ok (.prim (i8 0), sample_world) :=
  ⟨by rfl, by rfl, by rfl, by rfl⟩

/-- Where the value is written as a number or a quoted string, the check of the reader
works: for the rendering of a primitive value that is an integer of 16, 32 or 64 bits or
a string, of a reference to an actor whose data members fit their C++ types, or of the
null channel reference, deleting one parenthesis character that lies outside a string
literal yields an input on which `from_string` fails with an error. -/
theorem missing_parenthesis_rejected (X : externals) (w w2 w3 : World) (what : Value)
    (pre post : List Char) (c : Char)
    (hwhat : what.parenthesis_checked)
    (hto : to_string_impl X what w = .ok (pre ++ c :: post, w2))
    (hc : c = '(' ∨ c = ')')
    (hout : ¬ in_string_literal what pre.length) :
    ∃ e, from_string X (pre ++ post) w3 = .error e := by
  cases what with
  | prim v =>
    have hne := (number_or_string_text X v hwhat).1
    rw [to_string_prim X w v hne] at hto
    have htext : prim_text (uniform_name (.prim v.ptype)) (pt_writer X v) = pre ++ c :: post := by
      injection hto with h
      exact (Prod.mk.inj h).1
    refine prim_missing_parenthesis X w3 v hwhat pre post c hc htext ?_
    intro s hs a b hab hpre
    subst hs
    apply hout
    have hlen := congrArg List.length hab
    have hpl := congrArg List.length hpre
    simp only [pt_writer, List.length_append, List.length_cons] at hlen
    simp only [primitive_variant.ptype, List.length_append, List.length_cons] at hpl
    simp only [in_string_literal]
    omega
  | actor_ptr p =>
    cases p with
    | none => exact absurd hwhat (by simp [Value.parenthesis_checked])
    | some a =>
      rw [to_string_actor X w a] at hto
      have htext : actor_text a = pre ++ c :: post := by
        injection hto with h
        exact (Prod.mk.inj h).1
      exact actor_missing_parenthesis X w3 a hwhat pre post c hc htext
  | channel_ptr p =>
    cases p with
    | some ch => exact absurd hwhat (by simp [Value.parenthesis_checked])
    | none =>
      have h0 : to_string_impl X (.channel_ptr none) w
          = .ok (channel_text nullptr_type_name, w) := by rfl
      rw [h0] at hto
      have htext : channel_text nullptr_type_name = pre ++ c :: post := by
        injection hto with h
        exact (Prod.mk.inj h).1
      exact null_channel_missing_parenthesis X w3 pre post c hc htext
  | duration _ _ => exact absurd hwhat (by simp [Value.parenthesis_checked])
  | any_tuple _ => exact absurd hwhat (by simp [Value.parenthesis_checked])
  | group_ptr _ => exact absurd hwhat (by simp [Value.parenthesis_checked])
  | atom_value _ => exact absurd hwhat (by simp [Value.parenthesis_checked])
  | addr_msg _ _ _ => exact absurd hwhat (by simp [Value.parenthesis_checked])
  | void_type => exact absurd hwhat (by simp [Value.parenthesis_checked])

theorem missing_parenthesis_rejected_witness :
    (Value.prim (i32 7)).parenthesis_checked ∧
    to_string_impl sample_externals (.prim (i32 7)) sample_world
      = .ok ("@i32 ".toList ++ '(' :: " 7 )".toList, sample_world) ∧
    ¬ in_string_literal (.prim (i32 7)) "@i32 ".toList.length ∧
    ∃ e, from_string sample_externals ("@i32 ".toList ++ " 7 )".toList) sample_world
      = .error e :=
  ⟨trivial, by rfl, fun h => h,
    missing_parenthesis_rejected sample_externals sample_world sample_world sample_world
      (.prim (i32 7)) "@i32 ".toList " 7 )".toList '(' trivial (by rfl) (Or.inl rfl)
      (fun h => h)⟩

/-! ## Group manager: `get` -/

theorem get_local_module (gm : group_manager) (m : group_module) (id : List Char) (heap : Nat)
    (hm : map_find local_name gm.m_mmap = some m) :
    ∃ gm', gm.get local_name id heap
        = .ok ((group_manager.module_get id m heap).1, gm',
               (group_manager.module_get id m heap).2.2) ∧
      map_find local_name gm'.m_mmap = some (group_manager.module_get id m heap).2.1 := by
  refine ⟨{ gm with m_mmap := gm.m_mmap.map (fun e =>
      if e.1 = local_name then (e.1, (group_manager.module_get id m heap).2.1) else e) },
    by simp only [group_manager.get, hm], ?_⟩
  simp only
  rw [map_find_map_keys]
  · simp [hm]
  · intro e
    split <;> rfl

theorem get_other_module (gm : group_manager) (name id : List Char) (heap : Nat)
    (r : group × group_manager × Nat) (hne : name ≠ local_name)
    (hget : gm.get name id heap = .ok r) :
    map_find local_name r.2.1.m_mmap = map_find local_name gm.m_mmap := by
  unfold group_manager.get at hget
  cases hm : map_find name gm.m_mmap with
  | none => simp [hm] at hget
  | some m =>
    simp only [hm, Except.ok.injEq] at hget
    subst hget
    simp only
    rw [map_find_map_keys]
    · cases hf : map_find local_name gm.m_mmap with
      | none => rfl
      | some x => simp [Ne.symm hne]
    · intro e
      split <;> rfl

theorem add_module_local (gm : group_manager) (mod m : group_module)
    (hm : map_find local_name gm.m_mmap = some m) :
    map_find local_name (gm.add_module mod).1.m_mmap = some m := by
  have h := map_find_insert_of_some local_name mod.m_name m mod gm.m_mmap hm
  simp only [group_manager.add_module]
  split <;> exact h

theorem module_get_spec (m : group_module) (id : List Char) (heap : Nat) :
    map_find id (group_manager.module_get id m heap).2.1.m_instances
      = some (group_manager.module_get id m heap).1 ∧
    (group_manager.module_get id m heap).2.1.m_name = m.m_name ∧
    (∀ k g, map_find k m.m_instances = some g →
      map_find k (group_manager.module_get id m heap).2.1.m_instances = some g) ∧
    (∀ k g, map_find k (group_manager.module_get id m heap).2.1.m_instances = some g →
      map_find k m.m_instances = some g ∨
      (k = id ∧ g = { addr := heap, m_identifier := id, m_module_name := m.m_name })) := by
  unfold group_manager.module_get
  cases hf : map_find id m.m_instances with
  | some g =>
    refine ⟨by simp [hf], by simp, fun k g h => by simpa using h, fun k g h => ?_⟩
    left
    simpa using h
  | none =>
    refine ⟨by simpa using map_find_insert_of_none id _ m.m_instances hf, by simp,
      fun k g h => by simpa using map_find_insert_of_some k id g _ m.m_instances h,
      fun k g h => ?_⟩
    simp only at h
    have hmem := map_find_mem k g _ h
    rcases map_insert_mem id _ m.m_instances (k, g) hmem with h1 | h1
    · by_cases hk : k = id
      · right
        subst hk
        rw [map_find_insert_of_none k _ m.m_instances hf] at h
        exact ⟨rfl, (Option.some.inj h).symm⟩
      · left
        cases hk2 : map_find k m.m_instances with
        | none =>
          rw [map_find_insert_of_ne k id _ m.m_instances (Ne.symm hk) hk2] at h
          cases h
        | some g2 =>
          rw [map_find_insert_of_some k id g2 _ m.m_instances hk2] at h
          exact h
    · right
      exact ⟨(Prod.mk.inj h1).1, (Prod.mk.inj h1).2⟩

theorem local_ok_get (gm : group_manager) (name id : List Char) (heap : Nat)
    (r : group × group_manager × Nat) (h : gm.local_ok)
    (hget : gm.get name id heap = .ok r) : r.2.1.local_ok := by
  obtain ⟨m, hm, hname, hall⟩ := h
  by_cases hn : name = local_name
  · subst hn
    obtain ⟨gm', hg, hl⟩ := get_local_module gm m id heap hm
    rw [hg] at hget
    cases hget
    obtain ⟨_, h2, _, h4⟩ := module_get_spec m id heap
    refine ⟨_, hl, h2.trans hname, fun k g hk => ?_⟩
    rcases h4 k g hk with h5 | ⟨h5, h6⟩
    · exact hall k g h5
    · subst h5 h6
      exact ⟨rfl, hname⟩
  · exact ⟨m, (get_other_module gm name id heap r hn hget).trans hm, hname, hall⟩

theorem local_ok_of_evolves (gm0 gm : group_manager) (h0 : gm0.local_ok)
    (h : gm0.evolves gm) : gm.local_ok := by
  induction h with
  | refl => exact h0
  | add_module gm mod _ ih =>
    obtain ⟨m, hm, hrest⟩ := ih
    exact ⟨m, add_module_local gm mod m hm, hrest⟩
  | get gm name id heap r _ hr ih => exact local_ok_get gm name id heap r ih hr

theorem local_ok_of_reachable (gm : group_manager) (h : gm.reachable) : gm.local_ok := by
  induction h with
  | init => exact ⟨_, rfl, rfl, fun k g hk => by simp [map_find] at hk⟩
  | add_module gm mod _ ih =>
    obtain ⟨m, hm, hrest⟩ := ih
    exact ⟨m, add_module_local gm mod m hm, hrest⟩
  | get gm name id heap r _ hr ih => exact local_ok_get gm name id heap r ih hr

/-- The group that the module `local` holds under `id` stays there. -/
theorem local_group_kept (gm0 gm : group_manager) (id : List Char) (g : group)
    (h0 : ∃ m, map_find local_name gm0.m_mmap = some m ∧ map_find id m.m_instances = some g)
    (h : gm0.evolves gm) :
    ∃ m, map_find local_name gm.m_mmap = some m ∧ map_find id m.m_instances = some g := by
  induction h with
  | refl => exact h0
  | add_module gm mod _ ih =>
    obtain ⟨m, hm, hg⟩ := ih
    exact ⟨m, add_module_local gm mod m hm, hg⟩
  | get gm name id2 heap r _ hr ih =>
    obtain ⟨m, hm, hg⟩ := ih
    by_cases hn : name = local_name
    · subst hn
      obtain ⟨gm', hget, hl⟩ := get_local_module gm m id2 heap hm
      rw [hget] at hr
      cases hr
      exact ⟨_, hl, (module_get_spec m id2 heap).2.2.1 id g hg⟩
    · exact ⟨m, (get_other_module gm name id2 heap r hn hr).trans hm, hg⟩

/-- C31: in every state of the group manager and for every identifier `id`, the call
`get("local", id)` returns a group whose identifier is `id` and whose module name is
`local`; every later call with the same `id`, whatever calls of `get` and `add_module`
were made in between, returns that same group object and creates nothing; and `get` with
a module name that is not registered raises `std::logic_error`. -/
theorem local_get_spec (gm : group_manager) (h : gm.reachable) (id : List Char) (heap : Nat) :
    (∃ g gm' heap', gm.get local_name id heap = .ok (g, gm', heap') ∧
      g.m_identifier = id ∧ g.m_module_name = local_name ∧
      ∀ gm2, gm'.evolves gm2 → ∀ heap2,
        ∃ gm3, gm2.get local_name id heap2 = .ok (g, gm3, heap2)) ∧
    (∀ name, map_find name gm.m_mmap = none →
      gm.get name id heap = .error (.logic_error "no module with that name found")) := by
  refine ⟨?_, fun name hn => by simp [group_manager.get, hn]⟩
  obtain ⟨m, hm, hname, hall⟩ := local_ok_of_reachable gm h
  obtain ⟨gm', hget, hl⟩ := get_local_module gm m id heap hm
  obtain ⟨h1, h2, h3, h4⟩ := module_get_spec m id heap
  have hg : (group_manager.module_get id m heap).1.m_identifier = id ∧
      (group_manager.module_get id m heap).1.m_module_name = local_name := by
    rcases h4 id _ h1 with h5 | ⟨_, h6⟩
    · exact hall id _ h5
    · rw [h6]
      exact ⟨rfl, hname⟩
  refine ⟨_, gm', _, hget, hg.1, hg.2, fun gm2 hev heap2 => ?_⟩
  obtain ⟨m2, hm2, hg2⟩ := local_group_kept gm' gm2 id _ ⟨_, hl, h1⟩ hev
  obtain ⟨gm3, hget3, _⟩ := get_local_module gm2 m2 id heap2 hm2
  refine ⟨gm3, ?_⟩
  rw [hget3]
  simp [group_manager.module_get, hg2]

theorem local_get_spec_witness :
    group_manager.init.reachable ∧
    (∃ g gm' heap', group_manager.init.get local_name ['a'] 7 = .ok (g, gm', heap') ∧
      g.m_identifier = ['a'] ∧ g.m_module_name = local_name ∧
      ∀ gm2, gm'.evolves gm2 → ∀ heap2,
        ∃ gm3, gm2.get local_name ['a'] heap2 = .ok (g, gm3, heap2)) :=
  ⟨.init, (local_get_spec group_manager.init .init ['a'] 7).1⟩

/-! ## Sequences in the string format -/

/-- C32: the empty sequence, written with `begin_sequence(0)` and `end_sequence()` inside
an object, is rendered as `@tuple ( { } )`, and `begin_sequence()` of the reader returns 1
on that rendering, not 0; the sequence of the one string `a,b` is rendered as
`@tuple ( { @str ( "a,b" ) } )`, and `begin_sequence()` returns 2 on it. -/
theorem begin_sequence_miscounts (X : externals) (w : World) :
    ((string_serializer.init.begin_object (uniform_name .any_tuple)).begin_sequence
        0).end_sequence.end_object.out = "@tuple ( \x7b \x7d )".toList ∧
    (string_deserializer.init "@tuple ( \x7b \x7d )".toList).seek_object.map
        (fun r => ((r.2.begin_object r.1).begin_sequence).map (fun b => b.1))
      = .ok (.ok 1) ∧
    to_string_impl X (.any_tuple [.prim (s8 "a,b".toList)]) w
      = .ok ("@tuple ( \x7b @str ( \"a,b\" ) \x7d )".toList, w) ∧
    (string_deserializer.init "@tuple ( \x7b @str ( \"a,b\" ) \x7d )".toList).seek_object.map
        (fun r => ((r.2.begin_object r.1).begin_sequence).map (fun b => b.1))
      = .ok (.ok 2) :=
  ⟨by rfl, by rfl, by rfl, by rfl⟩

/-! ## Strings in the string format -/

theorem escape_quotes_eq_foldr (s : List Char) :
    escape_quotes s
      = s.foldr (fun c acc => (if c = '"' then ['\\', '"'] else [c]) ++ acc) [] := by
  induction s with
  | nil => rfl
  | cons c cs ih =>
    by_cases hc : c = '"'
    · simp [escape_quotes, hc, ← ih]
    · simp [escape_quotes, hc, ← ih]

theorem pt_writer_string_eq_spec (s : List Char) : pt_writer_string s = spec_quoted s := by
  simp [pt_writer_string, spec_quoted, escape_quotes_eq_foldr]

/-- C33: for a UTF-8 string `s` without a backslash, `write_value` inside an object other
than `@atom` appends a double quote, `s` with every double quote replaced by a backslash
and a double quote, and a double quote; and `read_value(pt_u8string)` on that rendering,
inside an object other than `@atom` and whatever text follows, returns `s` and leaves the
position just after the closing quote. -/
theorem string_value_round_trip (X : externals) (s : List Char) (hs : '\\' ∉ s)
    (sink : string_serializer) (top : List Char) (open_names : List (List Char))
    (hsink : sink.m_open_objects = top :: open_names) (htop : top ≠ atom_name)
    (seps tail : List Char) (stack : List Bool) (name : List Char) (names : List (List Char))
    (hseps : ∀ c ∈ seps, is_space_or_comma c = true) (hname : name ≠ atom_name) :
    sink.write_value X (s8 s)
      = .ok { sink.clear with out := sink.clear.out ++ spec_quoted s, m_after_value := true } ∧
    string_deserializer.read_value X pt_u8string
      { rest := seps ++ (spec_quoted s ++ tail), m_obj_had_left_parenthesis := true :: stack,
        m_open_objects := name :: names }
    = .ok (s8 s,
        { rest := tail, m_obj_had_left_parenthesis := true :: stack,
          m_open_objects := name :: names }) := by
  have hclear : sink.clear.m_open_objects = top :: open_names := by
    unfold string_serializer.clear
    split
    · exact hsink
    · split <;> exact hsink
  have hlast : s.getLast? ≠ some '\\' := by
    intro h
    exact hs (List.mem_of_getLast?_eq_some h)
  constructor
  · simp only [string_serializer.write_value, hclear, htop, if_false, pt_writer,
      pt_writer_string_eq_spec]
  · rw [read_value_plain X pt_u8string _ stack name names hname, ← pt_writer_string_eq_spec]
    exact read_plain_value_string X s seps tail (true :: stack) (name :: names) hseps hlast

theorem string_value_round_trip_witness :
    '\\' ∉ "a \"b\", (c)".toList ∧
    string_deserializer.read_value sample_externals pt_u8string
      { rest := [' '] ++ (spec_quoted "a \"b\", (c)".toList ++ " )".toList),
        m_obj_had_left_parenthesis := [true],
        m_open_objects := [uniform_name (.prim pt_u8string)] }
    = .ok (s8 "a \"b\", (c)".toList,
        { rest := " )".toList, m_obj_had_left_parenthesis := [true],
          m_open_objects := [uniform_name (.prim pt_u8string)] }) :=
  ⟨by decide,
   (string_value_round_trip sample_externals "a \"b\", (c)".toList (by decide)
      (string_serializer.init.begin_object (uniform_name (.prim pt_u8string)))
      (uniform_name (.prim pt_u8string)) [] (by rfl) (by decide)
      [' '] " )".toList [] (uniform_name (.prim pt_u8string)) []
      (by decide) (by decide)).2⟩

/-! ## Equality of primitive variants -/

/-- C34: two empty variants do not compare equal, a variant compared with itself
included: the comparison starts from false and nothing is dispatched for the tag
`pt_null`.  A variant that holds the 32-bit integer 7 does compare equal to itself. -/
theorem null_not_equal_to_itself (float_eq : primitive_type → Nat → Nat → Bool) :
    primitive_variant.eq float_eq null null = false ∧
    primitive_variant.eq float_eq primitive_variant.init primitive_variant.init = false ∧
    primitive_variant.eq float_eq (primitive_variant.of_ptype pt_null)
      (primitive_variant.of_ptype pt_null) = false ∧
    primitive_variant.eq float_eq (i32 7) (i32 7) = true :=
  ⟨rfl, rfl, rfl, by rfl⟩

/-! ## Equality of durations -/

theorem ui64_val_eq (d : duration) (h : d.well_formed) : ui64_val d = d.unit * d.count := by
  obtain ⟨h1, h2⟩ := h
  have h3 : d.unit * d.count < 2 ^ 32 * 2 ^ 32 := Nat.mul_lt_mul'' h1 h2
  unfold ui64_val
  rw [Nat.mod_eq_of_lt (by omega : d.unit < 2 ^ 64),
    Nat.mod_eq_of_lt (by omega : d.count < 2 ^ 64)]
  exact Nat.mod_eq_of_lt (by
    have : (2 : Nat) ^ 32 * 2 ^ 32 = 2 ^ 64 := by norm_num
    omega)

/-- C35 (as stated, refuted): with the unit `none`, a duration of 5 counts equals a
duration of 0 seconds, which equals a duration of 7 counts with the unit `none`, but the
first does not equal the third. -/
theorem duration_eq_not_transitive :
    duration.eq { unit := time_unit_none, count := 5 } { unit := 1, count := 0 } = true ∧
    duration.eq { unit := 1, count := 0 } { unit := time_unit_none, count := 7 } = true ∧
    duration.eq { unit := time_unit_none, count := 5 } { unit := time_unit_none, count := 7 }
      = false := by
  decide

/-- C35 (amended): equality of durations with 32-bit fields is reflexive and symmetric,
and `a == b` together with `b == c` implies `a == c` whenever the unit of `a` or the unit
of `c` is not `none`. -/
theorem duration_eq_equivalence (a b c : duration) (ha : a.well_formed) (hb : b.well_formed)
    (hc : c.well_formed) :
    duration.eq a a = true ∧
    duration.eq a b = duration.eq b a ∧
    ((a.unit ≠ time_unit_none ∨ c.unit ≠ time_unit_none) →
      duration.eq a b = true → duration.eq b c = true → duration.eq a c = true) := by
  have va := ui64_val_eq a ha
  have vb := ui64_val_eq b hb
  have vc := ui64_val_eq c hc
  refine ⟨by simp [duration.eq], ?_, ?_⟩
  · unfold duration.eq
    by_cases h : a.unit = b.unit
    · simp only [h, if_true]
      exact decide_eq_decide.mpr ⟨fun h => h.symm, fun h => h.symm⟩
    · simp only [h, Ne.symm h, if_false]
      exact decide_eq_decide.mpr ⟨fun h => h.symm, fun h => h.symm⟩
  · intro hu hab hbc
    unfold duration.eq at hab hbc ⊢
    rw [va, vb] at hab
    rw [vb, vc] at hbc
    rw [va, vc]
    simp only [time_unit_none] at hu
    by_cases h1 : a.unit = b.unit
    · simp only [h1, if_true, decide_eq_true_eq] at hab
      rw [h1, hab]
      exact hbc
    · simp only [h1, if_false, decide_eq_true_eq] at hab
      by_cases h2 : b.unit = c.unit
      · simp only [h2, if_true, decide_eq_true_eq] at hbc
        rw [← h2, ← hbc]
        simp only [h1, if_false, decide_eq_true_eq]
        exact hab
      · simp only [h2, if_false, decide_eq_true_eq] at hbc
        by_cases h3 : a.unit = c.unit
        · simp only [h3, if_true, decide_eq_true_eq]
          have h4 : c.unit * a.count = c.unit * c.count := by
            rw [← h3, hab, hbc]
            rw [h3]
          have h5 : 0 < c.unit := by
            rcases hu with h | h
            · rw [h3] at h
              omega
            · omega
          exact Nat.eq_of_mul_eq_mul_left h5 h4
        · simp only [h3, if_false, decide_eq_true_eq]
          rw [hab, hbc]

theorem duration_eq_equivalence_witness :
    (duration.mk 1 1000).well_formed ∧ (duration.mk 1000 1).well_formed ∧
    (duration.mk 1 1000).unit ≠ time_unit_none ∧
    duration.eq (duration.mk 1 1000) (duration.mk 1000 1) = true ∧
    duration.eq (duration.mk 1000 1) (duration.mk 1 1000) = true ∧
    duration.eq (duration.mk 1 1000) (duration.mk 1 1000) = true :=
  ⟨by norm_num [duration.well_formed], by norm_num [duration.well_formed], by decide,
   by decide, by decide,
   (duration_eq_equivalence (duration.mk 1 1000) (duration.mk 1000 1) (duration.mk 1 1000)
      (by norm_num [duration.well_formed]) (by norm_num [duration.well_formed])
      (by norm_num [duration.well_formed])).2.2 (Or.inl (by decide)) (by decide)
      (by decide)⟩

/-! ## The map of type-info objects: a failing `insert` -/

theorem map_find_insert_other {κ α : Type} [DecidableEq κ] (k k' : κ) (v' : α)
    (m : List (κ × α)) (hk : k' ≠ k) :
    map_find k (map_insert k' v' m) = map_find k m := by
  cases h : map_find k m with
  | none => exact map_find_insert_of_ne k k' v' m hk h
  | some v => exact map_find_insert_of_some k k' v v' m h

theorem insert_raw_names_clash (what : uniform_type_info) (names : List cpp_type)
    (rn : List (cpp_type × uniform_type_info))
    (h : (uniform_type_info_map.insert_raw_names what names rn).2 = true) :
    ∃ pre c post, names = pre ++ c :: post ∧
      (map_find c rn ≠ none ∨ c ∈ pre) ∧
      (∀ n ∈ pre, map_find n rn = none) ∧
      ∀ name, map_find name (uniform_type_info_map.insert_raw_names what names rn).1
        = if name ∈ pre then some what else map_find name rn := by
  induction names generalizing rn with
  | nil => simp [uniform_type_info_map.insert_raw_names] at h
  | cons p ns ih =>
    cases hp : map_find p rn with
    | some x =>
      refine ⟨[], p, ns, rfl, Or.inl (by simp [hp]), by simp, fun name => ?_⟩
      simp [uniform_type_info_map.insert_raw_names, hp]
    | none =>
      simp only [uniform_type_info_map.insert_raw_names, hp] at h ⊢
      obtain ⟨pre, c, post, hn, hc, hpre, hfind⟩ := ih (map_insert p what rn) h
      refine ⟨p :: pre, c, post, by rw [hn]; rfl, ?_, ?_, fun name => ?_⟩
      · by_cases hcp : c = p
        · right
          rw [hcp]
          exact List.mem_cons_self _ _
        · rcases hc with hc | hc
          · left
            rwa [map_find_insert_other c p what rn (Ne.symm hcp)] at hc
          · right
            exact List.mem_cons_of_mem _ hc
      · intro n hn'
        rcases List.mem_cons.mp hn' with h1 | h1
        · rw [h1]
          exact hp
        · have h2 := hpre n h1
          cases h3 : map_find n rn with
          | none => rfl
          | some y =>
            rw [map_find_insert_of_some n p y what rn h3] at h2
            cases h2
      · rw [hfind name]
        by_cases h1 : name ∈ pre
        · simp [h1]
        · by_cases h2 : name = p
          · subst h2
            simp [h1, map_find_insert_of_none name what rn hp]
          · simp [h1, h2, map_find_insert_other name p what rn (Ne.symm h2)]

/-- C36 (as stated, refuted): `insert` with a new uniform name and the raw names
`7my_type` (the name a class `my_type` has under the Itanium ABI, which sorts before
every name that starts with a letter) and that of `std::string`, which is mapped already,
raises `std::runtime_error`; yet afterwards `by_uniform_name` finds the new object under
its uniform name and `by_raw_name` finds it under `7my_type`, where both returned null
before the call. -/
theorem failed_insert_changes_lookups :
    (sample_type_map.insert [.other "7my_type".toList, .string]
        (uniform_type_info.mk 99 "@mine".toList none)).2
      = .error (.runtime_error "already mapped to an uniform_type_info") ∧
    sample_type_map.by_uniform_name "@mine".toList = none ∧
    (sample_type_map.insert [.other "7my_type".toList, .string]
        (uniform_type_info.mk 99 "@mine".toList none)).1.by_uniform_name "@mine".toList
      = some (uniform_type_info.mk 99 "@mine".toList none) ∧
    sample_type_map.by_raw_name (.other "7my_type".toList) = none ∧
    (sample_type_map.insert [.other "7my_type".toList, .string]
        (uniform_type_info.mk 99 "@mine".toList none)).1.by_raw_name (.other "7my_type".toList)
      = some (uniform_type_info.mk 99 "@mine".toList none) :=
  ⟨by rfl, by rfl, by rfl, by rfl, by rfl⟩

/-- C36 (amended): when `insert` returns false, `by_uniform_name` and `by_raw_name` return
the same result for every name as before the call.  When `insert` raises because one of
the raw names is already mapped, the uniform name of `what` was not registered before and
is mapped to `what` afterwards, the raw names that precede the clashing one were not
mapped before and are mapped to `what` afterwards, and both lookups return the same
result for every other name as before the call. -/
theorem insert_not_true (raw_names : List cpp_type) (what : uniform_type_info)
    (m : uniform_type_info_map) :
    ((m.insert raw_names what).2 = .ok false →
      (m.insert raw_names what).1 = m ∧ m.by_uniform_name what.m_name ≠ none) ∧
    (∀ e, (m.insert raw_names what).2 = .error e →
      e = .runtime_error "already mapped to an uniform_type_info" ∧
      m.by_uniform_name what.m_name = none ∧
      (m.insert raw_names what).1.by_uniform_name what.m_name = some what ∧
      (∀ name, name ≠ what.m_name →
        (m.insert raw_names what).1.by_uniform_name name = m.by_uniform_name name) ∧
      ∃ pre clash post, raw_names = pre ++ clash :: post ∧
        (m.by_raw_name clash ≠ none ∨ clash ∈ pre) ∧
        (∀ n ∈ pre, m.by_raw_name n = none) ∧
        ∀ name, (m.insert raw_names what).1.by_raw_name name
          = if name ∈ pre then some what else m.by_raw_name name) := by
  unfold uniform_type_info_map.by_uniform_name uniform_type_info_map.by_raw_name
  cases hu : map_find what.m_name m.m_by_uname with
  | some x =>
    refine ⟨fun _ => ⟨by simp [uniform_type_info_map.insert, hu], by simp⟩, fun e he => ?_⟩
    simp [uniform_type_info_map.insert, hu] at he
  | none =>
    cases hr : (uniform_type_info_map.insert_raw_names what raw_names m.m_by_rname).2 with
    | false =>
      refine ⟨fun h => ?_, fun e he => ?_⟩
      · simp [uniform_type_info_map.insert, hu, hr] at h
      · simp [uniform_type_info_map.insert, hu, hr] at he
    | true =>
      refine ⟨fun h => ?_, fun e he => ?_⟩
      · simp [uniform_type_info_map.insert, hu, hr] at h
      · have hi : m.insert raw_names what
            = ({ m with
                  m_by_uname := map_insert what.m_name what m.m_by_uname,
                  m_by_rname :=
                    (uniform_type_info_map.insert_raw_names what raw_names m.m_by_rname).1 },
               .error (.runtime_error "already mapped to an uniform_type_info")) := by
          simp [uniform_type_info_map.insert, hu, hr]
        rw [hi] at he ⊢
        simp only [Except.error.injEq] at he
        refine ⟨he.symm, rfl, map_find_insert_of_none _ _ _ hu,
          fun name hne => map_find_insert_other name _ what _ (Ne.symm hne), ?_⟩
        exact insert_raw_names_clash what raw_names m.m_by_rname hr

theorem insert_not_true_witness :
    (sample_type_map.insert [.other "7my_type".toList, .string]
        (uniform_type_info.mk 99 "@mine".toList none)).2
      = .error (.runtime_error "already mapped to an uniform_type_info") ∧
    (∀ name, name ≠ "@mine".toList →
      (sample_type_map.insert [.other "7my_type".toList, .string]
        (uniform_type_info.mk 99 "@mine".toList none)).1.by_uniform_name name
        = sample_type_map.by_uniform_name name) :=
  ⟨by rfl,
   ((insert_not_true [.other "7my_type".toList, .string]
      (uniform_type_info.mk 99 "@mine".toList none) sample_type_map).2 _ (by rfl)).2.2.2.1⟩

/-! ## Proxies in the actor registry -/

/-- C37: serializing a reference to a proxy with id 5 in a process whose registry is
empty puts the proxy into the registry, so `get(5)` then returns an actor whose
`is_proxy` flag is true. -/
theorem proxy_registered_by_serialize (X : externals) :
    to_string_impl X (.actor_ptr (some sample_proxy)) sample_world
      = .ok (actor_text sample_proxy, sample_world.after_serialize sample_proxy) ∧
    sample_world.registry.get 5 = none ∧
    (sample_world.after_serialize sample_proxy).registry.get 5 = some sample_proxy ∧
    sample_proxy.m_is_proxy = true ∧
    sample_proxy.m_parent_process ≠ sample_world.pinfo :=
  ⟨to_string_actor X sample_world sample_proxy, by rfl, by rfl, by rfl, by decide⟩

/-! ## `object_array::equals` and `abstract_tuple::equals` -/

theorem equals_at_agree {V : Type} (E : tuple_externals V) (a b : abstract_tuple V)
    (hmem : ∀ i x y, a.elements.get? i = some x → b.elements.get? i = some y →
      x.at_addr = y.at_addr → x.value = y.value)
    (hrefl : ∀ u v, E.equals u v v = true) (i : Nat) :
    object_array.equals_at E a b i = abstract_tuple.equals_at E a b i := by
  unfold object_array.equals_at abstract_tuple.equals_at
  cases h1 : a.elements.get? i with
  | none => rfl
  | some x =>
    cases h2 : b.elements.get? i with
    | none => rfl
    | some y =>
      cases hu : E.uti_equal x.utype y.utype
      · simp [hu]
      · cases he : E.equals x.utype x.value y.value
        · have hne : x.at_addr ≠ y.at_addr := by
            intro h
            have hv := hmem i x y h1 h2 h
            rw [← hv, hrefl] at he
            cases he
          simp [hu, he, hne]
        · simp [hu, he]

/-- C38: `object_array::equals` and `abstract_tuple::equals` return the same result on
every pair of tuples, given that the `equals` of every type-info is reflexive (and that
an address identifies one object and a type-info object equals itself); so the call
`a.equals(b)` on an object array `a` gives what the generic method gives. -/
theorem object_array_equals_agrees {V : Type} (E : tuple_externals V) (a b : abstract_tuple V)
    (hobj : a.addr = b.addr → a = b)
    (hmem : ∀ i x y, a.elements.get? i = some x → b.elements.get? i = some y →
      x.at_addr = y.at_addr → x.value = y.value)
    (huti : ∀ u, E.uti_equal u u = true)
    (hrefl : ∀ u v, E.equals u v v = true) :
    object_array.equals E a b = abstract_tuple.equals E a b ∧
    (a.cls = .object_array → a.virtual_equals E b = abstract_tuple.equals E a b) := by
  have hmain : object_array.equals E a b = abstract_tuple.equals E a b := by
    unfold object_array.equals abstract_tuple.equals
    by_cases ha : a.addr = b.addr
    · have hab := hobj ha
      subst hab
      simp only [if_true, List.all_eq_true, List.mem_range]
      intro i hi
      have hlt : i < a.elements.length := hi
      rw [object_array_equals_at_iff]
      exact ⟨a.elements.get ⟨i, hlt⟩, a.elements.get ⟨i, hlt⟩, List.get?_eq_get hlt,
        List.get?_eq_get hlt, huti _, hrefl _ _⟩
    · simp only [ha, if_false]
      by_cases hs : a.size = b.size
      · simp only [hs, if_true, ne_eq, not_true_eq_false, if_false]
        congr 1
        funext i
        exact equals_at_agree E a b hmem hrefl i
      · simp [hs]
  exact ⟨hmain, fun hcls => by simp [abstract_tuple.virtual_equals, hcls, hmain]⟩

theorem object_array_equals_agrees_witness :
    (∀ u v, sample_tuple_externals.equals u v v = true) ∧
    object_array.equals sample_tuple_externals sample_tuple sample_tuple_copy
      = abstract_tuple.equals sample_tuple_externals sample_tuple sample_tuple_copy ∧
    object_array.equals sample_tuple_externals sample_tuple sample_tuple_copy = true :=
  ⟨fun u v => by simp [sample_tuple_externals],
   (object_array_equals_agrees sample_tuple_externals sample_tuple sample_tuple_copy
      (fun h => absurd h (by decide))
      (fun i x y hx hy h => by
        cases i with
        | zero =>
          simp only [sample_tuple, sample_tuple_copy, List.get?_cons_zero,
            Option.some.injEq] at hx hy
          subst hx hy
          rfl
        | succ n => simp [sample_tuple] at hx)
      (fun u => by simp [sample_tuple_externals])
      (fun u v => by simp [sample_tuple_externals])).1,
   by rfl⟩

/-! ## Subscriptions of a local group and their handles -/

theorem consistent_step (s : subscribed_group) (op : subscription_op)
    (hs : s.consistent) (hop : op.is_unsubscribe = false) :
    (s.step op).consistent := by
  obtain ⟨hnd, hgrp, hiff⟩ := hs
  cases op with
  | unsubscribe who => simp [subscription_op.is_unsubscribe] at hop
  | subscribe who =>
    by_cases hw : who ∈ s.g.m_subscribers
    · have : s.g.subscribe who = (none, s.g) := by simp [local_group.subscribe, hw]
      simp only [subscribed_group.step, this]
      exact ⟨hnd, hgrp, hiff⟩
    · have : s.g.subscribe who
          = (some { m_self := who, m_group := some s.g.self },
             { s.g with m_subscribers := s.g.m_subscribers.orderedInsert channel.le who }) := by
        simp [local_group.subscribe, hw]
      simp only [subscribed_group.step, this]
      refine ⟨?_, ?_, ?_⟩
      · refine List.Nodup.append hnd (List.nodup_singleton _) ?_
        intro u hu hu'
        rw [List.mem_singleton] at hu'
        subst hu'
        exact hw ((hiff who).mpr hu)
      · intro u hu
        rcases List.mem_append.mp hu with h | h
        · exact hgrp u h
        · rw [List.mem_singleton] at h
          rw [h]
      · intro c
        simp only [List.mem_orderedInsert, List.mem_append, List.mem_singleton,
          unsubscriber.mk.injEq, and_true]
        rw [hiff c]
        tauto
  | destroy u =>
    by_cases hu : u ∈ s.handles
    · have hg := hgrp u hu
      have hd : local_group.unsubscriber_destroy u s.g = s.g.unsubscribe u.m_self := by
        simp [local_group.unsubscriber_destroy, hg]
      simp only [subscribed_group.step, hu, if_true, hd]
      refine ⟨hnd.erase u, fun v hv => hgrp v (List.mem_of_mem_erase hv), ?_⟩
      intro c
      simp only [local_group.unsubscribe, List.mem_filter, decide_eq_true_eq]
      rw [hnd.mem_erase_iff, hiff c]
      have hu_eq : u = { m_self := u.m_self, m_group := some s.g.self } := by
        cases u
        simp only [unsubscriber.mk.injEq, true_and]
        exact hg
      constructor
      · rintro ⟨h1, h2⟩
        refine ⟨?_, h1⟩
        intro h3
        rw [hu_eq] at h3
        exact h2 (unsubscriber.mk.inj h3).1
      · rintro ⟨h1, h2⟩
        refine ⟨h2, ?_⟩
        intro h3
        apply h1
        rw [hu_eq, h3]
    · simp only [subscribed_group.step, hu, if_false]
      exact ⟨hnd, hgrp, hiff⟩

theorem consistent_run (ops : List subscription_op) (s : subscribed_group)
    (hs : s.consistent) (hops : ∀ op ∈ ops, op.is_unsubscribe = false) :
    (s.run ops).consistent := by
  induction ops generalizing s with
  | nil => exact hs
  | cons op ops ih =>
    exact ih (s.step op)
      (consistent_step s op hs (hops op (List.mem_cons_self _ _)))
      (fun o ho => hops o (List.mem_cons_of_mem _ ho))

theorem handles_of_consistent (s : subscribed_group) (hs : s.consistent) (c : channel) :
    s.handles_of c = if c ∈ s.g.m_subscribers then 1 else 0 := by
  obtain ⟨hnd, hgrp, hiff⟩ := hs
  have hf : s.handles.filter (fun u => decide (u.m_self = c))
      = s.handles.filter (fun u => u == { m_self := c, m_group := some s.g.self }) := by
    apply List.filter_congr
    intro u hu
    have hg := hgrp u hu
    cases u with
    | mk m g =>
      simp only at hg
      subst hg
      by_cases h : m = c <;> simp [h]
  unfold subscribed_group.handles_of
  rw [hf, ← List.countP_eq_length_filter]
  show List.count _ s.handles = _
  by_cases hc : c ∈ s.g.m_subscribers
  · simp only [hc, if_true]
    exact List.count_eq_one_of_mem hnd ((hiff c).mp hc)
  · simp only [hc, if_false]
    exact List.count_eq_zero_of_not_mem (fun h => hc ((hiff c).mpr h))

/-- C39 (as stated, refuted): after `subscribe(c)`, a direct `unsubscribe(c)` and another
`subscribe(c)`, two non-empty subscriptions for the subscribed channel `c` are alive; the
destruction of one of them then ends the subscription of `c` while the other is still
alive. -/
theorem two_handles_for_one_channel :
    (((subscribed_group.init 1 ['g']).run
      [.subscribe (.other 7), .unsubscribe (.other 7), .subscribe (.other 7)]).handles_of
        (.other 7) = 2) ∧
    channel.other 7 ∈ ((subscribed_group.init 1 ['g']).run
      [.subscribe (.other 7), .unsubscribe (.other 7), .subscribe (.other 7)]).g.m_subscribers ∧
    (((subscribed_group.init 1 ['g']).run
      [.subscribe (.other 7), .unsubscribe (.other 7), .subscribe (.other 7),
       .destroy { m_self := .other 7, m_group := some (local_group.init 1 ['g']).self }]
        ).handles_of (.other 7) = 1) ∧
    channel.other 7 ∉ ((subscribed_group.init 1 ['g']).run
      [.subscribe (.other 7), .unsubscribe (.other 7), .subscribe (.other 7),
       .destroy { m_self := .other 7, m_group := some (local_group.init 1 ['g']).self }]
        ).g.m_subscribers := by
  decide

/-- C39 (amended): in every state of a local group, `subscribe(c)` for a channel `c` that
is already subscribed leaves the subscriber set unchanged and returns an empty
subscription; hence, after every sequence of `subscribe` calls and destructions of
subscriptions on a new group in which `unsubscribe` is not called directly, one non-empty
subscription is alive for every subscribed channel and none for any other channel; the
destruction of that subscription, like `unsubscribe(c)`, removes `c` and nothing else. -/
theorem subscription_handles (g : local_group) (c : channel) (addr : Nat)
    (gname : List Char) (ops : List subscription_op)
    (hops : ∀ op ∈ ops, op.is_unsubscribe = false) :
    (c ∈ g.m_subscribers → g.subscribe c = (none, g)) ∧
    (∀ d, ((subscribed_group.init addr gname).run ops).handles_of d
      = if d ∈ ((subscribed_group.init addr gname).run ops).g.m_subscribers then 1 else 0) ∧
    (∀ u ∈ ((subscribed_group.init addr gname).run ops).handles,
      ∀ d, d ∈ (((subscribed_group.init addr gname).run ops).step (.destroy u)).g.m_subscribers
        ↔ d ∈ ((subscribed_group.init addr gname).run ops).g.m_subscribers ∧ d ≠ u.m_self) ∧
    (∀ d, d ∈ (g.unsubscribe c).m_subscribers ↔ d ∈ g.m_subscribers ∧ d ≠ c) := by
  have h0 : (subscribed_group.init addr gname).consistent :=
    ⟨List.nodup_nil, fun u hu => by simp [subscribed_group.init] at hu,
     fun d => by simp [subscribed_group.init, local_group.init]⟩
  have hc := consistent_run ops _ h0 hops
  refine ⟨fun h => by simp [local_group.subscribe, h],
    fun d => handles_of_consistent _ hc d, ?_, ?_⟩
  · intro u hu d
    have hg := hc.2.1 u hu
    simp [subscribed_group.step, hu, local_group.unsubscriber_destroy, hg,
      local_group.unsubscribe]
  · intro d
    simp [local_group.unsubscribe]

theorem subscription_handles_witness :
    (∀ op ∈ [subscription_op.subscribe (.other 7), .subscribe (.other 7)],
      op.is_unsubscribe = false) ∧
    ((subscribed_group.init 1 ['g']).run
      [.subscribe (.other 7), .subscribe (.other 7)]).handles_of (.other 7) = 1 :=
  ⟨by decide,
   ((subscription_handles (local_group.init 1 ['g']) (.other 7) 1 ['g']
      [.subscribe (.other 7), .subscribe (.other 7)] (by decide)).2.1 (.other 7)).trans
    (by decide)⟩

/-! ## Termination of `enqueue` -/

theorem mutual_groups_never_return (fuel : Nat) (sender : Option actor) (m : List Value) :
    sample_group_a.enqueue [(1, sample_group_a), (2, sample_group_b)] fuel sender m = none ∧
    sample_group_b.enqueue [(1, sample_group_a), (2, sample_group_b)] fuel sender m
      = none := by
  induction fuel with
  | zero => exact ⟨rfl, rfl⟩
  | succ fuel ih =>
    obtain ⟨ha, hb⟩ := ih
    have h1 : sample_group_a.m_subscribers
        = [.is_group { addr := 2, m_identifier := ['b'], m_module_name := local_name }] := by
      rfl
    have h2 : sample_group_b.m_subscribers
        = [.is_group { addr := 1, m_identifier := ['a'], m_module_name := local_name }] := by
      rfl
    constructor
    · simp only [local_group.enqueue, h1, local_group.enqueue_loop, map_find]
      simp [hb]
    · simp only [local_group.enqueue, h2, local_group.enqueue_loop, map_find]
      simp [ha]

theorem enqueue_returns_of_rank (heap : List (Nat × local_group)) (rank : Nat → Nat)
    (hrank : acyclic_groups heap rank) (sender : Option actor) (m : List Value) :
    ∀ (fuel a : Nat) (g : local_group), map_find a heap = some g → rank a < fuel →
      g.enqueue heap fuel sender m
        = some (g.m_subscribers.map
            (fun c => { receiver := c, sender := sender, msg := m }), g) := by
  intro fuel
  induction fuel with
  | zero => intro a g _ h; omega
  | succ fuel ih =>
    intro a g hg hlt
    simp only [local_group.enqueue]
    rw [enqueue_loop_returns]
    · rfl
    · intro c hc
      cases c with
      | is_actor x => rfl
      | other n => rfl
      | is_group h =>
        cases hf : map_find h.addr heap with
        | none => simp [hf]
        | some hg' =>
          have hr := hrank a g hg h hc hg' hf
          simp [hf, ih h.addr hg' hf (by omega)]

/-- C40 (as stated, refuted): two local groups that are subscribed to each other are
reachable states, and `enqueue` on either of them never returns. -/
theorem mutually_subscribed_enqueue_diverges :
    sample_group_a.reachable ∧ sample_group_b.reachable ∧
    sample_group_a.m_subscribers = [channel.is_group sample_group_b.self] ∧
    sample_group_b.m_subscribers = [channel.is_group sample_group_a.self] ∧
    ∀ (fuel : Nat) (sender : Option actor) (m : List Value),
      sample_group_a.enqueue [(1, sample_group_a), (2, sample_group_b)] fuel sender m
        = none :=
  ⟨local_group.reachable.subscribe _ _ (local_group.reachable.init 1 ['a']),
   local_group.reachable.subscribe _ _ (local_group.reachable.init 2 ['b']),
   by rfl, by rfl, fun fuel sender m => (mutual_groups_never_return fuel sender m).1⟩

/-- C40 (amended): `local_group::enqueue` terminates for every subscription state in
which the subscriptions of groups to groups do not run in a circle, states in which a
subscriber of a group is itself a group included: the call returns after it has called
`enqueue` on every subscriber, and the group is unchanged. -/
theorem enqueue_terminates (heap : List (Nat × local_group)) (rank : Nat → Nat)
    (hrank : acyclic_groups heap rank) (a : Nat) (g : local_group)
    (hg : map_find a heap = some g) (sender : Option actor) (m : List Value) :
    ∃ fuel, ∀ fuel', fuel ≤ fuel' →
      g.enqueue heap fuel' sender m
        = some (g.m_subscribers.map
            (fun c => { receiver := c, sender := sender, msg := m }), g) :=
  ⟨rank a + 1, fun fuel' h =>
    enqueue_returns_of_rank heap rank hrank sender m fuel' a g hg (by omega)⟩

theorem enqueue_terminates_witness :
    acyclic_groups [(1, sample_group_a), (2, sample_inner_group)]
      (fun a => if a = 1 then 1 else 0) ∧
    sample_group_a.m_subscribers = [channel.is_group sample_inner_group.self] ∧
    ∃ fuel, ∀ fuel', fuel ≤ fuel' →
      sample_group_a.enqueue [(1, sample_group_a), (2, sample_inner_group)] fuel'
          none []
        = some (sample_group_a.m_subscribers.map
            (fun c => { receiver := c, sender := none, msg := [] }), sample_group_a) :=
  have hacyclic : acyclic_groups [(1, sample_group_a), (2, sample_inner_group)]
      (fun a => if a = 1 then 1 else 0) := by
    intro a g hg h hmem hg' hf
    simp only [map_find] at hg
    by_cases h1 : 1 = a
    · simp only [h1, if_true, Option.some.injEq] at hg
      subst hg
      have hs : sample_group_a.m_subscribers
          = [.is_group { addr := 2, m_identifier := ['b'], m_module_name := local_name }] := by
        rfl
      rw [hs, List.mem_singleton] at hmem
      cases hmem
      simp [← h1]
    · simp only [h1, if_false] at hg
      by_cases h2 : 2 = a
      · simp only [h2, if_true, Option.some.injEq] at hg
        subst hg
        have hs : sample_inner_group.m_subscribers = [.other 7] := by rfl
        rw [hs, List.mem_singleton] at hmem
        cases hmem
      · simp [h2] at hg
  ⟨hacyclic, by rfl,
   enqueue_terminates [(1, sample_group_a), (2, sample_inner_group)]
     (fun a => if a = 1 then 1 else 0) hacyclic 1 sample_group_a (by rfl) none []⟩

end cppa
